import Mathlib

/-!
# figma-auth: a verification development

A shallow embedding of `figma-auth.go`, the relay that exchanges an OAuth
authorization code for a Figma access token, together with models of the
library calls it makes (net/url, encoding/json, gin, net/http), and the
theorems about it.

The program is one file; everything it does goes through libraries, so
what a request gets depends on them.  They are modelled from their
documented behaviour:

* net/url: `QueryEscape`, `QueryUnescape`, `Values.Set`, `Values.Encode` and
  `ParseQuery` (Go 1.17 and later, where a semicolon is not a separator);
* encoding/json: the grammar of the scanner, the unquoting of strings, the
  decoding of an object into the struct (keys matched exactly or under case
  folding, `null` leaving a field as it is, a value of the wrong type being an
  error), and the encoder for the answer; `uint` has 64 bits;
* gin: the response writer (a status recorded, then committed once, the body
  appended), `Context.Next` and `Abort`, the render calls, and the dispatch of
  `Engine.handleHTTPRequest` with gin's defaults, trailing-slash redirect
  included;
* what the program cannot decide stays a parameter (`World`): the reply of
  the upstream provider to `http.Post`, and what the enforcement step of
  unrolled/secure does to the response and whether it returns an error.

The model starts where gin receives the request (`Engine.ServeHTTP`) and
ends with what the handlers have committed to the connection; headers that
net/http adds on its own (Date, Content-Length) are left out.

Layout: definitions first (strings and net/url, encoding/json, gin, the
program itself, sample inputs and the predicates of the statements), then
lemmas and theorems.
-/

set_option autoImplicit false

namespace FigmaAuth

/-! ## Go strings

A Go `string` is a sequence of bytes.  Query strings, URLs and environment
values are kept as byte lists, since `net/url` escapes byte by byte. -/

/-- A byte. -/
abbrev Byte := Fin 256

/-- A Go string: its bytes in order. -/
abbrev Bytes := List Byte

/-- The bytes of an ASCII literal of the source. -/
def ascii (s : String) : Bytes := s.toList.map (fun c => Fin.ofNat c.toNat)

/-! ## net/url -/

/-- Model of `shouldEscape(c, encodeQueryComponent)` of net/url: letters,
digits and `-`, `_`, `.`, `~` are kept, every other byte is escaped. -/
def shouldEscape (c : Byte) : Bool :=
  if (97 ≤ c.val ∧ c.val ≤ 122) ∨ (65 ≤ c.val ∧ c.val ≤ 90) ∨ (48 ≤ c.val ∧ c.val ≤ 57) then false
  else if c.val = 45 ∨ c.val = 95 ∨ c.val = 46 ∨ c.val = 126 then false
  else true

/-- Model of `upperhex[n]`, the table "0123456789ABCDEF" of net/url. -/
def upperhex (n : Nat) : Byte :=
  if n < 10 then Fin.ofNat (48 + n) else Fin.ofNat (55 + n)

/-- Model of `url.QueryEscape`: a space becomes `+`, a byte that
`shouldEscape` becomes `%XX`, any other byte is copied. -/
def QueryEscape : Bytes → Bytes
  | [] => []
  | c :: rest =>
    if c.val = 32 then (43 : Byte) :: QueryEscape rest
    else if shouldEscape c then
      (37 : Byte) :: upperhex (c.val / 16) :: upperhex (c.val % 16) :: QueryEscape rest
    else c :: QueryEscape rest

/-- Model of `ishex` of net/url. -/
def ishex (c : Byte) : Bool :=
  (48 ≤ c.val ∧ c.val ≤ 57) ∨ (97 ≤ c.val ∧ c.val ≤ 102) ∨ (65 ≤ c.val ∧ c.val ≤ 70)

/-- Model of `unhex` of net/url. -/
def unhex (c : Byte) : Nat :=
  if 48 ≤ c.val ∧ c.val ≤ 57 then c.val - 48
  else if 97 ≤ c.val ∧ c.val ≤ 102 then c.val - 97 + 10
  else if 65 ≤ c.val ∧ c.val ≤ 70 then c.val - 65 + 10
  else 0

/-- Model of `url.QueryUnescape`: `%XX` is decoded (an error when the two
bytes after `%` are missing or are not hex digits), `+` becomes a space. -/
def QueryUnescape : Bytes → Option Bytes
  | [] => some []
  | c :: rest =>
    if c.val = 37 then
      match rest with
      | h1 :: h2 :: rest2 =>
        if ishex h1 ∧ ishex h2 then
          (QueryUnescape rest2).map (fun t => Fin.ofNat (unhex h1 * 16 + unhex h2) :: t)
        else none
      | _ => none
    else if c.val = 43 then (QueryUnescape rest).map (fun t => (32 : Byte) :: t)
    else (QueryUnescape rest).map (fun t => c :: t)

/-- Model of `strings.Cut(s, sep)` for a one-byte separator: the text before
the first separator and the text after it (the whole of `s` and nothing when
there is none). -/
def cut (sep : Byte) : Bytes → Bytes × Bytes
  | [] => ([], [])
  | c :: rest => if c = sep then ([], rest) else ((cut sep rest).1.cons c, (cut sep rest).2)

/-- The pieces of `s` between separators, as the loop
`for query != "" { key, query, _ = strings.Cut(query, "&") ... }` of
`url.ParseQuery` meets them. -/
def pieces (sep : Byte) : Bytes → List Bytes
  | [] => []
  | c :: rest =>
    if c = sep then [] :: pieces sep rest
    else match pieces sep rest with
      | [] => [[c]]
      | p :: ps => (c :: p) :: ps

/-- The result of `url.ParseQuery`: the pairs in the order they were
appended, and whether an error was recorded. -/
structure ParsedQuery where
  pairs : List (Bytes × Bytes)
  err : Bool
deriving DecidableEq, Repr

/-- One round of the loop of `url.ParseQuery` on the piece `key`: a piece
with a semicolon records an error, an empty piece is skipped, otherwise key
and value are cut at the first `=`, unescaped and appended. -/
def parseQueryStep (acc : ParsedQuery) (key : Bytes) : ParsedQuery :=
  if (59 : Byte) ∈ key then { acc with err := true }
  else if key = [] then acc
  else
    match QueryUnescape (cut 61 key).1, QueryUnescape (cut 61 key).2 with
    | some k, some v => { acc with pairs := acc.pairs ++ [(k, v)] }
    | _, _ => { acc with err := true }

/-- Model of `url.ParseQuery`. -/
def ParseQuery (query : Bytes) : ParsedQuery :=
  (pieces 38 query).foldl parseQueryStep { pairs := [], err := false }

/-- Model of `url.Values`, a map from key to the list of its values, kept
as an association list with one entry per key. -/
structure Values where
  entries : List (Bytes × List Bytes)
deriving DecidableEq, Repr

/-- Model of `Values.Set`: the key's values are replaced by the one value. -/
def Values.Set (v : Values) (key value : Bytes) : Values :=
  if v.entries.any (fun e => e.1 = key) then
    ⟨v.entries.map (fun e => if e.1 = key then (key, [value]) else e)⟩
  else ⟨v.entries ++ [(key, [value])]⟩

/-- Bytewise lexicographic order on Go strings, the order of `sort.Strings`. -/
def bytesLe : Bytes → Bytes → Bool
  | [], _ => true
  | _ :: _, [] => false
  | a :: as, b :: bs => if a.val < b.val then true else if b.val < a.val then false else bytesLe as bs

/-- Insertion of an entry into a list of entries sorted by key. -/
def insertByKey (e : Bytes × List Bytes) : List (Bytes × List Bytes) → List (Bytes × List Bytes)
  | [] => [e]
  | f :: rest => if bytesLe e.1 f.1 then e :: f :: rest else f :: insertByKey e rest

/-- The entries of a `url.Values` in the order of their sorted keys. -/
def sortByKey (v : List (Bytes × List Bytes)) : List (Bytes × List Bytes) := v.foldr insertByKey []

/-- Model of `Values.Encode`: keys sorted, each value written as
`QueryEscape(key)=QueryEscape(value)`, the pairs joined by `&`. -/
def Values.Encode (v : Values) : Bytes :=
  List.intercalate [(38 : Byte)]
    ((sortByKey v.entries).flatMap (fun e => e.2.map (fun x => QueryEscape e.1 ++ [(61 : Byte)] ++ QueryEscape x)))

/-! ## encoding/json

The body of the upstream reply is kept as the sequence of its characters
(the decoding of its UTF-8 text).  `parseValue` follows the grammar that the
scanner of encoding/json accepts and the unquoting its decoder applies to
string literals. -/

/-- A JSON value.  A number keeps its literal text, as the decoder of
encoding/json hands it to strconv. -/
inductive Json where
  | null : Json
  | bool (b : Bool) : Json
  | num (lit : List Char) : Json
  | str (s : String) : Json
  | arr (elems : List Json) : Json
  | obj (members : List (String × Json)) : Json

/-- Model of `maxNestingDepth` of encoding/json's scanner. -/
def maxNestingDepth : Nat := 10000

/-- Model of `isSpace` of encoding/json. -/
def isSpace (c : Char) : Bool := c = ' ' ∨ c = '\t' ∨ c = '\r' ∨ c = '\n'

/-- The text after its leading JSON white space. -/
def skipSpace : List Char → List Char
  | [] => []
  | c :: rest => if isSpace c then skipSpace rest else c :: rest

/-- The value of a hexadecimal digit. -/
def hexVal (c : Char) : Option Nat :=
  if 48 ≤ c.toNat ∧ c.toNat ≤ 57 then some (c.toNat - 48)
  else if 97 ≤ c.toNat ∧ c.toNat ≤ 102 then some (c.toNat - 87)
  else if 65 ≤ c.toNat ∧ c.toNat ≤ 70 then some (c.toNat - 55)
  else none

/-- Model of `getu4` of encoding/json: the number written by a `\uXXXX`
escape at the head of the text, or nothing. -/
def getu4 : List Char → Option Nat
  | bs :: u :: a :: b :: c :: d :: _ =>
    if bs = '\\' ∧ u = 'u' then
      match hexVal a, hexVal b, hexVal c, hexVal d with
      | some x, some y, some z, some w => some (x * 4096 + y * 256 + z * 16 + w)
      | _, _, _, _ => none
    else none
  | _ => none

/-- Model of `utf16.IsSurrogate`. -/
def isSurrogate (r : Nat) : Bool := 0xd800 ≤ r ∧ r < 0xe000

/-- Model of `utf16.DecodeRune`: the code point of a surrogate pair, or
nothing (Go returns U+FFFD) when the two are not a pair. -/
def decodeRune (r1 r2 : Nat) : Option Nat :=
  if 0xd800 ≤ r1 ∧ r1 < 0xdc00 ∧ 0xdc00 ≤ r2 ∧ r2 < 0xe000 then
    some ((r1 - 0xd800) * 1024 + (r2 - 0xdc00) + 0x10000)
  else none

/-- The character a one-letter escape stands for (`getu4` handles `u`). -/
def simpleEscape (e : Char) : Option Char :=
  if e = '"' then some '"'
  else if e = '\\' then some '\\'
  else if e = '/' then some '/'
  else if e = 'b' then some (Char.ofNat 8)
  else if e = 'f' then some (Char.ofNat 12)
  else if e = 'n' then some '\n'
  else if e = 'r' then some '\r'
  else if e = 't' then some '\t'
  else none

/-- A string literal after its opening quote: the decoded characters and
the text after the closing quote.  Follows the scanner (a control character
or an unknown escape is a syntax error) and `unquote` (an escape that is not
half of a surrogate pair, or an unpaired half, decodes to U+FFFD). -/
def parseString : Nat → List Char → Option (List Char × List Char)
  | 0, _ => none
  | fuel + 1, s =>
    match s with
    | [] => none
    | c :: rest =>
      if c = '"' then some ([], rest)
      else if c = '\\' then
        match rest with
        | [] => none
        | e :: rest2 =>
          if e = 'u' then
            match getu4 s with
            | none => none
            | some rr =>
              if isSurrogate rr then
                match (getu4 (rest2.drop 4)).bind (decodeRune rr) with
                | some dec =>
                  (parseString fuel (rest2.drop 10)).map (fun r => (Char.ofNat dec :: r.1, r.2))
                | none =>
                  (parseString fuel (rest2.drop 4)).map (fun r => (Char.ofNat 0xFFFD :: r.1, r.2))
              else (parseString fuel (rest2.drop 4)).map (fun r => (Char.ofNat rr :: r.1, r.2))
          else
            match simpleEscape e with
            | none => none
            | some d => (parseString fuel rest2).map (fun r => (d :: r.1, r.2))
      else if c.toNat < 0x20 then none
      else (parseString fuel rest).map (fun r => (c :: r.1, r.2))

/-- A decimal digit. -/
def isDigit (c : Char) : Bool := 48 ≤ c.toNat ∧ c.toNat ≤ 57

/-- The leading digits of the text, and the text after them. -/
def takeDigits : List Char → List Char × List Char
  | [] => ([], [])
  | c :: rest =>
    if isDigit c then (c :: (takeDigits rest).1, (takeDigits rest).2) else ([], c :: rest)

/-- The optional minus sign of a number literal. -/
def scanSign : List Char → List Char × List Char
  | [] => ([], [])
  | c :: rest => if c = '-' then (['-'], rest) else ([], c :: rest)

/-- The integer part of a number literal: `0`, or a non-zero digit and more
digits. -/
def scanInt : List Char → Option (List Char × List Char)
  | [] => none
  | c :: rest =>
    if c = '0' then some (['0'], rest)
    else if isDigit c then some (c :: (takeDigits rest).1, (takeDigits rest).2)
    else none

/-- The optional fraction of a number literal: a dot and at least one digit. -/
def scanFrac : List Char → Option (List Char × List Char)
  | [] => some ([], [])
  | c :: rest =>
    if c = '.' then
      if (takeDigits rest).1 = [] then none
      else some ('.' :: (takeDigits rest).1, (takeDigits rest).2)
    else some ([], c :: rest)

/-- The digits of an exponent, at least one. -/
def scanExpDigits (pre rest : List Char) : Option (List Char × List Char) :=
  if (takeDigits rest).1 = [] then none
  else some (pre ++ (takeDigits rest).1, (takeDigits rest).2)

/-- The optional exponent of a number literal: `e` or `E`, an optional sign
and at least one digit. -/
def scanExp : List Char → Option (List Char × List Char)
  | [] => some ([], [])
  | c :: rest =>
    if c = 'e' ∨ c = 'E' then
      match rest with
      | [] => none
      | g :: rest2 =>
        if g = '+' ∨ g = '-' then scanExpDigits [c, g] rest2
        else scanExpDigits [c] rest
    else some ([], c :: rest)

/-- A number literal at the head of the text: its characters and the text
after it. -/
def parseNumber (s : List Char) : Option (List Char × List Char) :=
  match scanInt (scanSign s).2 with
  | none => none
  | some (ip, r1) =>
    match scanFrac r1 with
    | none => none
    | some (fp, r2) =>
      match scanExp r2 with
      | none => none
      | some (ep, r3) => some ((scanSign s).1 ++ ip ++ fp ++ ep, r3)

/-- The text after the word `w`, when the text starts with it. -/
def dropWord : List Char → List Char → Option (List Char)
  | [], s => some s
  | _ :: _, [] => none
  | w :: ws, c :: rest => if c = w then dropWord ws rest else none

mutual
/-- A JSON value at the head of the text (which has no leading white space):
the value and the text after it.  `depth` is the number of arrays and objects
that are open. -/
def parseValue : Nat → Nat → List Char → Option (Json × List Char)
  | 0, _, _ => none
  | fuel + 1, depth, s =>
    match s with
    | [] => none
    | c :: rest =>
      if c = '{' then
        if maxNestingDepth < depth + 1 then none
        else
          match skipSpace rest with
          | [] => none
          | d :: rest2 =>
            if d = '}' then some (Json.obj [], rest2)
            else (parseMembers fuel (depth + 1) (d :: rest2)).map (fun r => (Json.obj r.1, r.2))
      else if c = '[' then
        if maxNestingDepth < depth + 1 then none
        else
          match skipSpace rest with
          | [] => none
          | d :: rest2 =>
            if d = ']' then some (Json.arr [], rest2)
            else (parseElems fuel (depth + 1) (d :: rest2)).map (fun r => (Json.arr r.1, r.2))
      else if c = '"' then
        (parseString fuel rest).map (fun r => (Json.str (String.mk r.1), r.2))
      else if c = 't' then (dropWord ['r', 'u', 'e'] rest).map (fun r => (Json.bool true, r))
      else if c = 'f' then (dropWord ['a', 'l', 's', 'e'] rest).map (fun r => (Json.bool false, r))
      else if c = 'n' then (dropWord ['u', 'l', 'l'] rest).map (fun r => (Json.null, r))
      else if c = '-' ∨ isDigit c then (parseNumber s).map (fun r => (Json.num r.1, r.2))
      else none
/-- The elements of an array after the first one's start, up to the closing
bracket. -/
def parseElems : Nat → Nat → List Char → Option (List Json × List Char)
  | 0, _, _ => none
  | fuel + 1, depth, s =>
    match parseValue fuel depth s with
    | none => none
    | some (v, rest) =>
      match skipSpace rest with
      | [] => none
      | d :: rest2 =>
        if d = ',' then
          (parseElems fuel depth (skipSpace rest2)).map (fun r => (v :: r.1, r.2))
        else if d = ']' then some ([v], rest2)
        else none
/-- The members of an object from the first key's opening quote up to the
closing brace. -/
def parseMembers : Nat → Nat → List Char → Option (List (String × Json) × List Char)
  | 0, _, _ => none
  | fuel + 1, depth, s =>
    match s with
    | [] => none
    | q :: rest =>
      if q = '"' then
        match parseString fuel rest with
        | none => none
        | some (k, rest2) =>
          match skipSpace rest2 with
          | [] => none
          | col :: rest3 =>
            if col = ':' then
              match parseValue fuel depth (skipSpace rest3) with
              | none => none
              | some (v, rest4) =>
                match skipSpace rest4 with
                | [] => none
                | d :: rest5 =>
                  if d = ',' then
                    (parseMembers fuel depth (skipSpace rest5)).map
                      (fun r => ((String.mk k, v) :: r.1, r.2))
                  else if d = '}' then some ([(String.mk k, v)], rest5)
                  else none
            else none
      else none
end

/-- The JSON value a whole text spells (white space allowed around it), or
nothing when the text is not valid JSON: the check `checkValid` that
`json.Unmarshal` makes before it decodes. -/
def parseJSON (s : List Char) : Option Json :=
  match parseValue (2 * s.length + 1) 0 (skipSpace s) with
  | none => none
  | some (v, rest) => if skipSpace rest = [] then some v else none


/-- Model of Go's `uint` on a 64-bit target: `strconv.ParseUint(s, 10, 64)`
followed by `v.OverflowUint(n)` accepts exactly the values below `2 ^ 64`. -/
def uintSize : Nat := 64

/-- The struct the upstream body is decoded into. -/
structure OAuthAccessTokenResponseRaw where
  AccessToken : String
  RefreshToken : String
  ExpiresIn : Nat
deriving DecidableEq, Repr

/-- The struct the relay answers with. -/
structure OAuthAccessTokenResponse where
  AccessToken : String
  RefreshToken : String
  ExpiresIn : Nat
deriving DecidableEq, Repr

/-- The fields of `OAuthAccessTokenResponseRaw`. -/
inductive RawField where
  | AccessToken
  | RefreshToken
  | ExpiresIn
deriving DecidableEq, Repr

/-- The JSON name of a field, from its `json:"..."` tag. -/
def RawField.tag : RawField → String
  | .AccessToken => "access_token"
  | .RefreshToken => "refresh_token"
  | .ExpiresIn => "expires_in"

/-- Model of the case folding under which encoding/json compares an object
key with a field name (`foldName`, `equalFoldRight` in older releases): an
ASCII letter folds to its capital, and so do the two letters outside ASCII
whose simple case folding is an ASCII letter, U+017F (long s) and U+212A
(Kelvin sign).  Every other character is left as it is, which decides the
comparison with an ASCII name the same way. -/
def foldChar (c : Char) : Char :=
  if 97 ≤ c.toNat ∧ c.toNat ≤ 122 then Char.ofNat (c.toNat - 32)
  else if c.toNat = 0x17F then 'S'
  else if c.toNat = 0x212A then 'K'
  else c

/-- The folded form of a name. -/
def foldName (s : String) : List Char := s.toList.map foldChar

/-- Model of the field lookup of the decoder's `object`: the field whose
name is the key exactly, otherwise the first field whose name is the key under
case folding, otherwise none (the member is skipped). -/
def findField (key : String) : Option RawField :=
  if key = RawField.AccessToken.tag then some .AccessToken
  else if key = RawField.RefreshToken.tag then some .RefreshToken
  else if key = RawField.ExpiresIn.tag then some .ExpiresIn
  else if foldName key = foldName RawField.AccessToken.tag then some .AccessToken
  else if foldName key = foldName RawField.RefreshToken.tag then some .RefreshToken
  else if foldName key = foldName RawField.ExpiresIn.tag then some .ExpiresIn
  else none

/-- The number a text of decimal digits writes, read from the left with
`acc` the value so far; nothing when a character is not a digit. -/
def digitsValue : Nat → List Char → Option Nat
  | acc, [] => some acc
  | acc, c :: rest => if isDigit c then digitsValue (acc * 10 + (c.toNat - 48)) rest else none

/-- Model of `strconv.ParseUint(s, 10, 64)` followed by `OverflowUint`: the
text must be one or more decimal digits and the value must fit a `uint`. -/
def parseUint (lit : List Char) : Option Nat :=
  match lit with
  | [] => none
  | _ :: _ =>
    match digitsValue 0 lit with
    | none => none
    | some n => if n < 2 ^ uintSize then some n else none

/-- The state of a decode: the struct so far, and whether an
`UnmarshalTypeError` was saved. -/
structure DecodeState where
  value : OAuthAccessTokenResponseRaw
  typeError : Bool
deriving DecidableEq, Repr

/-- Model of the decoder storing a JSON value into a `string` field: a
string is stored, `null` leaves the field as it is, any other value saves an
`UnmarshalTypeError`. -/
def storeString (j : Json) (cur : String) : String × Bool :=
  match j with
  | Json.null => (cur, false)
  | Json.str s => (s, false)
  | _ => (cur, true)

/-- Model of the decoder storing a JSON value into a `uint` field: a number
that `parseUint` accepts is stored, `null` leaves the field as it is, any
other value saves an `UnmarshalTypeError`. -/
def storeUint (j : Json) (cur : Nat) : Nat × Bool :=
  match j with
  | Json.null => (cur, false)
  | Json.num lit =>
    match parseUint lit with
    | some n => (n, false)
    | none => (cur, true)
  | _ => (cur, true)

/-- One member of the object: stored into the field its key names, skipped
when it names none.  An error is saved and the decode goes on. -/
def decodeMember (st : DecodeState) (m : String × Json) : DecodeState :=
  match findField m.1 with
  | none => st
  | some RawField.AccessToken =>
    { value := { st.value with AccessToken := (storeString m.2 st.value.AccessToken).1 },
      typeError := st.typeError || (storeString m.2 st.value.AccessToken).2 }
  | some RawField.RefreshToken =>
    { value := { st.value with RefreshToken := (storeString m.2 st.value.RefreshToken).1 },
      typeError := st.typeError || (storeString m.2 st.value.RefreshToken).2 }
  | some RawField.ExpiresIn =>
    { value := { st.value with ExpiresIn := (storeUint m.2 st.value.ExpiresIn).1 },
      typeError := st.typeError || (storeUint m.2 st.value.ExpiresIn).2 }

/-- Model of the decoder on a value whose target is the struct: an object
is decoded member by member in order, `null` leaves the struct as it is, any
other value is an `UnmarshalTypeError`. -/
def decodeValue (j : Json) (v : OAuthAccessTokenResponseRaw) : DecodeState :=
  match j with
  | Json.obj members => members.foldl decodeMember { value := v, typeError := false }
  | Json.null => { value := v, typeError := false }
  | _ => { value := v, typeError := true }

/-- Model of `json.Unmarshal(data, v)` for `v` a pointer to
`OAuthAccessTokenResponseRaw`: a syntax error when the text is not valid JSON,
a type error when a value does not fit its field, the filled struct
otherwise. -/
def Unmarshal (data : String) (v : OAuthAccessTokenResponseRaw) :
    Option OAuthAccessTokenResponseRaw :=
  match parseJSON data.toList with
  | none => none
  | some j => if (decodeValue j v).typeError then none else some (decodeValue j v).value

/-- The values of the members the decoder stores into the field `f`, in
the order of the object: the members whose key names `f`, exactly or under
case folding. -/
def matched (f : RawField) (members : List (String × Json)) : List Json :=
  (members.filter (fun m => findField m.1 = some f)).map (fun m => m.2)

/-- A value that does not fit a `string` field: anything but a string and
`null`. -/
def badString : Json → Bool
  | Json.null => false
  | Json.str _ => false
  | _ => true

/-- A value that does not fit a `uint` field: anything but `null` and a
number written as decimal digits whose value is below `2 ^ 64`. -/
def badUint : Json → Bool
  | Json.null => false
  | Json.num lit => (parseUint lit).isNone
  | _ => true

/-- A member whose value does not fit the field its key names. -/
def memberBad (m : String × Json) : Bool :=
  match findField m.1 with
  | none => false
  | some RawField.AccessToken => badString m.2
  | some RawField.RefreshToken => badString m.2
  | some RawField.ExpiresIn => badUint m.2

/-- A JSON value that does not have the shape of the struct: neither an
object nor `null`, or an object with a member that does not fit its field. -/
def shapeError : Json → Bool
  | Json.obj members => members.any memberBad
  | Json.null => false
  | _ => true

/-- The members of a JSON object, none for any other value. -/
def membersOf : Json → List (String × Json)
  | Json.obj members => members
  | _ => []

/-- The zero value of `OAuthAccessTokenResponseRaw`, what
`new(OAuthAccessTokenResponseRaw)` points to. -/
def zeroRaw : OAuthAccessTokenResponseRaw := { AccessToken := "", RefreshToken := "", ExpiresIn := 0 }

/-- The digit of a number below sixteen in the table "0123456789abcdef". -/
def lowerhex (n : Nat) : Char :=
  if n < 10 then Char.ofNat (48 + n) else Char.ofNat (87 + n)

/-- Model of the string encoder of encoding/json with HTML escaping on (the
default of `json.Marshal`): quote and backslash get a backslash, newline,
carriage return and tab their short escapes, other control characters and
`<`, `>`, `&` the form `\u00XX`, U+2028 and U+2029 the form `\u202X`, any
other character is copied.  (Go 1.22 and later write backspace and form feed
with their short escapes; the text differs, the string it spells does not.) -/
def escapeChar (c : Char) : List Char :=
  if c = '"' then ['\\', '"']
  else if c = '\\' then ['\\', '\\']
  else if c = '\n' then ['\\', 'n']
  else if c = '\r' then ['\\', 'r']
  else if c = '\t' then ['\\', 't']
  else if c.toNat < 0x20 ∨ c = '<' ∨ c = '>' ∨ c = '&' then
    ['\\', 'u', '0', '0', lowerhex (c.toNat / 16), lowerhex (c.toNat % 16)]
  else if c.toNat = 0x2028 ∨ c.toNat = 0x2029 then
    ['\\', 'u', '2', '0', '2', lowerhex (c.toNat % 16)]
  else [c]

/-- A string as a JSON string literal. -/
def encodeString (s : String) : List Char :=
  '"' :: (s.toList.flatMap escapeChar ++ ['"'])

/-- The decimal digits of a number, least significant first. -/
def digitsRev : Nat → Nat → List Char
  | 0, _ => []
  | fuel + 1, n =>
    if n < 10 then [Char.ofNat (48 + n)]
    else Char.ofNat (48 + n % 10) :: digitsRev fuel (n / 10)

/-- Model of `strconv.AppendUint(n, 10)`, the number encoder for `uint`. -/
def formatUint (n : Nat) : List Char := (digitsRev (n + 1) n).reverse

/-- Model of `json.Marshal` on an `OAuthAccessTokenResponse`: the fields in
the order of their declaration, under their Go names (the struct has no
tags). -/
def Marshal (r : OAuthAccessTokenResponse) : String :=
  String.mk ("\x7b\"AccessToken\":".toList ++ encodeString r.AccessToken
    ++ ",\"RefreshToken\":".toList ++ encodeString r.RefreshToken
    ++ ",\"ExpiresIn\":".toList ++ formatUint r.ExpiresIn ++ ['}'])

/-! ## net/http and gin -/

/-- Model of `http.Header`, a map from a canonical key to its values. -/
structure Header where
  entries : List (String × List String)
deriving DecidableEq, Repr

/-- Model of `Header.Get`: the first value of the key, or the empty string.
Keys are compared as stored; net/http stores them in canonical form, which
every key of this program already has. -/
def Header.Get (h : Header) (key : String) : String :=
  match h.entries.find? (fun e => e.1 = key) with
  | some (_, v :: _) => v
  | _ => ""

/-- Whether the map has an entry for the key. -/
def Header.Has (h : Header) (key : String) : Bool := h.entries.any (fun e => e.1 = key)

/-- Model of `Header.Set`: the key's values are replaced by the one value. -/
def Header.Set (h : Header) (key value : String) : Header :=
  ⟨(key, [value]) :: h.entries.filter (fun e => e.1 ≠ key)⟩

/-- The part of an inbound `http.Request` that the program reads. -/
structure Request where
  Method : String
  Path : String
  RawQuery : Bytes
  Header : Header
deriving DecidableEq, Repr

/-- Model of `bodyAllowedForStatus` (net/http and gin): no body goes with a
1xx, 204 or 304 status. -/
def bodyAllowedForStatus (status : Nat) : Bool :=
  if 100 ≤ status ∧ status ≤ 199 then false
  else if status = 204 then false
  else if status = 304 then false
  else true

/-- Model of gin's `responseWriter` over the `http.ResponseWriter` of the
connection: the header map handlers write to, the status gin has recorded,
what has been committed to the connection (`sent`: the status line and the
headers as they were at that moment, nothing while `Written()` is false) and
the body bytes written. -/
structure ResponseWriter where
  header : Header
  status : Nat
  sent : Option (Nat × Header)
  body : String
deriving DecidableEq, Repr

/-- Model of `responseWriter.Written`. -/
def ResponseWriter.Written (w : ResponseWriter) : Bool := w.sent.isSome

/-- Model of `responseWriter.WriteHeader`: records the status, unless the
headers were already written (older releases of gin record it even then; what
was committed to the connection is the same). -/
def ResponseWriter.WriteHeader (w : ResponseWriter) (code : Nat) : ResponseWriter :=
  if 0 < code ∧ w.status ≠ code then
    if w.Written then w else { w with status := code }
  else w

/-- Model of `responseWriter.WriteHeaderNow`: commits the recorded status
and the headers, once. -/
def ResponseWriter.WriteHeaderNow (w : ResponseWriter) : ResponseWriter :=
  if w.Written then w else { w with sent := some (w.status, w.header) }

/-- Model of `responseWriter.Write`: commits the headers if that is still
to do, then appends the data (net/http drops it when the committed status
allows no body). -/
def ResponseWriter.Write (w : ResponseWriter) (data : String) : ResponseWriter :=
  match w.WriteHeaderNow.sent with
  | some (st, _) =>
    if bodyAllowedForStatus st then { w.WriteHeaderNow with body := w.WriteHeaderNow.body ++ data }
    else w.WriteHeaderNow
  | none => w.WriteHeaderNow

/-- One call of the HTTPS enforcement step on the response writer. -/
inductive WriterOp where
  | setHeader (key value : String)
  | writeHeader (code : Nat)
  | write (data : String)
deriving DecidableEq, Repr

/-- The effect of one writer call. -/
def ResponseWriter.apply (w : ResponseWriter) : WriterOp → ResponseWriter
  | .setHeader k v => { w with header := w.header.Set k v }
  | .writeHeader code => w.WriteHeader code
  | .write data => w.Write data

/-- A request to the upstream provider, as `http.Post(url, contentType,
body)` makes it. -/
structure Outbound where
  url : Bytes
  contentType : String
  body : Bytes
deriving DecidableEq, Repr

/-- The stages a request can pass through. -/
inductive Stage where
  | Logger
  | Recovery
  | CORSMiddleware
  | Https
  | FigmaTokenExchangeHandler
  | Ping
deriving DecidableEq, Repr

/-- Model of `gin.Context`: the request, the writer, the index of the
running handler, and a record of what happened: the stages entered in order
(`trace`), the calls made to the upstream provider (`outbound`) and how many
upstream bodies were read (`bodyReads`). -/
structure Context where
  Request : Request
  Writer : ResponseWriter
  index : Int
  trace : List Stage
  outbound : List Outbound
  bodyReads : Nat
deriving DecidableEq, Repr

/-- Model of gin's `abortIndex`. -/
def abortIndex : Int := 63

/-- Model of `Context.Abort`. -/
def Context.Abort (c : Context) : Context := { c with index := abortIndex }

/-- Model of `Context.IsAborted`. -/
def Context.IsAborted (c : Context) : Bool := abortIndex ≤ c.index

/-- Model of `Context.Status`. -/
def Context.Status (c : Context) (code : Nat) : Context :=
  { c with Writer := c.Writer.WriteHeader code }

/-- Model of `Context.AbortWithStatus`: records the status, commits the
headers and aborts. -/
def Context.AbortWithStatus (c : Context) (code : Nat) : Context :=
  { (c.Status code) with Writer := (c.Status code).Writer.WriteHeaderNow }.Abort

/-- Model of gin's `writeContentType`: sets Content-Type unless one is set. -/
def writeContentType (w : ResponseWriter) (value : String) : ResponseWriter :=
  if w.header.Has "Content-Type" then w else { w with header := w.header.Set "Content-Type" value }

/-- Model of `Context.Render` for a render that writes `data` under the
content type `contentType`. -/
def Context.Render (c : Context) (code : Nat) (contentType data : String) : Context :=
  if bodyAllowedForStatus code then
    { (c.Status code) with Writer := (writeContentType (c.Status code).Writer contentType).Write data }
  else
    { (c.Status code) with
      Writer := (writeContentType (c.Status code).Writer contentType).WriteHeaderNow }

/-- Model of `Context.String` for a format without arguments. -/
def Context.String (c : Context) (code : Nat) (format : String) : Context :=
  c.Render code "text/plain; charset=utf-8" format

/-- Model of `Context.JSON` on an `OAuthAccessTokenResponse`. -/
def Context.JSON (c : Context) (code : Nat) (obj : OAuthAccessTokenResponse) : Context :=
  c.Render code "application/json; charset=utf-8" (Marshal obj)

/-- Model of `Context.Query`: the first value of the key in the parsed
query string of the request URL, or the empty string. -/
def Context.Query (c : Context) (key : Bytes) : Bytes :=
  match (ParseQuery c.Request.RawQuery).pairs.find? (fun kv => kv.1 = key) with
  | some kv => kv.2
  | none => []

/-- A handler of the chain: its name, and its body as a function of what
`c.Next()` does when the handler calls it. -/
structure HandlerFunc where
  name : Stage
  run : (Context → Context) → Context → Context

/-- A handler that does not call `c.Next()`. -/
def leaf (stage : Stage) (body : Context → Context) : HandlerFunc :=
  { name := stage, run := fun _ c => body c }

/-- Model of the loop of `Context.Next`:
`for c.index < len(c.handlers) { c.handlers[c.index](c); c.index++ }`. -/
def nextLoop (handlers : List HandlerFunc) : Nat → Context → Context
  | 0, c => c
  | fuel + 1, c =>
    if 0 ≤ c.index then
      match handlers.get? c.index.toNat with
      | none => c
      | some h =>
        let c1 := h.run (fun d => nextLoop handlers fuel { d with index := d.index + 1 })
          { c with trace := c.trace ++ [h.name] }
        nextLoop handlers fuel { c1 with index := c1.index + 1 }
    else c

/-- Model of `Context.Next`: `c.index++`, then the loop. -/
def Context.Next (c : Context) (handlers : List HandlerFunc) : Context :=
  nextLoop handlers (handlers.length + 1) { c with index := c.index + 1 }

/-- What the connection carries once the request is served. -/
structure Response where
  status : Nat
  header : Header
  body : String
deriving DecidableEq, Repr

/-- The response on the connection: what was committed, or, when nothing
was, what net/http commits when the handler returns. -/
def Context.response (c : Context) : Response :=
  match c.Writer.sent with
  | some (st, h) => { status := st, header := h, body := c.Writer.body }
  | none => { status := c.Writer.status, header := c.Writer.header, body := c.Writer.body }

/-! ## The program: figma-auth.go -/

def StatusOK : Nat := 200

def StatusNoContent : Nat := 204

def StatusMultipleChoices : Nat := 300

def StatusMovedPermanently : Nat := 301

def StatusBadRequest : Nat := 400

def StatusNotFound : Nat := 404

def StatusInternalServerError : Nat := 500

/-- The values `os.Getenv` returns for the names the handler reads. -/
structure Env where
  FIGMA_CLIENT_ID : Bytes
  FIGMA_CLIENT_SECRET : Bytes
  FIGMA_REDIRECT_URI : Bytes
  FIGMA_TOKEN_EXCHANGE_ENDPOINT : Bytes
deriving DecidableEq, Repr

/-- What `http.Post` and the read of the reply's body give: a transport
error, or a reply with its status and the outcome of `ioutil.ReadAll` on its
body (nothing when the read fails). -/
inductive PostResult where
  | failed
  | reply (status : Nat) (body : Option String)
deriving DecidableEq, Repr

/-- What lies outside the program: the upstream provider behind
`http.Post`, the enforcement step `secureMiddleware.Process` of
unrolled/secure (the writer calls it makes for a request, and whether it
returns an error), and the target and body text net/http writes for the
router's trailing-slash redirect. -/
structure World where
  Post : Outbound → PostResult
  Process : Request → List WriterOp × Bool
  redirectLocation : Request → String
  redirectBody : Request → String

/-- `OAuthAccessTokenResponse(*accessTokenResponseRaw)`: the conversion
between the two struct types copies field by field. -/
def OAuthAccessTokenResponse.ofRaw (raw : OAuthAccessTokenResponseRaw) :
    OAuthAccessTokenResponse :=
  { AccessToken := raw.AccessToken, RefreshToken := raw.RefreshToken, ExpiresIn := raw.ExpiresIn }

/-- The `url.Values` the handler builds (source lines 47 to 52). -/
def queryString (env : Env) (ctx : Context) : Values :=
  (((((⟨[]⟩ : Values).Set (ascii "client_id") env.FIGMA_CLIENT_ID).Set
    (ascii "client_secret") env.FIGMA_CLIENT_SECRET).Set
    (ascii "redirect_uri") env.FIGMA_REDIRECT_URI).Set
    (ascii "code") (ctx.Query (ascii "Code"))).Set
    (ascii "grant_type") (ascii "authorization_code")

/-- The URL the handler posts to (source line 53):
`fmt.Sprintf("%s?%s", endpoint, queryString.Encode())`. -/
def tokenExchangeUrl (env : Env) (ctx : Context) : Bytes :=
  env.FIGMA_TOKEN_EXCHANGE_ENDPOINT ++ ascii "?" ++ (queryString env ctx).Encode

/-- The call `http.Post(tokenExchangeUrl, "application/json",
bytes.NewBuffer([]byte{}))` of source line 54. -/
def tokenExchangeCall (env : Env) (ctx : Context) : Outbound :=
  { url := tokenExchangeUrl env ctx, contentType := "application/json", body := [] }

/-- The body of `FigmaTokenExchangeHandler` (source lines 46 to 71). -/
def tokenExchange (env : Env) (world : World) (ctx : Context) : Context :=
  let ctx1 := { ctx with outbound := ctx.outbound ++ [tokenExchangeCall env ctx] }
  match world.Post (tokenExchangeCall env ctx) with
  | PostResult.failed => ctx1.AbortWithStatus StatusBadRequest
  | PostResult.reply status body =>
    if status ≠ StatusOK then ctx1.AbortWithStatus StatusBadRequest
    else
      let ctx2 := { ctx1 with bodyReads := ctx1.bodyReads + 1 }
      match body with
      | none => ctx2.AbortWithStatus StatusBadRequest
      | some responseBody =>
        match Unmarshal responseBody zeroRaw with
        | none => ctx2.AbortWithStatus StatusBadRequest
        | some accessTokenResponseRaw =>
          ctx2.JSON StatusOK (OAuthAccessTokenResponse.ofRaw accessTokenResponseRaw)

/-- `FigmaTokenExchangeHandler` as a handler of the chain; it does not call
`ctx.Next()`. -/
def FigmaTokenExchangeHandler (env : Env) (world : World) : HandlerFunc :=
  leaf Stage.FigmaTokenExchangeHandler (tokenExchange env world)

/-- The body of the handler of `/v0/ping` (source lines 38 to 40). -/
def pingBody (ctx : Context) : Context := ctx.String StatusOK "pong"

/-- The handler of `/v0/ping`; it does not call `ctx.Next()`. -/
def pingHandler : HandlerFunc := leaf Stage.Ping pingBody

/-- The context after `secureMiddleware.Process(ctx.Writer, ctx.Request)`
(source line 111): the writer calls of the enforcement step are applied. -/
def enforced (world : World) (ctx : Context) : Context :=
  { ctx with Writer := (world.Process ctx.Request).1.foldl ResponseWriter.apply ctx.Writer }

/-- The function `Https()` returns (source lines 110 to 124), given the
enforcement step of the world. -/
def httpsBody (world : World) (ctx : Context) : Context :=
  let err := (world.Process ctx.Request).2
  let ctx1 := enforced world ctx
  if err then
    (ctx1.String StatusInternalServerError "error securing session").Abort
  else if 300 < ctx1.Writer.status ∧ ctx1.Writer.status < 399 then ctx1.Abort
  else ctx1

/-- `Https()` as a handler of the chain; it does not call `ctx.Next()`. -/
def Https (world : World) : HandlerFunc := leaf Stage.Https (httpsBody world)

/-- The headers `CORSMiddleware` sets for an origin (source lines 133 to 136). -/
def setCORSHeaders (w : ResponseWriter) (origin : String) : ResponseWriter :=
  let h1 := w.header.Set "Access-Control-Allow-Origin" origin
  let h2 := h1.Set "Access-Control-Allow-Credentials" "true"
  let h3 := h2.Set "Access-Control-Allow-Headers"
    "Content-Type, Content-Length, Accept-Encoding, X-CSRF-Token, authorization, accept, origin, Cache-Control, X-Requested-With"
  let h4 := h3.Set "Access-Control-Allow-Methods" "POST, OPTIONS, GET, PUT, DELETE"
  { w with header := h4 }

/-- The function `CORSMiddleware()` returns (source lines 130 to 145);
`next` is what `c.Next()` does. -/
def corsBody (next : Context → Context) (c : Context) : Context :=
  let origin := c.Request.Header.Get "Origin"
  let c1 := if origin ≠ "" then { c with Writer := setCORSHeaders c.Writer origin } else c
  if c1.Request.Method = "OPTIONS" then c1.AbortWithStatus StatusNoContent
  else next c1

/-- `CORSMiddleware()` as a handler of the chain. -/
def CORSMiddleware : HandlerFunc :=
  { name := Stage.CORSMiddleware, run := corsBody }

/-- Model of gin's `Logger()`, which `gin.Default()` installs: it calls
`c.Next()` and writes a log line, nothing to the response. -/
def Logger : HandlerFunc :=
  { name := Stage.Logger, run := fun next c => next c }

/-- Model of gin's `Recovery()`, which `gin.Default()` installs: it calls
`c.Next()` under a deferred recover. -/
def Recovery : HandlerFunc :=
  { name := Stage.Recovery, run := fun next c => next c }

/-- A registered route: method, full path, and the chain gin combined for it
when it was registered (the group's middleware, then the handler). -/
structure Route where
  method : String
  path : String
  handlers : List HandlerFunc

/-- Model of `gin.Engine`: the middleware of the root group, which is also
the chain of an unrouted request, and the routes. -/
structure Engine where
  Handlers : List HandlerFunc
  routes : List Route

/-- `GetEngine(useTls)` (source lines 27 to 44): `gin.Default()` installs
Logger and Recovery, then CORSMiddleware and, with TLS, Https are added, and
the two GET routes of the group `/v0` are registered after them. -/
def GetEngine (useTls : Bool) (env : Env) (world : World) : Engine :=
  let handlers := [Logger, Recovery, CORSMiddleware] ++ (if useTls then [Https world] else [])
  { Handlers := handlers,
    routes :=
      [ { method := "GET", path := "/v0/integrations/figma/token",
          handlers := handlers ++ [FigmaTokenExchangeHandler env world] },
        { method := "GET", path := "/v0/ping", handlers := handlers ++ [pingHandler] } ] }

/-- The context gin hands to the chain: nothing written, status 200,
index -1. -/
def newContext (req : Request) : Context :=
  { Request := req,
    Writer := { header := ⟨[]⟩, status := 200, sent := none, body := "" },
    index := -1, trace := [], outbound := [], bodyReads := 0 }

/-- Whether the router recommends a trailing-slash redirect: the path
matches no route of the method, and it is a route of the method with one `/`
added or removed at the end. -/
def Engine.trailingSlash (e : Engine) (req : Request) : Bool :=
  e.routes.any (fun r => r.method = req.Method ∧
    (req.Path = r.path ++ "/" ∨ r.path = req.Path ++ "/"))

/-- Model of gin's `redirectTrailingSlash` and `http.Redirect`: no
middleware runs; the status is 301 for GET and 307 otherwise, and net/http
writes the Location header and, for GET, a short HTML body. -/
def redirectTrailingSlash (world : World) (c : Context) : Context :=
  let w1 : ResponseWriter :=
    { c.Writer with header := c.Writer.header.Set "Location" (world.redirectLocation c.Request) }
  if c.Request.Method = "GET" then
    let w2 : ResponseWriter :=
      { w1 with header := w1.header.Set "Content-Type" "text/html; charset=utf-8" }
    { c with Writer := ((w2.WriteHeader 301).Write (world.redirectBody c.Request)).WriteHeaderNow }
  else
    { c with Writer := (w1.WriteHeader 307).WriteHeaderNow }

/-- Model of gin's `serveError(c, 404, default404Body)` for a request no
route matches: the status is preset to 404, the root middleware runs, and if
nothing was written and the status is still 404 the default text is
written. -/
def serveError (handlers : List HandlerFunc) (c : Context) : Context :=
  let c1 := ({ c with Writer := { c.Writer with status := StatusNotFound } }).Next handlers
  if c1.Writer.Written then c1
  else if c1.Writer.status = StatusNotFound then
    let w1 : ResponseWriter :=
      { c1.Writer with header := c1.Writer.header.Set "Content-Type" "text/plain" }
    { c1 with Writer := w1.Write "404 page not found" }
  else { c1 with Writer := c1.Writer.WriteHeaderNow }

/-- Model of `Engine.handleHTTPRequest` with gin's defaults
(RedirectTrailingSlash on, RedirectFixedPath and HandleMethodNotAllowed off):
a route of the request's method and path runs its chain; otherwise, when the
method has routes, the router may answer with a trailing-slash redirect;
otherwise the request is served as not found. -/
def Engine.handleHTTPRequest (e : Engine) (world : World) (req : Request) : Context :=
  match e.routes.find? (fun r => r.method = req.Method ∧ r.path = req.Path) with
  | some r => let c := (newContext req).Next r.handlers
    { c with Writer := c.Writer.WriteHeaderNow }
  | none =>
    if req.Method ≠ "CONNECT" ∧ req.Path ≠ "/" ∧ e.trailingSlash req then
      redirectTrailingSlash world (newContext req)
    else serveError e.Handlers (newContext req)

/-- The response of the service to a request. -/
def serve (useTls : Bool) (env : Env) (world : World) (req : Request) : Response :=
  ((GetEngine useTls env world).handleHTTPRequest world req).response

/-! ## Sample inputs -/

def sampleEnv : Env :=
  { FIGMA_CLIENT_ID := ascii "id1", FIGMA_CLIENT_SECRET := ascii "s3cret",
    FIGMA_REDIRECT_URI := ascii "https://app.example/cb",
    FIGMA_TOKEN_EXCHANGE_ENDPOINT := ascii "https://www.figma.com/api/oauth/token" }

def sampleBody : String :=
  "\x7b\"access_token\":\"tok\",\"refresh_token\":\"ref\",\"expires_in\":3600\x7d"

def duplicateKeyBody : String :=
  "\x7b\"access_token\":\"tok\",\"refresh_token\":\"ref\",\"expires_in\":3600,\"EXPIRES_IN\":\"soon\"\x7d"

def nullFieldBody : String :=
  "\x7b\"access_token\":null,\"refresh_token\":\"ref\",\"expires_in\":3600\x7d"

def upperKeyBody : String := "\x7b\"ACCESS_TOKEN\":\"x\"\x7d"

def sampleWorld (r : PostResult) : World :=
  { Post := fun _ => r, Process := fun _ => ([], false),
    redirectLocation := fun q => q.Path, redirectBody := fun _ => "" }

def sampleRequest (method path : String) (query : Bytes) (origin : String) : Request :=
  { Method := method, Path := path, RawQuery := query,
    Header := if origin = "" then ⟨[]⟩ else ⟨[("Origin", [origin])]⟩ }

/-- A world whose enforcement step answers every request itself before it
returns its error, the way unrolled/secure answers a host it does not allow:
`http.Error(w, "Bad Host", 500)`, then the error. -/
def badHostWorld : World :=
  { Post := fun _ => PostResult.failed,
    Process := fun _ =>
      ([WriterOp.setHeader "Content-Type" "text/plain; charset=utf-8",
        WriterOp.setHeader "X-Content-Type-Options" "nosniff",
        WriterOp.writeHeader 500, WriterOp.write "Bad Host\n"], true),
    redirectLocation := fun q => q.Path, redirectBody := fun _ => "" }

/-- A world whose enforcement step redirects every request to HTTPS before
it returns its error, the way unrolled/secure answers a request that came over
plain HTTP (here to the host `relay.example`, without a query string):
`http.Redirect(w, r, url, 301)`, then the error.  `http.Redirect` sets
Location, for GET and HEAD also Content-Type, records the status, and for GET
writes a short HTML body. -/
def redirectWorld : World :=
  { Post := fun _ => PostResult.failed,
    Process := fun q =>
      let target := "https://relay.example" ++ q.Path
      (if q.Method = "GET" then
        [WriterOp.setHeader "Location" target,
         WriterOp.setHeader "Content-Type" "text/html; charset=utf-8",
         WriterOp.writeHeader 301,
         WriterOp.write ("<a href=\"" ++ target ++ "\">Moved Permanently</a>.\n\n")]
      else if q.Method = "HEAD" then
        [WriterOp.setHeader "Location" target,
         WriterOp.setHeader "Content-Type" "text/html; charset=utf-8",
         WriterOp.writeHeader 301]
      else [WriterOp.setHeader "Location" target, WriterOp.writeHeader 301], true),
    redirectLocation := fun q => q.Path, redirectBody := fun _ => "" }

/-- The writer CORSMiddleware hands on for a request that reached it with
nothing written and the recorded status `status`: its four headers are set
when the request has an origin. -/
def corsOutput (req : Request) (status : Nat) : ResponseWriter :=
  if req.Header.Get "Origin" ≠ "" then
    setCORSHeaders { header := ⟨[]⟩, status := status, sent := none, body := "" }
      (req.Header.Get "Origin")
  else { header := ⟨[]⟩, status := status, sent := none, body := "" }

/-- The context in which the stage after CORSMiddleware runs, for a request
whose method is not OPTIONS: Logger, Recovery and CORSMiddleware were
entered before it. -/
def stageInput (req : Request) (status : Nat) (stage : Stage) : Context :=
  { Request := req, Writer := corsOutput req status, index := 3,
    trace := [Stage.Logger, Stage.Recovery, Stage.CORSMiddleware, stage],
    outbound := [], bodyReads := 0 }

/-- The context in which the route handler runs after Https let the request
through. -/
def afterHttps (world : World) (req : Request) (stage : Stage) : Context :=
  { httpsBody world (stageInput req 200 Stage.Https) with
    index := 4,
    trace := (httpsBody world (stageInput req 200 Stage.Https)).trace ++ [stage] }

/-- The names of the four headers CORSMiddleware sets. -/
def corsKeys : List String :=
  ["Access-Control-Allow-Origin", "Access-Control-Allow-Credentials",
   "Access-Control-Allow-Headers", "Access-Control-Allow-Methods"]

/-- The four CORS headers carry the values CORSMiddleware sets for the
origin `o`. -/
def hasCORS (o : String) (h : Header) : Prop :=
  h.Get "Access-Control-Allow-Origin" = o
    ∧ h.Get "Access-Control-Allow-Credentials" = "true"
    ∧ h.Get "Access-Control-Allow-Headers"
        = "Content-Type, Content-Length, Accept-Encoding, X-CSRF-Token, authorization, accept, origin, Cache-Control, X-Requested-With"
    ∧ h.Get "Access-Control-Allow-Methods" = "POST, OPTIONS, GET, PUT, DELETE"

/-- The four CORS headers are in the header map of the writer, and in what
the writer has committed if it has committed. -/
def writerCORS (o : String) (w : ResponseWriter) : Prop :=
  hasCORS o w.header ∧ ∀ st h, w.sent = some (st, h) → hasCORS o h

/-- A byte that cannot be taken for a separator of a URL or of a query
string: not `&`, `=`, `;`, `#`, `?` or a space. -/
def plainByte (b : Byte) : Prop :=
  b.val ≠ 38 ∧ b.val ≠ 61 ∧ b.val ≠ 59 ∧ b.val ≠ 35 ∧ b.val ≠ 63 ∧ b.val ≠ 32

instance (b : Byte) : Decidable (plainByte b) := by
  unfold plainByte; infer_instance

/-- An escaped pair `QueryEscape(key)=QueryEscape(value)`. -/
def escapedPair (key value : Bytes) : Bytes := QueryEscape key ++ (61 : Byte) :: QueryEscape value

/-- A text of decimal digits without a leading zero, or the one digit `0`. -/
def canonicalDigits (ds : List Char) : Prop :=
  (∀ c ∈ ds, isDigit c = true) ∧ (ds = ['0'] ∨ ∃ c rest, ds = c :: rest ∧ c ≠ '0')

/-- A context in which nothing has been written yet. -/
def Context.unwritten (c : Context) : Prop := c.Writer.sent = none ∧ c.Writer.body = ""

instance (c : Context) : Decidable c.unwritten := by
  unfold Context.unwritten; infer_instance

/-! ## Lemmas on the writer and the context -/

theorem abortWithStatus_response (c : Context) (code : Nat) (h : c.unwritten) (hc : 0 < code) :
    (c.AbortWithStatus code).response = { status := code, header := c.Writer.header, body := "" } := by
  obtain ⟨h1, h2⟩ := h
  by_cases hs : c.Writer.status = code
  · simp [Context.AbortWithStatus, Context.Status, Context.Abort, Context.response,
      ResponseWriter.WriteHeader, ResponseWriter.WriteHeaderNow, ResponseWriter.Written, h1, h2, hs]
  · simp [Context.AbortWithStatus, Context.Status, Context.Abort, Context.response,
      ResponseWriter.WriteHeader, ResponseWriter.WriteHeaderNow, ResponseWriter.Written, h1, h2, hs, hc]

theorem writeHeader_header (w : ResponseWriter) (code : Nat) :
    (w.WriteHeader code).header = w.header := by
  unfold ResponseWriter.WriteHeader
  split
  · split <;> rfl
  · rfl

theorem writeHeaderNow_header (w : ResponseWriter) : w.WriteHeaderNow.header = w.header := by
  unfold ResponseWriter.WriteHeaderNow
  split <;> rfl

theorem abortWithStatus_header (c : Context) (code : Nat) :
    (c.AbortWithStatus code).Writer.header = c.Writer.header := by
  simp [Context.AbortWithStatus, Context.Status, Context.Abort, writeHeaderNow_header,
    writeHeader_header]

theorem abortWithStatus_aborted (c : Context) (code : Nat) :
    (c.AbortWithStatus code).IsAborted = true := by
  simp [Context.AbortWithStatus, Context.Abort, Context.IsAborted]

theorem abortWithStatus_record (c : Context) (code : Nat) :
    (c.AbortWithStatus code).trace = c.trace ∧ (c.AbortWithStatus code).outbound = c.outbound
      ∧ (c.AbortWithStatus code).bodyReads = c.bodyReads := by
  simp [Context.AbortWithStatus, Context.Abort, Context.Status]

/-! ## Theorems -/

/-- When the outbound POST fails, or the upstream replies with a status other
than 200, the handler run on a context with nothing written leaves 400 with
an empty body. -/
theorem rejection_at_handler (env : Env) (world : World) (ctx : Context)
    (hfresh : ctx.unwritten)
    (hpost : world.Post (tokenExchangeCall env ctx) = PostResult.failed ∨
      ∃ status body, world.Post (tokenExchangeCall env ctx) = PostResult.reply status body
        ∧ status ≠ 200) :
    (tokenExchange env world ctx).response
        = { status := 400, header := ctx.Writer.header, body := "" }
      ∧ (tokenExchange env world ctx).bodyReads = ctx.bodyReads
      ∧ (tokenExchange env world ctx).IsAborted = true
      ∧ (tokenExchange env world ctx).outbound = ctx.outbound ++ [tokenExchangeCall env ctx] := by
  have hfresh1 : ({ ctx with outbound := ctx.outbound ++ [tokenExchangeCall env ctx] } :
      Context).unwritten := hfresh
  rcases hpost with hfail | ⟨status, body, hreply, hne⟩
  · simp only [tokenExchange, hfail]
    refine ⟨?_, ?_, ?_, ?_⟩
    · rw [abortWithStatus_response _ _ hfresh1 (by decide)]; rfl
    · rw [(abortWithStatus_record _ _).2.2]
    · exact abortWithStatus_aborted _ _
    · rw [(abortWithStatus_record _ _).2.1]
  · have hne1 : status ≠ StatusOK := hne
    simp only [tokenExchange, hreply, hne1, ne_eq, not_false_eq_true, if_true]
    refine ⟨?_, ?_, ?_, ?_⟩
    · rw [abortWithStatus_response _ _ hfresh1 (by decide)]; rfl
    · rw [(abortWithStatus_record _ _).2.2]
    · exact abortWithStatus_aborted _ _
    · rw [(abortWithStatus_record _ _).2.1]

/-- C6: an OPTIONS request, whatever its path and in both TLS and non-TLS
mode, is answered 204 with an empty body by CORSMiddleware; the stages entered
are Logger, Recovery and CORSMiddleware only (neither Https nor a route
handler), and no call goes to the upstream provider. -/
theorem options_short_circuit (useTls : Bool) (env : Env) (world : World) (req : Request)
    (hm : req.Method = "OPTIONS") :
    (serve useTls env world req).status = 204
      ∧ (serve useTls env world req).body = ""
      ∧ ((GetEngine useTls env world).handleHTTPRequest world req).trace
          = [Stage.Logger, Stage.Recovery, Stage.CORSMiddleware]
      ∧ ((GetEngine useTls env world).handleHTTPRequest world req).outbound = []
      ∧ ((GetEngine useTls env world).handleHTTPRequest world req).bodyReads = 0
      ∧ ((GetEngine useTls env world).handleHTTPRequest world req).IsAborted = true := by
  obtain ⟨m, p, q, h⟩ := req
  simp only at hm
  subst hm
  cases useTls <;> by_cases ho : h.Get "Origin" = "" <;>
    simp [serve, GetEngine, Engine.handleHTTPRequest, Engine.trailingSlash, serveError,
      Context.Next, nextLoop, newContext, Logger, Recovery, CORSMiddleware, corsBody, ho,
      Context.AbortWithStatus, Context.Status, Context.Abort, Context.IsAborted,
      ResponseWriter.WriteHeader, ResponseWriter.WriteHeaderNow, ResponseWriter.Written,
      Context.response, StatusNoContent, StatusNotFound, abortIndex, setCORSHeaders]

/-- C6 at a concrete input: OPTIONS on an unrouted path, TLS mode. -/
theorem options_short_circuit_witness :
    (serve true sampleEnv (sampleWorld PostResult.failed)
        (sampleRequest "OPTIONS" "/nowhere" [] "https://a.example")).status = 204 :=
  (options_short_circuit true sampleEnv (sampleWorld PostResult.failed)
    (sampleRequest "OPTIONS" "/nowhere" [] "https://a.example") rfl).1

/-- C10: when the Origin header is missing or empty, CORSMiddleware leaves
the response headers as they are (none of the four Access-Control headers is
added); an OPTIONS request is still answered 204 and aborted, and a request
of any other method is handed unchanged to the next stage. -/
theorem cors_absent_origin (useTls : Bool) (env : Env) (world : World)
    (next : Context → Context) (c : Context) (ho : c.Request.Header.Get "Origin" = "") :
    (c.Request.Method = "OPTIONS" →
        corsBody next c = c.AbortWithStatus 204
        ∧ (corsBody next c).Writer.header = c.Writer.header
        ∧ (corsBody next c).IsAborted = true
        ∧ (c.unwritten → (corsBody next c).response
            = { status := 204, header := c.Writer.header, body := "" })
        ∧ serve useTls env world c.Request = { status := 204, header := ⟨[]⟩, body := "" })
      ∧ (c.Request.Method ≠ "OPTIONS" → corsBody next c = next c) := by
  constructor
  · intro hm
    have h1 : corsBody next c = c.AbortWithStatus 204 := by
      simp [corsBody, ho, hm, StatusNoContent]
    refine ⟨h1, ?_, ?_, ?_, ?_⟩
    · rw [h1]; exact abortWithStatus_header _ _
    · rw [h1]; exact abortWithStatus_aborted _ _
    · intro hu; rw [h1]; exact abortWithStatus_response c 204 hu (by decide)
    · obtain ⟨⟨m, p, q, h⟩, w, i, t, o, b⟩ := c
      simp only at hm ho
      subst hm
      cases useTls <;>
        simp [serve, GetEngine, Engine.handleHTTPRequest, Engine.trailingSlash, serveError,
          Context.Next, nextLoop, newContext, Logger, Recovery, CORSMiddleware, corsBody, ho,
          Context.AbortWithStatus, Context.Status, Context.Abort,
          ResponseWriter.WriteHeader, ResponseWriter.WriteHeaderNow, ResponseWriter.Written,
          Context.response, StatusNoContent, StatusNotFound, abortIndex]
  · intro hm
    simp [corsBody, ho, hm]

/-- C10 at a concrete input: OPTIONS without an Origin header. -/
theorem cors_absent_origin_witness :
    serve false sampleEnv (sampleWorld PostResult.failed) (sampleRequest "OPTIONS" "/v0/ping" [] "")
      = { status := 204, header := ⟨[]⟩, body := "" } :=
  ((cors_absent_origin false sampleEnv (sampleWorld PostResult.failed) id
    (newContext (sampleRequest "OPTIONS" "/v0/ping" [] "")) rfl).1 rfl).2.2.2.2

/-! ## The chain, stage by stage -/

theorem plain_route_chain (req : Request) (stage : Stage) (body : Context → Context)
    (hm : req.Method ≠ "OPTIONS")
    (hidx : (body (stageInput req 200 stage)).index = 3
      ∨ (body (stageInput req 200 stage)).index = abortIndex) :
    (newContext req).Next [Logger, Recovery, CORSMiddleware, leaf stage body]
      = { body (stageInput req 200 stage) with
          index := (body (stageInput req 200 stage)).index + 4 } := by
  obtain ⟨m, p, q, h⟩ := req
  simp only at hm
  by_cases ho : h.Get "Origin" = "" <;> rcases hidx with hidx | hidx <;>
    simp only [stageInput, corsOutput, ho, ne_eq, not_true_eq_false, not_false_eq_true,
      if_true, if_false] at hidx <;>
    simp [Context.Next, nextLoop, newContext, Logger, Recovery, CORSMiddleware, corsBody, ho, hm,
      leaf, stageInput, corsOutput, hidx, abortIndex]

theorem tls_route_chain_halt (world : World) (req : Request) (hf : HandlerFunc)
    (hm : req.Method ≠ "OPTIONS")
    (hidx : (httpsBody world (stageInput req 200 Stage.Https)).index = abortIndex) :
    (newContext req).Next [Logger, Recovery, CORSMiddleware, Https world, hf]
      = { httpsBody world (stageInput req 200 Stage.Https) with index := abortIndex + 4 } := by
  obtain ⟨m, p, q, h⟩ := req
  simp only at hm
  by_cases ho : h.Get "Origin" = "" <;>
    simp only [stageInput, corsOutput, ho, ne_eq, not_true_eq_false, not_false_eq_true,
      if_true, if_false] at hidx <;>
    simp [Context.Next, nextLoop, newContext, Logger, Recovery, CORSMiddleware, corsBody, ho, hm,
      Https, leaf, stageInput, corsOutput, hidx, abortIndex]

theorem tls_route_chain_pass (world : World) (req : Request) (stage : Stage)
    (body : Context → Context) (hm : req.Method ≠ "OPTIONS")
    (hidx : (httpsBody world (stageInput req 200 Stage.Https)).index = 3)
    (hidx2 : (body (afterHttps world req stage)).index = 4
      ∨ (body (afterHttps world req stage)).index = abortIndex) :
    (newContext req).Next [Logger, Recovery, CORSMiddleware, Https world, leaf stage body]
      = { body (afterHttps world req stage) with
          index := (body (afterHttps world req stage)).index + 4 } := by
  obtain ⟨m, p, q, h⟩ := req
  simp only at hm
  by_cases ho : h.Get "Origin" = "" <;> rcases hidx2 with hidx2 | hidx2 <;>
    simp only [afterHttps, stageInput, corsOutput, ho, ne_eq, not_true_eq_false,
      not_false_eq_true, if_true, if_false] at hidx hidx2 <;>
    simp [Context.Next, nextLoop, newContext, Logger, Recovery, CORSMiddleware, corsBody, ho, hm,
      Https, leaf, afterHttps, stageInput, corsOutput, hidx, hidx2, abortIndex]

theorem plain_404_chain (req : Request) (hm : req.Method ≠ "OPTIONS") :
    ({ newContext req with
        Writer := { (newContext req).Writer with status := StatusNotFound } }).Next
        [Logger, Recovery, CORSMiddleware]
      = { Request := req, Writer := corsOutput req 404, index := 6,
          trace := [Stage.Logger, Stage.Recovery, Stage.CORSMiddleware], outbound := [],
          bodyReads := 0 } := by
  obtain ⟨m, p, q, h⟩ := req
  simp only at hm
  by_cases ho : h.Get "Origin" = "" <;>
    simp [Context.Next, nextLoop, newContext, Logger, Recovery, CORSMiddleware, corsBody, ho, hm,
      corsOutput, StatusNotFound]

theorem tls_404_chain (world : World) (req : Request) (hm : req.Method ≠ "OPTIONS")
    (hidx : (httpsBody world (stageInput req 404 Stage.Https)).index = 3
      ∨ (httpsBody world (stageInput req 404 Stage.Https)).index = abortIndex) :
    ({ newContext req with
        Writer := { (newContext req).Writer with status := StatusNotFound } }).Next
        [Logger, Recovery, CORSMiddleware, Https world]
      = { httpsBody world (stageInput req 404 Stage.Https) with
          index := (httpsBody world (stageInput req 404 Stage.Https)).index + 4 } := by
  obtain ⟨m, p, q, h⟩ := req
  simp only at hm
  by_cases ho : h.Get "Origin" = "" <;> rcases hidx with hidx | hidx <;>
    simp only [stageInput, corsOutput, ho, ne_eq, not_true_eq_false, not_false_eq_true,
      if_true, if_false] at hidx <;>
    simp [Context.Next, nextLoop, newContext, Logger, Recovery, CORSMiddleware, corsBody, ho, hm,
      Https, leaf, stageInput, corsOutput, StatusNotFound, hidx, abortIndex]

/-! ## What the render calls leave -/

theorem render_record (c : Context) (code : Nat) (ct data : String) :
    (c.Render code ct data).Request = c.Request ∧ (c.Render code ct data).index = c.index
      ∧ (c.Render code ct data).trace = c.trace ∧ (c.Render code ct data).outbound = c.outbound
      ∧ (c.Render code ct data).bodyReads = c.bodyReads := by
  unfold Context.Render
  split <;> simp [Context.Status]

theorem render_writer (c : Context) (code : Nat) (ct data : String) (hu : c.unwritten)
    (hc : 0 < code) (hb : bodyAllowedForStatus code = true) :
    (c.Render code ct data).Writer
      = { header := if c.Writer.header.Has "Content-Type" then c.Writer.header
            else c.Writer.header.Set "Content-Type" ct,
          status := code,
          sent := some (code, if c.Writer.header.Has "Content-Type" then c.Writer.header
            else c.Writer.header.Set "Content-Type" ct),
          body := data } := by
  obtain ⟨h1, h2⟩ := hu
  by_cases hs : c.Writer.status = code <;> by_cases hh : c.Writer.header.Has "Content-Type" = true <;>
    simp [Context.Render, Context.Status, ResponseWriter.WriteHeader, ResponseWriter.Write,
      ResponseWriter.WriteHeaderNow, ResponseWriter.Written, writeContentType, h1, h2, hs, hh, hb,
      hc]

theorem render_written (c : Context) (code : Nat) (ct data : String) (st : Nat) (h : Header)
    (hs : c.Writer.sent = some (st, h)) (hb : bodyAllowedForStatus st = true)
    (hcode : bodyAllowedForStatus code = true) :
    (c.Render code ct data).Writer.sent = some (st, h)
      ∧ (c.Render code ct data).Writer.body = c.Writer.body ++ data := by
  obtain ⟨rq, ⟨hd, stt, sent, body⟩, i, t, o, b⟩ := c
  simp only at hs
  subst hs
  by_cases h1 : 0 < code ∧ stt ≠ code <;> by_cases h2 : hd.Has "Content-Type" = true <;>
    simp [Context.Render, Context.Status, ResponseWriter.WriteHeader, ResponseWriter.Write,
      ResponseWriter.WriteHeaderNow, ResponseWriter.Written, writeContentType, hb, hcode, h1, h2]

theorem enforced_record (world : World) (c : Context) :
    (enforced world c).Request = c.Request ∧ (enforced world c).index = c.index
      ∧ (enforced world c).trace = c.trace ∧ (enforced world c).outbound = c.outbound
      ∧ (enforced world c).bodyReads = c.bodyReads := by
  simp [enforced]

theorem fold_setHeader_only (ops : List WriterOp) (w : ResponseWriter)
    (h : ∀ op ∈ ops, ∃ k v, op = WriterOp.setHeader k v) :
    (ops.foldl ResponseWriter.apply w).status = w.status
      ∧ (ops.foldl ResponseWriter.apply w).sent = w.sent
      ∧ (ops.foldl ResponseWriter.apply w).body = w.body := by
  induction ops generalizing w with
  | nil => simp
  | cons op rest ih =>
    obtain ⟨k, v, hop⟩ := h op (by simp)
    have hrest : ∀ o ∈ rest, ∃ k v, o = WriterOp.setHeader k v :=
      fun o ho => h o (by simp [ho])
    subst hop
    simpa [ResponseWriter.apply] using ih (w.apply (WriterOp.setHeader k v)) hrest

theorem https_index (world : World) (c : Context) :
    (httpsBody world c).index = c.index ∨ (httpsBody world c).index = abortIndex := by
  unfold httpsBody
  simp only
  split
  · right; simp [Context.Abort]
  · split
    · right; simp [Context.Abort]
    · left; exact (enforced_record world c).2.1

theorem https_record (world : World) (c : Context) :
    (httpsBody world c).Request = c.Request ∧ (httpsBody world c).trace = c.trace
      ∧ (httpsBody world c).outbound = c.outbound
      ∧ (httpsBody world c).bodyReads = c.bodyReads := by
  unfold httpsBody
  simp only
  split
  · simp [Context.Abort, Context.String, render_record, enforced_record]
  · split <;> simp [Context.Abort, enforced_record]

theorem route_find_ping (useTls : Bool) (env : Env) (world : World) (req : Request)
    (hm : req.Method = "GET") (hp : req.Path = "/v0/ping") :
    (GetEngine useTls env world).handleHTTPRequest world req
      = { (newContext req).Next ([Logger, Recovery, CORSMiddleware]
              ++ (if useTls then [Https world] else []) ++ [pingHandler]) with
          Writer := ((newContext req).Next ([Logger, Recovery, CORSMiddleware]
              ++ (if useTls then [Https world] else []) ++ [pingHandler])).Writer.WriteHeaderNow } := by
  simp [GetEngine, Engine.handleHTTPRequest, hm, hp]

theorem route_find_token (useTls : Bool) (env : Env) (world : World) (req : Request)
    (hm : req.Method = "GET") (hp : req.Path = "/v0/integrations/figma/token") :
    (GetEngine useTls env world).handleHTTPRequest world req
      = { (newContext req).Next ([Logger, Recovery, CORSMiddleware]
              ++ (if useTls then [Https world] else [])
              ++ [FigmaTokenExchangeHandler env world]) with
          Writer := ((newContext req).Next ([Logger, Recovery, CORSMiddleware]
              ++ (if useTls then [Https world] else [])
              ++ [FigmaTokenExchangeHandler env world])).Writer.WriteHeaderNow } := by
  simp [GetEngine, Engine.handleHTTPRequest, hm, hp]

theorem response_writeHeaderNow (c : Context) (i : Int) :
    ({ c with Writer := c.Writer.WriteHeaderNow, index := i } : Context).response = c.response := by
  unfold Context.response ResponseWriter.WriteHeaderNow ResponseWriter.Written
  cases hs : c.Writer.sent <;> simp [hs]

theorem corsOutput_unwritten (req : Request) (status : Nat) :
    (corsOutput req status).sent = none ∧ (corsOutput req status).body = ""
      ∧ (corsOutput req status).status = status := by
  unfold corsOutput
  split <;> simp [setCORSHeaders]

theorem https_pass (world : World) (c : Context) (herr : (world.Process c.Request).2 = false)
    (hops : ∀ op ∈ (world.Process c.Request).1, ∃ k v, op = WriterOp.setHeader k v)
    (hst : c.Writer.status ≤ 300 ∨ 399 ≤ c.Writer.status) :
    httpsBody world c = enforced world c
      ∧ (enforced world c).Writer.sent = c.Writer.sent
      ∧ (enforced world c).Writer.body = c.Writer.body := by
  have hf := fold_setHeader_only _ c.Writer hops
  have hs : (enforced world c).Writer.status = c.Writer.status := hf.1
  refine ⟨?_, hf.2.1, hf.2.2⟩
  unfold httpsBody
  simp only [herr, Bool.false_eq_true, if_false, hs]
  rw [if_neg (by omega)]

/-- The response of the ping handler on a context with nothing written. -/
theorem ping_response (c : Context) (hu : c.unwritten) :
    (pingBody c).response.status = 200 ∧ (pingBody c).response.body = "pong" := by
  have hw := render_writer c 200 "text/plain; charset=utf-8" "pong" hu (by decide) (by decide)
  simp [pingBody, Context.String, StatusOK, Context.response, hw]

/-- C7 as amended: a GET request to `/v0/ping`, whatever its query and
headers, is answered 200 with body `pong` and without a call to the upstream
provider, in non-TLS mode always and in TLS mode whenever the enforcement step
returns no error and only sets headers. -/
theorem ping_answers_pong (useTls : Bool) (env : Env) (world : World) (req : Request)
    (hm : req.Method = "GET") (hp : req.Path = "/v0/ping")
    (hpass : useTls = true → (world.Process req).2 = false
      ∧ ∀ op ∈ (world.Process req).1, ∃ k v, op = WriterOp.setHeader k v) :
    (serve useTls env world req).status = 200
      ∧ (serve useTls env world req).body = "pong"
      ∧ ((GetEngine useTls env world).handleHTTPRequest world req).outbound = []
      ∧ ((GetEngine useTls env world).handleHTTPRequest world req).trace
          = [Stage.Logger, Stage.Recovery, Stage.CORSMiddleware]
              ++ (if useTls then [Stage.Https] else []) ++ [Stage.Ping] := by
  have hno : req.Method ≠ "OPTIONS" := by rw [hm]; decide
  have hu0 : (stageInput req 200 Stage.Ping).unwritten :=
    ⟨(corsOutput_unwritten req 200).1, (corsOutput_unwritten req 200).2.1⟩
  cases useTls with
  | false =>
    have hidx : (pingBody (stageInput req 200 Stage.Ping)).index = 3 := by
      simp [pingBody, Context.String, render_record, stageInput]
    have hchain := plain_route_chain req Stage.Ping pingBody hno (Or.inl hidx)
    have hrun : (GetEngine false env world).handleHTTPRequest world req
        = { pingBody (stageInput req 200 Stage.Ping) with
            Writer := (pingBody (stageInput req 200 Stage.Ping)).Writer.WriteHeaderNow,
            index := (pingBody (stageInput req 200 Stage.Ping)).index + 4 } := by
      rw [route_find_ping false env world req hm hp]
      simp only [Bool.false_eq_true, if_false, List.append_nil, List.cons_append, List.nil_append,
        pingHandler]
      rw [hchain]
    have hresp : serve false env world req = (pingBody (stageInput req 200 Stage.Ping)).response := by
      unfold serve
      rw [hrun]
      exact response_writeHeaderNow _ _
    refine ⟨?_, ?_, ?_, ?_⟩
    · rw [hresp]; exact (ping_response _ hu0).1
    · rw [hresp]; exact (ping_response _ hu0).2
    · rw [hrun]; simp [pingBody, Context.String, render_record, stageInput]
    · rw [hrun]; simp [pingBody, Context.String, render_record, stageInput]
  | true =>
    obtain ⟨herr, hops⟩ := hpass rfl
    have hst : (stageInput req 200 Stage.Https).Writer.status ≤ 300
        ∨ 399 ≤ (stageInput req 200 Stage.Https).Writer.status := by
      left
      have := (corsOutput_unwritten req 200).2.2
      simp only [stageInput]
      omega
    obtain ⟨hpassed, hsent, hbody⟩ := https_pass world (stageInput req 200 Stage.Https) herr hops hst
    have hidx : (httpsBody world (stageInput req 200 Stage.Https)).index = 3 := by
      rw [hpassed]; simp [enforced, stageInput]
    have hu : (afterHttps world req Stage.Ping).unwritten := by
      constructor
      · simp only [afterHttps]; rw [hpassed, hsent]; exact (corsOutput_unwritten req 200).1
      · simp only [afterHttps]; rw [hpassed, hbody]; exact (corsOutput_unwritten req 200).2.1
    have hidx2 : (pingBody (afterHttps world req Stage.Ping)).index = 4 := by
      simp [pingBody, Context.String, render_record, afterHttps]
    have hchain := tls_route_chain_pass world req Stage.Ping pingBody hno hidx (Or.inl hidx2)
    have hrun : (GetEngine true env world).handleHTTPRequest world req
        = { pingBody (afterHttps world req Stage.Ping) with
            Writer := (pingBody (afterHttps world req Stage.Ping)).Writer.WriteHeaderNow,
            index := (pingBody (afterHttps world req Stage.Ping)).index + 4 } := by
      rw [route_find_ping true env world req hm hp]
      simp only [if_true, List.cons_append, List.nil_append, pingHandler]
      rw [hchain]
    have hresp : serve true env world req = (pingBody (afterHttps world req Stage.Ping)).response := by
      unfold serve
      rw [hrun]
      exact response_writeHeaderNow _ _
    refine ⟨?_, ?_, ?_, ?_⟩
    · rw [hresp]; exact (ping_response _ hu).1
    · rw [hresp]; exact (ping_response _ hu).2
    · rw [hrun]
      simp [pingBody, Context.String, render_record, afterHttps, https_record, stageInput]
    · rw [hrun]
      simp [pingBody, Context.String, render_record, afterHttps, https_record, stageInput]

/-- C7 at a concrete input: GET `/v0/ping` with a query and an origin, in
TLS mode with an enforcement step that lets the request through. -/
theorem ping_answers_pong_witness :
    (serve true sampleEnv (sampleWorld PostResult.failed)
        (sampleRequest "GET" "/v0/ping" (ascii "x=1") "https://a.example")).status = 200
      ∧ (serve true sampleEnv (sampleWorld PostResult.failed)
        (sampleRequest "GET" "/v0/ping" (ascii "x=1") "https://a.example")).body = "pong" :=
  ⟨(ping_answers_pong true sampleEnv (sampleWorld PostResult.failed)
      (sampleRequest "GET" "/v0/ping" (ascii "x=1") "https://a.example") rfl rfl
      (fun _ => ⟨rfl, by simp [sampleWorld]⟩)).1,
   (ping_answers_pong true sampleEnv (sampleWorld PostResult.failed)
      (sampleRequest "GET" "/v0/ping" (ascii "x=1") "https://a.example") rfl rfl
      (fun _ => ⟨rfl, by simp [sampleWorld]⟩)).2.1⟩

/-- C7 as stated fails: in TLS mode, when the enforcement step does not
allow the host of the request (it answers 500 `Bad Host` and returns its
error), a GET request to `/v0/ping` is answered 500 with the body `Bad Host`
followed by `error securing session`, not 200 `pong`, and the ping handler is
never entered. -/
theorem ping_not_always_pong :
    (badHostWorld.Process (sampleRequest "GET" "/v0/ping" [] "")).2 = true
      ∧ serve true sampleEnv badHostWorld (sampleRequest "GET" "/v0/ping" [] "")
        = { status := 500,
            header := ⟨[("X-Content-Type-Options", ["nosniff"]),
              ("Content-Type", ["text/plain; charset=utf-8"])]⟩,
            body := "Bad Host\nerror securing session" }
      ∧ (serve true sampleEnv badHostWorld (sampleRequest "GET" "/v0/ping" [] "")).status ≠ 200
      ∧ (serve true sampleEnv badHostWorld (sampleRequest "GET" "/v0/ping" [] "")).body ≠ "pong"
      ∧ ((GetEngine true sampleEnv badHostWorld).handleHTTPRequest badHostWorld
          (sampleRequest "GET" "/v0/ping" [] "")).trace
          = [Stage.Logger, Stage.Recovery, Stage.CORSMiddleware, Stage.Https] := by
  refine ⟨rfl, rfl, by decide, by decide, rfl⟩

theorem https_aborted_index (world : World) (c : Context) (hc : c.index < abortIndex)
    (hab : (httpsBody world c).IsAborted = true) : (httpsBody world c).index = abortIndex := by
  rcases https_index world c with h | h
  · simp only [Context.IsAborted, decide_eq_true_eq] at hab
    omega
  · exact h

/-- What the function `Https()` returns does after the enforcement step, for
every step.  On an error it aborts the chain and writes
`error securing session` after whatever the step wrote: the response is 500
with exactly that body when the step wrote nothing, and keeps the step's
committed status with the text appended to the step's body when the step had
answered.  Without an error, a recorded status strictly between 300 and 399
aborts the chain and adds nothing, and any other status, 300 and 399 included,
lets the chain continue.  On an aborted chain the route handler is not entered
and no call goes upstream. -/
theorem https_abort_cases (env : Env) (world : World) (ctx : Context) :
    ((world.Process ctx.Request).2 = true →
        (httpsBody world ctx).IsAborted = true
        ∧ ((enforced world ctx).unwritten →
            (httpsBody world ctx).response.status = 500
            ∧ (httpsBody world ctx).response.body = "error securing session")
        ∧ (∀ st h, (enforced world ctx).Writer.sent = some (st, h) →
            bodyAllowedForStatus st = true →
            (httpsBody world ctx).response.status = st
            ∧ (httpsBody world ctx).response.body
                = (enforced world ctx).Writer.body ++ "error securing session"))
    ∧ ((world.Process ctx.Request).2 = false →
        (300 < (enforced world ctx).Writer.status → (enforced world ctx).Writer.status < 399 →
            httpsBody world ctx = (enforced world ctx).Abort
            ∧ (httpsBody world ctx).IsAborted = true)
        ∧ ((enforced world ctx).Writer.status ≤ 300 ∨ 399 ≤ (enforced world ctx).Writer.status →
            httpsBody world ctx = enforced world ctx
            ∧ (httpsBody world ctx).index = ctx.index))
    ∧ (ctx.Request.Method = "GET" →
        (ctx.Request.Path = "/v0/ping" ∨ ctx.Request.Path = "/v0/integrations/figma/token") →
        (httpsBody world (stageInput ctx.Request 200 Stage.Https)).IsAborted = true →
        ((GetEngine true env world).handleHTTPRequest world ctx.Request).trace
            = [Stage.Logger, Stage.Recovery, Stage.CORSMiddleware, Stage.Https]
        ∧ ((GetEngine true env world).handleHTTPRequest world ctx.Request).outbound = []
        ∧ serve true env world ctx.Request
            = (httpsBody world (stageInput ctx.Request 200 Stage.Https)).response) := by
  refine ⟨?_, ?_, ?_⟩
  · intro herr
    have hbody : httpsBody world ctx
        = ((enforced world ctx).String StatusInternalServerError "error securing session").Abort := by
      unfold httpsBody
      simp only [herr, if_true]
    refine ⟨?_, ?_, ?_⟩
    · rw [hbody]; simp [Context.Abort, Context.IsAborted]
    · intro hu
      have hw := render_writer (enforced world ctx) 500 "text/plain; charset=utf-8"
        "error securing session" hu (by decide) (by decide)
      rw [hbody]
      simp [Context.Abort, Context.String, StatusInternalServerError, Context.response, hw]
    · intro st h hs hallowed
      have hw := render_written (enforced world ctx) 500 "text/plain; charset=utf-8"
        "error securing session" st h hs hallowed (by decide)
      rw [hbody]
      simp [Context.Abort, Context.String, StatusInternalServerError, Context.response, hw]
  · intro herr
    refine ⟨?_, ?_⟩
    · intro h1 h2
      have hbody : httpsBody world ctx = (enforced world ctx).Abort := by
        unfold httpsBody
        simp only [herr, Bool.false_eq_true, if_false]
        rw [if_pos ⟨h1, h2⟩]
      rw [hbody]
      exact ⟨rfl, by simp [Context.Abort, Context.IsAborted]⟩
    · intro h1
      have hbody : httpsBody world ctx = enforced world ctx := by
        unfold httpsBody
        simp only [herr, Bool.false_eq_true, if_false]
        rw [if_neg (by omega)]
      rw [hbody]
      exact ⟨rfl, (enforced_record world ctx).2.1⟩
  · intro hm hp hab
    have hno : ctx.Request.Method ≠ "OPTIONS" := by rw [hm]; decide
    have hidx := https_aborted_index world (stageInput ctx.Request 200 Stage.Https)
      (by simp [stageInput, abortIndex]) hab
    rcases hp with hp | hp
    · have hrun : (GetEngine true env world).handleHTTPRequest world ctx.Request
          = { httpsBody world (stageInput ctx.Request 200 Stage.Https) with
              Writer := (httpsBody world (stageInput ctx.Request 200 Stage.Https)).Writer.WriteHeaderNow,
              index := abortIndex + 4 } := by
        rw [route_find_ping true env world ctx.Request hm hp]
        simp only [if_true, List.cons_append, List.nil_append]
        rw [tls_route_chain_halt world ctx.Request pingHandler hno hidx]
      refine ⟨?_, ?_, ?_⟩
      · rw [hrun]; simp [https_record, stageInput]
      · rw [hrun]; simp [https_record, stageInput]
      · unfold serve; rw [hrun]; exact response_writeHeaderNow _ _
    · have hrun : (GetEngine true env world).handleHTTPRequest world ctx.Request
          = { httpsBody world (stageInput ctx.Request 200 Stage.Https) with
              Writer := (httpsBody world (stageInput ctx.Request 200 Stage.Https)).Writer.WriteHeaderNow,
              index := abortIndex + 4 } := by
        rw [route_find_token true env world ctx.Request hm hp]
        simp only [if_true, List.cons_append, List.nil_append]
        rw [tls_route_chain_halt world ctx.Request (FigmaTokenExchangeHandler env world) hno hidx]
      refine ⟨?_, ?_, ?_⟩
      · rw [hrun]; simp [https_record, stageInput]
      · rw [hrun]; simp [https_record, stageInput]
      · unfold serve; rw [hrun]; exact response_writeHeaderNow _ _

/-- C8, where the code departs from it: the claim says that on an error of
the enforcement step the response is status 500 with body
`error securing session`.  The step of unrolled/secure answers the request
itself before it returns its error, so `ctx.String(StatusInternalServerError,
...)` comes after the response is committed and only appends its text.  For a
host that is not allowed the response is 500 with the body `Bad Host` followed
by `error securing session`; for a request redirected to HTTPS it is the 301
of the step, with `error securing session` after the redirect page.  In both
cases the chain is aborted and the route handler is not entered, as the claim
says. -/
theorem https_error_body_is_appended :
    (badHostWorld.Process (sampleRequest "GET" "/v0/ping" [] "")).2 = true
      ∧ serve true sampleEnv badHostWorld (sampleRequest "GET" "/v0/ping" [] "")
          = { status := 500,
              header := ⟨[("X-Content-Type-Options", ["nosniff"]),
                ("Content-Type", ["text/plain; charset=utf-8"])]⟩,
              body := "Bad Host\nerror securing session" }
      ∧ (serve true sampleEnv badHostWorld (sampleRequest "GET" "/v0/ping" [] "")).body
          ≠ "error securing session"
      ∧ (redirectWorld.Process (sampleRequest "GET" "/v0/ping" [] "")).2 = true
      ∧ serve true sampleEnv redirectWorld (sampleRequest "GET" "/v0/ping" [] "")
          = { status := 301,
              header := ⟨[("Content-Type", ["text/html; charset=utf-8"]),
                ("Location", ["https://relay.example/v0/ping"])]⟩,
              body := "<a href=\"https://relay.example/v0/ping\">Moved Permanently</a>.\n\nerror securing session" }
      ∧ (serve true sampleEnv redirectWorld (sampleRequest "GET" "/v0/ping" [] "")).status ≠ 500
      ∧ (serve true sampleEnv redirectWorld (sampleRequest "GET" "/v0/ping" [] "")).body
          ≠ "error securing session"
      ∧ ((GetEngine true sampleEnv badHostWorld).handleHTTPRequest badHostWorld
          (sampleRequest "GET" "/v0/ping" [] "")).IsAborted = true
      ∧ ((GetEngine true sampleEnv redirectWorld).handleHTTPRequest redirectWorld
          (sampleRequest "GET" "/v0/ping" [] "")).IsAborted = true
      ∧ ((GetEngine true sampleEnv badHostWorld).handleHTTPRequest badHostWorld
          (sampleRequest "GET" "/v0/ping" [] "")).trace
          = [Stage.Logger, Stage.Recovery, Stage.CORSMiddleware, Stage.Https]
      ∧ ((GetEngine true sampleEnv redirectWorld).handleHTTPRequest redirectWorld
          (sampleRequest "GET" "/v0/ping" [] "")).trace
          = [Stage.Logger, Stage.Recovery, Stage.CORSMiddleware, Stage.Https] := by
  refine ⟨rfl, rfl, by decide, rfl, rfl, by decide, by decide, rfl, rfl, rfl, rfl⟩

/-! ## The CORS headers stay -/

theorem find_filter_ne (es : List (String × List String)) (k j : String) (hne : k ≠ j) :
    (es.filter (fun e => e.1 ≠ j)).find? (fun e => e.1 = k) = es.find? (fun e => e.1 = k) := by
  induction es with
  | nil => rfl
  | cons e rest ih =>
    by_cases he : e.1 = k
    · have hej : e.1 ≠ j := by rw [he]; exact hne
      rw [List.filter_cons_of_pos (by simpa using hej), List.find?_cons_of_pos _ (by simpa using he),
        List.find?_cons_of_pos _ (by simpa using he)]
    · by_cases hej : e.1 = j
      · rw [List.filter_cons_of_neg (by simpa using hej),
          List.find?_cons_of_neg _ (by simpa using he), ih]
      · rw [List.filter_cons_of_pos (by simpa using hej),
          List.find?_cons_of_neg _ (by simpa using he),
          List.find?_cons_of_neg _ (by simpa using he), ih]

theorem header_get_set_ne (h : Header) (k j v : String) (hne : k ≠ j) :
    (h.Set j v).Get k = h.Get k := by
  obtain ⟨es⟩ := h
  have hjk : ¬ j = k := fun e => hne e.symm
  simp only [Header.Get, Header.Set]
  rw [List.find?_cons_of_neg _ (by simpa using hjk), find_filter_ne es k j hne]

theorem header_get_set_eq (h : Header) (k v : String) : (h.Set k v).Get k = v := by
  simp [Header.Get, Header.Set, List.find?_cons]

theorem hasCORS_set (o : String) (h : Header) (k v : String) (hk : k ∉ corsKeys)
    (hc : hasCORS o h) : hasCORS o (h.Set k v) := by
  simp only [corsKeys, List.mem_cons, List.mem_singleton, List.not_mem_nil, or_false,
    not_or] at hk
  obtain ⟨k1, k2, k3, k4⟩ := hk
  obtain ⟨c1, c2, c3, c4⟩ := hc
  refine ⟨?_, ?_, ?_, ?_⟩
  · rw [header_get_set_ne _ _ _ _ (Ne.symm k1)]; exact c1
  · rw [header_get_set_ne _ _ _ _ (Ne.symm k2)]; exact c2
  · rw [header_get_set_ne _ _ _ _ (Ne.symm k3)]; exact c3
  · rw [header_get_set_ne _ _ _ _ (Ne.symm k4)]; exact c4

theorem hasCORS_setCORSHeaders (o : String) (w : ResponseWriter) :
    hasCORS o (setCORSHeaders w o).header := by
  simp only [setCORSHeaders, hasCORS]
  refine ⟨?_, ?_, ?_, ?_⟩
  · rw [header_get_set_ne _ _ _ _ (by decide), header_get_set_ne _ _ _ _ (by decide),
      header_get_set_ne _ _ _ _ (by decide), header_get_set_eq]
  · rw [header_get_set_ne _ _ _ _ (by decide), header_get_set_ne _ _ _ _ (by decide),
      header_get_set_eq]
  · rw [header_get_set_ne _ _ _ _ (by decide), header_get_set_eq]
  · rw [header_get_set_eq]

theorem writerCORS_writeHeader (o : String) (w : ResponseWriter) (code : Nat)
    (h : writerCORS o w) : writerCORS o (w.WriteHeader code) := by
  unfold ResponseWriter.WriteHeader
  split
  · split
    · exact h
    · exact h
  · exact h

theorem writerCORS_writeHeaderNow (o : String) (w : ResponseWriter) (h : writerCORS o w) :
    writerCORS o w.WriteHeaderNow := by
  unfold ResponseWriter.WriteHeaderNow
  split
  · exact h
  · refine ⟨h.1, ?_⟩
    intro st hd hs
    simp only [Option.some.injEq, Prod.mk.injEq] at hs
    rw [← hs.2]
    exact h.1

theorem writerCORS_write (o : String) (w : ResponseWriter) (data : String)
    (h : writerCORS o w) : writerCORS o (w.Write data) := by
  have h1 := writerCORS_writeHeaderNow o w h
  unfold ResponseWriter.Write
  split
  · split
    · exact h1
    · exact h1
  · exact h1

theorem writerCORS_writeContentType (o : String) (w : ResponseWriter) (value : String)
    (h : writerCORS o w) : writerCORS o (writeContentType w value) := by
  unfold writeContentType
  split
  · exact h
  · exact ⟨hasCORS_set o _ _ _ (by decide) h.1, h.2⟩

theorem writerCORS_apply (o : String) (w : ResponseWriter) (op : WriterOp)
    (hop : ∀ k v, op = WriterOp.setHeader k v → k ∉ corsKeys) (h : writerCORS o w) :
    writerCORS o (w.apply op) := by
  cases op with
  | setHeader k v => exact ⟨hasCORS_set o _ _ _ (hop k v rfl) h.1, h.2⟩
  | writeHeader code => exact writerCORS_writeHeader o w code h
  | write data => exact writerCORS_write o w data h

theorem writerCORS_fold (o : String) (ops : List WriterOp) (w : ResponseWriter)
    (hops : ∀ k v, WriterOp.setHeader k v ∈ ops → k ∉ corsKeys) (h : writerCORS o w) :
    writerCORS o (ops.foldl ResponseWriter.apply w) := by
  induction ops generalizing w with
  | nil => exact h
  | cons op rest ih =>
    simp only [List.foldl_cons]
    apply ih
    · intro k v hm
      exact hops k v (by simp [hm])
    · apply writerCORS_apply o w op _ h
      intro k v he
      exact hops k v (by simp [he])

theorem writerCORS_render (o : String) (c : Context) (code : Nat) (ct data : String)
    (h : writerCORS o c.Writer) : writerCORS o (c.Render code ct data).Writer := by
  unfold Context.Render
  split
  · exact writerCORS_write o _ _
      (writerCORS_writeContentType o _ _ (writerCORS_writeHeader o _ _ h))
  · exact writerCORS_writeHeaderNow o _
      (writerCORS_writeContentType o _ _ (writerCORS_writeHeader o _ _ h))

theorem writerCORS_abortWithStatus (o : String) (c : Context) (code : Nat)
    (h : writerCORS o c.Writer) : writerCORS o (c.AbortWithStatus code).Writer := by
  simp only [Context.AbortWithStatus, Context.Abort, Context.Status]
  exact writerCORS_writeHeaderNow o _ (writerCORS_writeHeader o _ _ h)

theorem writerCORS_https (o : String) (world : World) (c : Context)
    (hops : ∀ k v, WriterOp.setHeader k v ∈ (world.Process c.Request).1 → k ∉ corsKeys)
    (h : writerCORS o c.Writer) : writerCORS o (httpsBody world c).Writer := by
  have he : writerCORS o (enforced world c).Writer := writerCORS_fold o _ _ hops h
  unfold httpsBody
  simp only
  split
  · exact writerCORS_render o _ _ _ _ he
  · split
    · exact he
    · exact he

theorem writerCORS_tokenExchange (o : String) (env : Env) (world : World) (c : Context)
    (h : writerCORS o c.Writer) : writerCORS o (tokenExchange env world c).Writer := by
  unfold tokenExchange
  simp only
  split
  · exact writerCORS_abortWithStatus o _ _ h
  · split
    · exact writerCORS_abortWithStatus o _ _ h
    · split
      · exact writerCORS_abortWithStatus o _ _ h
      · split
        · exact writerCORS_abortWithStatus o _ _ h
        · exact writerCORS_render o _ _ _ _ h

theorem writerCORS_ping (o : String) (c : Context) (h : writerCORS o c.Writer) :
    writerCORS o (pingBody c).Writer :=
  writerCORS_render o _ _ _ _ h

theorem writerCORS_response (o : String) (c : Context) (h : writerCORS o c.Writer) :
    hasCORS o c.response.header := by
  unfold Context.response
  cases hs : c.Writer.sent with
  | none => exact h.1
  | some p => exact h.2 p.1 p.2 hs

theorem writerCORS_corsOutput (req : Request) (status : Nat)
    (ho : req.Header.Get "Origin" ≠ "") :
    writerCORS (req.Header.Get "Origin") (corsOutput req status) := by
  unfold corsOutput
  rw [if_pos ho]
  refine ⟨hasCORS_setCORSHeaders _ _, ?_⟩
  intro st h hs
  simp [setCORSHeaders] at hs

theorem tokenExchange_index (env : Env) (world : World) (c : Context) :
    (tokenExchange env world c).index = c.index
      ∨ (tokenExchange env world c).index = abortIndex := by
  unfold tokenExchange
  simp only
  split
  · right; simp [Context.AbortWithStatus, Context.Abort]
  · split
    · right; simp [Context.AbortWithStatus, Context.Abort]
    · split
      · right; simp [Context.AbortWithStatus, Context.Abort]
      · split
        · right; simp [Context.AbortWithStatus, Context.Abort]
        · left; simp [Context.JSON, render_record]

/-- In non-TLS mode the response to a GET request on the token route is
what `FigmaTokenExchangeHandler` leaves, and the handler runs on a context in
which nothing is written yet. -/
theorem serve_token_route (env : Env) (world : World) (req : Request)
    (hm : req.Method = "GET") (hp : req.Path = "/v0/integrations/figma/token") :
    serve false env world req
        = (tokenExchange env world
            (stageInput req 200 Stage.FigmaTokenExchangeHandler)).response
      ∧ (stageInput req 200 Stage.FigmaTokenExchangeHandler).unwritten := by
  have hno : req.Method ≠ "OPTIONS" := by rw [hm]; decide
  constructor
  · unfold serve
    rw [route_find_token false env world req hm hp]
    simp only [Bool.false_eq_true, if_false, List.append_nil, List.cons_append,
      List.nil_append, FigmaTokenExchangeHandler]
    rw [plain_route_chain req Stage.FigmaTokenExchangeHandler (tokenExchange env world) hno
      (tokenExchange_index env world _)]
    exact response_writeHeaderNow _ _
  · exact ⟨(corsOutput_unwritten req 200).1, (corsOutput_unwritten req 200).2.1⟩

theorem stageInput_no_content_type (req : Request) :
    ¬ (stageInput req 200 Stage.FigmaTokenExchangeHandler).Writer.header.Has "Content-Type"
        = true := by
  unfold stageInput corsOutput
  simp only
  split
  · generalize req.Header.Get "Origin" = o
    simp [setCORSHeaders, Header.Set, Header.Has]
  · simp [Header.Has]

/-- C2: when the outbound POST fails, or the upstream replies with a status
other than 200 (whatever its body), the handler answers 400 with an empty
body, reads no upstream body and adds nothing to the response headers; in
non-TLS mode the response of the service to a GET on the token route is then
400 with an empty body. -/
theorem upstream_rejection_gives_bad_request (env : Env) (world : World) (ctx : Context)
    (hfresh : ctx.unwritten)
    (hpost : world.Post (tokenExchangeCall env ctx) = PostResult.failed ∨
      ∃ status body, world.Post (tokenExchangeCall env ctx) = PostResult.reply status body
        ∧ status ≠ 200) :
    (tokenExchange env world ctx).response
        = { status := 400, header := ctx.Writer.header, body := "" }
      ∧ (tokenExchange env world ctx).bodyReads = ctx.bodyReads
      ∧ (tokenExchange env world ctx).IsAborted = true
      ∧ (tokenExchange env world ctx).outbound = ctx.outbound ++ [tokenExchangeCall env ctx]
      ∧ (ctx.Request.Method = "GET" → ctx.Request.Path = "/v0/integrations/figma/token" →
          (serve false env world ctx.Request).status = 400
            ∧ (serve false env world ctx.Request).body = "") := by
  obtain ⟨h1, h2, h3, h4⟩ := rejection_at_handler env world ctx hfresh hpost
  refine ⟨h1, h2, h3, h4, fun hm hp => ?_⟩
  have hs := serve_token_route env world ctx.Request hm hp
  have hh := rejection_at_handler env world
    (stageInput ctx.Request 200 Stage.FigmaTokenExchangeHandler) hs.2 hpost
  rw [hs.1, hh.1]
  exact ⟨rfl, rfl⟩

/-- C2 at the claim's input: an upstream 401 that carries a well-formed
token body gives 400 with an empty body, from the handler and from the
service. -/
theorem upstream_rejection_witness :
    (tokenExchange sampleEnv (sampleWorld (PostResult.reply 401 (some sampleBody)))
        (newContext (sampleRequest "GET" "/v0/integrations/figma/token" (ascii "Code=abc123") ""))).response
        = { status := 400, header := ⟨[]⟩, body := "" }
      ∧ (serve false sampleEnv (sampleWorld (PostResult.reply 401 (some sampleBody)))
          (sampleRequest "GET" "/v0/integrations/figma/token" (ascii "Code=abc123") "")).status
          = 400
      ∧ (serve false sampleEnv (sampleWorld (PostResult.reply 401 (some sampleBody)))
          (sampleRequest "GET" "/v0/integrations/figma/token" (ascii "Code=abc123") "")).body
          = "" :=
  ⟨(upstream_rejection_gives_bad_request sampleEnv
      (sampleWorld (PostResult.reply 401 (some sampleBody)))
      (newContext (sampleRequest "GET" "/v0/integrations/figma/token" (ascii "Code=abc123") ""))
      (by decide) (Or.inr ⟨401, some sampleBody, rfl, by decide⟩)).1,
   (upstream_rejection_gives_bad_request sampleEnv
      (sampleWorld (PostResult.reply 401 (some sampleBody)))
      (newContext (sampleRequest "GET" "/v0/integrations/figma/token" (ascii "Code=abc123") ""))
      (by decide) (Or.inr ⟨401, some sampleBody, rfl, by decide⟩)).2.2.2.2 rfl rfl⟩

theorem no_slash_after (p : String) (r : String) (c : Char) (hr : r.data.getLast? = some c)
    (hc : c ≠ '/') : r ≠ p ++ "/" := by
  intro h
  have h2 : r.data.getLast? = (p ++ "/").data.getLast? := by rw [← h]
  rw [hr, String.data_append] at h2
  have h3 : (p.data ++ "/".data).getLast? = some '/' := by
    show (p.data ++ ['/']).getLast? = some '/'
    simp
  rw [h3] at h2
  exact hc (Option.some.inj h2)

theorem route_not_found (useTls : Bool) (env : Env) (world : World) (req : Request)
    (h1 : ¬ (req.Method = "GET" ∧ req.Path = "/v0/ping"))
    (h2 : ¬ (req.Method = "GET" ∧ req.Path = "/v0/integrations/figma/token"))
    (hts : ¬ (req.Method = "GET"
      ∧ (req.Path = "/v0/ping/" ∨ req.Path = "/v0/integrations/figma/token/"))) :
    (GetEngine useTls env world).handleHTTPRequest world req
      = serveError ([Logger, Recovery, CORSMiddleware]
          ++ (if useTls then [Https world] else [])) (newContext req) := by
  have n1 := no_slash_after req.Path "/v0/ping" 'g' rfl (by decide)
  have n2 := no_slash_after req.Path "/v0/integrations/figma/token" 'n' rfl (by decide)
  by_cases hg : req.Method = "GET"
  · have p1 : ¬ "/v0/ping" = req.Path := fun e => h1 ⟨hg, e.symm⟩
    have p2 : ¬ "/v0/integrations/figma/token" = req.Path := fun e => h2 ⟨hg, e.symm⟩
    have p3 : ¬ req.Path = "/v0/ping/" := fun e => hts ⟨hg, Or.inl e⟩
    have p4 : ¬ req.Path = "/v0/integrations/figma/token/" := fun e => hts ⟨hg, Or.inr e⟩
    simp [GetEngine, Engine.handleHTTPRequest, Engine.trailingSlash, hg, p1, p2, p3, p4, n1, n2]
  · have g1 : ¬ "GET" = req.Method := fun e => hg e.symm
    simp [GetEngine, Engine.handleHTTPRequest, Engine.trailingSlash, g1]

theorem writerCORS_serveError (o : String) (handlers : List HandlerFunc) (c : Context)
    (h : writerCORS o (({ c with Writer := { c.Writer with status := StatusNotFound } } :
      Context).Next handlers).Writer) :
    writerCORS o (serveError handlers c).Writer := by
  unfold serveError
  simp only
  split
  · exact h
  · split
    · exact writerCORS_write o _ _ ⟨hasCORS_set o _ _ _ (by decide) h.1, h.2⟩
    · exact writerCORS_writeHeaderNow o _ h

/-- C5 as amended: for every request the router hands to the middleware
chain (every request but a GET whose path is a route followed by one more
`/`, which the router redirects itself), in TLS mode provided the enforcement
step does not set one of the four headers itself: when the Origin header is a
non-empty string, the response carries that origin in
Access-Control-Allow-Origin and the three fixed values, whatever method, path
and downstream outcome. -/
theorem cors_reflects_origin (useTls : Bool) (env : Env) (world : World) (req : Request)
    (ho : req.Header.Get "Origin" ≠ "")
    (hts : ¬ (req.Method = "GET"
      ∧ (req.Path = "/v0/ping/" ∨ req.Path = "/v0/integrations/figma/token/")))
    (hstep : useTls = true →
      ∀ k v, WriterOp.setHeader k v ∈ (world.Process req).1 → k ∉ corsKeys) :
    (serve useTls env world req).header.Get "Access-Control-Allow-Origin"
        = req.Header.Get "Origin"
      ∧ (serve useTls env world req).header.Get "Access-Control-Allow-Credentials" = "true"
      ∧ (serve useTls env world req).header.Get "Access-Control-Allow-Headers"
          = "Content-Type, Content-Length, Accept-Encoding, X-CSRF-Token, authorization, accept, origin, Cache-Control, X-Requested-With"
      ∧ (serve useTls env world req).header.Get "Access-Control-Allow-Methods"
          = "POST, OPTIONS, GET, PUT, DELETE" := by
  show hasCORS (req.Header.Get "Origin") (serve useTls env world req).header
  have hin : ∀ status stage, writerCORS (req.Header.Get "Origin")
      (stageInput req status stage).Writer :=
    fun status _ => writerCORS_corsOutput req status ho
  by_cases hopt : req.Method = "OPTIONS"
  · obtain ⟨m, p, q, h⟩ := req
    simp only at hopt ho
    subst hopt
    have hc := hasCORS_setCORSHeaders (h.Get "Origin")
      { header := ⟨[]⟩, status := 204, sent := none, body := "" }
    cases useTls <;>
      simpa [serve, GetEngine, Engine.handleHTTPRequest, Engine.trailingSlash, serveError,
        Context.Next, nextLoop, newContext, Logger, Recovery, CORSMiddleware, corsBody, ho,
        Context.AbortWithStatus, Context.Status, Context.Abort, leaf,
        ResponseWriter.WriteHeader, ResponseWriter.WriteHeaderNow, ResponseWriter.Written,
        Context.response, StatusNoContent, StatusNotFound, abortIndex, setCORSHeaders] using hc
  · by_cases hping : req.Method = "GET" ∧ req.Path = "/v0/ping"
    · obtain ⟨hm, hp⟩ := hping
      cases useTls with
      | false =>
        have hidx : (pingBody (stageInput req 200 Stage.Ping)).index = 3 := by
          simp [pingBody, Context.String, render_record, stageInput]
        have hresp : serve false env world req
            = (pingBody (stageInput req 200 Stage.Ping)).response := by
          unfold serve
          rw [route_find_ping false env world req hm hp]
          simp only [Bool.false_eq_true, if_false, List.append_nil, List.cons_append,
            List.nil_append, pingHandler]
          rw [plain_route_chain req Stage.Ping pingBody hopt (Or.inl hidx)]
          exact response_writeHeaderNow _ _
        rw [hresp]
        exact writerCORS_response _ _ (writerCORS_ping _ _ (hin 200 Stage.Ping))
      | true =>
        have hH := writerCORS_https (req.Header.Get "Origin") world
          (stageInput req 200 Stage.Https) (hstep rfl) (hin 200 Stage.Https)
        rcases https_index world (stageInput req 200 Stage.Https) with hidx | hidx
        · have hidx2 : (pingBody (afterHttps world req Stage.Ping)).index = 4 := by
            simp [pingBody, Context.String, render_record, afterHttps]
          have hresp : serve true env world req
              = (pingBody (afterHttps world req Stage.Ping)).response := by
            unfold serve
            rw [route_find_ping true env world req hm hp]
            simp only [if_true, List.cons_append, List.nil_append, pingHandler]
            rw [tls_route_chain_pass world req Stage.Ping pingBody hopt hidx (Or.inl hidx2)]
            exact response_writeHeaderNow _ _
          rw [hresp]
          exact writerCORS_response _ _ (writerCORS_ping _ _ hH)
        · have hresp : serve true env world req
              = (httpsBody world (stageInput req 200 Stage.Https)).response := by
            unfold serve
            rw [route_find_ping true env world req hm hp]
            simp only [if_true, List.cons_append, List.nil_append]
            rw [tls_route_chain_halt world req pingHandler hopt hidx]
            exact response_writeHeaderNow _ _
          rw [hresp]
          exact writerCORS_response _ _ hH
    · by_cases htok : req.Method = "GET" ∧ req.Path = "/v0/integrations/figma/token"
      · obtain ⟨hm, hp⟩ := htok
        cases useTls with
        | false =>
          have hidx := tokenExchange_index env world
            (stageInput req 200 Stage.FigmaTokenExchangeHandler)
          have hresp : serve false env world req
              = (tokenExchange env world
                  (stageInput req 200 Stage.FigmaTokenExchangeHandler)).response := by
            unfold serve
            rw [route_find_token false env world req hm hp]
            simp only [Bool.false_eq_true, if_false, List.append_nil, List.cons_append,
              List.nil_append, FigmaTokenExchangeHandler]
            rw [plain_route_chain req Stage.FigmaTokenExchangeHandler (tokenExchange env world)
              hopt hidx]
            exact response_writeHeaderNow _ _
          rw [hresp]
          exact writerCORS_response _ _ (writerCORS_tokenExchange _ _ _ _
            (hin 200 Stage.FigmaTokenExchangeHandler))
        | true =>
          have hH := writerCORS_https (req.Header.Get "Origin") world
            (stageInput req 200 Stage.Https) (hstep rfl) (hin 200 Stage.Https)
          rcases https_index world (stageInput req 200 Stage.Https) with hidx | hidx
          · have hidx2 := tokenExchange_index env world
              (afterHttps world req Stage.FigmaTokenExchangeHandler)
            have hresp : serve true env world req
                = (tokenExchange env world
                    (afterHttps world req Stage.FigmaTokenExchangeHandler)).response := by
              unfold serve
              rw [route_find_token true env world req hm hp]
              simp only [if_true, List.cons_append, List.nil_append, FigmaTokenExchangeHandler]
              rw [tls_route_chain_pass world req Stage.FigmaTokenExchangeHandler
                (tokenExchange env world) hopt hidx hidx2]
              exact response_writeHeaderNow _ _
            rw [hresp]
            exact writerCORS_response _ _ (writerCORS_tokenExchange _ _ _ _ hH)
          · have hresp : serve true env world req
                = (httpsBody world (stageInput req 200 Stage.Https)).response := by
              unfold serve
              rw [route_find_token true env world req hm hp]
              simp only [if_true, List.cons_append, List.nil_append]
              rw [tls_route_chain_halt world req (FigmaTokenExchangeHandler env world) hopt hidx]
              exact response_writeHeaderNow _ _
            rw [hresp]
            exact writerCORS_response _ _ hH
      · unfold serve
        rw [route_not_found useTls env world req hping htok hts]
        apply writerCORS_response
        apply writerCORS_serveError
        cases useTls with
        | false =>
          simp only [Bool.false_eq_true, if_false, List.append_nil]
          rw [plain_404_chain req hopt]
          exact writerCORS_corsOutput req 404 ho
        | true =>
          simp only [if_true, List.cons_append, List.nil_append]
          rw [tls_404_chain world req hopt (https_index world (stageInput req 404 Stage.Https))]
          exact writerCORS_https (req.Header.Get "Origin") world
            (stageInput req 404 Stage.Https) (hstep rfl) (hin 404 Stage.Https)

/-- C5 at a concrete input: a token request with an origin whose upstream
exchange is refused still carries the origin. -/
theorem cors_reflects_origin_witness :
    (serve false sampleEnv (sampleWorld (PostResult.reply 401 none))
        (sampleRequest "GET" "/v0/integrations/figma/token" (ascii "Code=abc123")
          "https://a.example")).header.Get "Access-Control-Allow-Origin" = "https://a.example" :=
  (cors_reflects_origin false sampleEnv (sampleWorld (PostResult.reply 401 none))
    (sampleRequest "GET" "/v0/integrations/figma/token" (ascii "Code=abc123") "https://a.example")
    (by decide) (by decide) (fun h => absurd h (by decide))).1

/-- C5 as stated fails: a GET request to `/v0/ping/` (a route followed by
one more `/`) with an origin is answered by the router with a 301 redirect
before any middleware runs, and the response carries none of the four
headers. -/
theorem cors_skipped_on_router_redirect :
    (serve false sampleEnv (sampleWorld PostResult.failed)
        (sampleRequest "GET" "/v0/ping/" [] "https://a.example")).status = 301
      ∧ (serve false sampleEnv (sampleWorld PostResult.failed)
        (sampleRequest "GET" "/v0/ping/" [] "https://a.example")).header.Has
          "Access-Control-Allow-Origin" = false
      ∧ (serve false sampleEnv (sampleWorld PostResult.failed)
        (sampleRequest "GET" "/v0/ping/" [] "https://a.example")).header.Get
          "Access-Control-Allow-Origin" ≠ "https://a.example"
      ∧ ((GetEngine false sampleEnv (sampleWorld PostResult.failed)).handleHTTPRequest
          (sampleWorld PostResult.failed)
          (sampleRequest "GET" "/v0/ping/" [] "https://a.example")).trace = [] := by
  refine ⟨rfl, rfl, by decide, rfl⟩

/-! ## The decoder -/

theorem storeString_err (j : Json) (cur : String) : (storeString j cur).2 = badString j := by
  cases j <;> rfl

theorem storeUint_err (j : Json) (cur : Nat) : (storeUint j cur).2 = badUint j := by
  cases j with
  | num lit =>
    simp only [storeUint, badUint]
    cases parseUint lit <;> rfl
  | _ => rfl

theorem decodeMember_typeError (st : DecodeState) (m : String × Json) :
    (decodeMember st m).typeError = (st.typeError || memberBad m) := by
  unfold decodeMember memberBad
  cases hf : findField m.1 with
  | none => simp
  | some f => cases f <;> simp [storeString_err, storeUint_err]

theorem decode_typeError (ms : List (String × Json)) (st : DecodeState) :
    (ms.foldl decodeMember st).typeError = (st.typeError || ms.any memberBad) := by
  induction ms generalizing st with
  | nil => simp
  | cons m rest ih =>
    simp only [List.foldl_cons, List.any_cons]
    rw [ih, decodeMember_typeError, Bool.or_assoc]

theorem decode_accessToken (ms : List (String × Json)) (st : DecodeState) :
    (ms.foldl decodeMember st).value.AccessToken
      = (matched RawField.AccessToken ms).foldl (fun cur j => (storeString j cur).1)
          st.value.AccessToken := by
  induction ms generalizing st with
  | nil => rfl
  | cons m rest ih =>
    simp only [List.foldl_cons]
    rw [ih]
    unfold matched decodeMember
    cases hf : findField m.1 with
    | none => simp [hf]
    | some f => cases f <;> simp [hf]

theorem decode_refreshToken (ms : List (String × Json)) (st : DecodeState) :
    (ms.foldl decodeMember st).value.RefreshToken
      = (matched RawField.RefreshToken ms).foldl (fun cur j => (storeString j cur).1)
          st.value.RefreshToken := by
  induction ms generalizing st with
  | nil => rfl
  | cons m rest ih =>
    simp only [List.foldl_cons]
    rw [ih]
    unfold matched decodeMember
    cases hf : findField m.1 with
    | none => simp [hf]
    | some f => cases f <;> simp [hf]

theorem decode_expiresIn (ms : List (String × Json)) (st : DecodeState) :
    (ms.foldl decodeMember st).value.ExpiresIn
      = (matched RawField.ExpiresIn ms).foldl (fun cur j => (storeUint j cur).1)
          st.value.ExpiresIn := by
  induction ms generalizing st with
  | nil => rfl
  | cons m rest ih =>
    simp only [List.foldl_cons]
    rw [ih]
    unfold matched decodeMember
    cases hf : findField m.1 with
    | none => simp [hf]
    | some f => cases f <;> simp [hf]

theorem decodeValue_typeError (j : Json) (v : OAuthAccessTokenResponseRaw) :
    (decodeValue j v).typeError = shapeError j := by
  cases j with
  | obj members => simp [decodeValue, shapeError, decode_typeError]
  | _ => rfl

/-! ## The fuel of the parser is enough -/

theorem skipSpace_length (s : List Char) : (skipSpace s).length ≤ s.length := by
  induction s with
  | nil => simp [skipSpace]
  | cons c rest ih =>
    by_cases h : isSpace c = true
    · simp only [skipSpace, h, if_true, List.length_cons]; omega
    · simp [skipSpace, h]

theorem takeDigits_length (s : List Char) : (takeDigits s).2.length ≤ s.length := by
  induction s with
  | nil => simp [takeDigits]
  | cons c rest ih =>
    by_cases h : isDigit c = true
    · simp only [takeDigits, h, if_true, List.length_cons]; omega
    · simp [takeDigits, h]

theorem scanSign_length (s : List Char) : (scanSign s).2.length ≤ s.length := by
  cases s with
  | nil => simp [scanSign]
  | cons c rest =>
    by_cases h : c = '-'
    · simp [scanSign, h]
    · simp [scanSign, h]

theorem scanInt_length (s ip r : List Char) (h : scanInt s = some (ip, r)) :
    r.length < s.length := by
  cases s with
  | nil => simp [scanInt] at h
  | cons c rest =>
    have ht := takeDigits_length rest
    by_cases h0 : c = '0'
    · simp only [scanInt, h0, if_true, Option.some.injEq, Prod.mk.injEq] at h
      rw [← h.2]; simp
    · by_cases hd : isDigit c = true
      · simp only [scanInt, h0, if_false, hd, if_true, Option.some.injEq, Prod.mk.injEq] at h
        rw [← h.2]; simp only [List.length_cons]; omega
      · simp [scanInt, h0, hd] at h

theorem scanFrac_length (s fp r : List Char) (h : scanFrac s = some (fp, r)) :
    r.length ≤ s.length := by
  cases s with
  | nil =>
    simp only [scanFrac, Option.some.injEq, Prod.mk.injEq] at h
    rw [← h.2]
  | cons c rest =>
    have ht := takeDigits_length rest
    by_cases hdot : c = '.'
    · by_cases he : (takeDigits rest).1 = []
      · simp [scanFrac, hdot, he] at h
      · simp only [scanFrac, hdot, if_true, he, if_false, Option.some.injEq,
          Prod.mk.injEq] at h
        rw [← h.2]; simp only [List.length_cons]; omega
    · simp only [scanFrac, hdot, if_false, Option.some.injEq, Prod.mk.injEq] at h
      rw [← h.2]

theorem scanExpDigits_length (pre s ep r : List Char)
    (h : scanExpDigits pre s = some (ep, r)) : r.length ≤ s.length := by
  have ht := takeDigits_length s
  by_cases he : (takeDigits s).1 = []
  · simp [scanExpDigits, he] at h
  · simp only [scanExpDigits, he, if_false, Option.some.injEq, Prod.mk.injEq] at h
    rw [← h.2]; exact ht

theorem scanExp_length (s ep r : List Char) (h : scanExp s = some (ep, r)) :
    r.length ≤ s.length := by
  cases s with
  | nil =>
    simp only [scanExp, Option.some.injEq, Prod.mk.injEq] at h
    rw [← h.2]
  | cons c rest =>
    by_cases hc : c = 'e' ∨ c = 'E'
    · cases rest with
      | nil => simp [scanExp, hc] at h
      | cons g rest2 =>
        by_cases hg : g = '+' ∨ g = '-'
        · simp only [scanExp, hc, if_true, hg] at h
          have := scanExpDigits_length _ _ _ _ h
          simp only [List.length_cons]; omega
        · simp only [scanExp, hc, if_true, hg, if_false] at h
          have := scanExpDigits_length _ _ _ _ h
          simp only [List.length_cons] at this ⊢; omega
    · simp only [scanExp, hc, if_false, Option.some.injEq, Prod.mk.injEq] at h
      rw [← h.2]

theorem parseNumber_length (s l r : List Char) (h : parseNumber s = some (l, r)) :
    r.length < s.length := by
  unfold parseNumber at h
  have h0 := scanSign_length s
  cases h1 : scanInt (scanSign s).2 with
  | none => simp [h1] at h
  | some p1 =>
    obtain ⟨ip, r1⟩ := p1
    have l1 := scanInt_length _ _ _ h1
    simp only [h1] at h
    cases h2 : scanFrac r1 with
    | none => simp [h2] at h
    | some p2 =>
      obtain ⟨fp, r2⟩ := p2
      have l2 := scanFrac_length _ _ _ h2
      simp only [h2] at h
      cases h3 : scanExp r2 with
      | none => simp [h3] at h
      | some p3 =>
        obtain ⟨ep, r3⟩ := p3
        have l3 := scanExp_length _ _ _ h3
        simp only [h3, Option.some.injEq, Prod.mk.injEq] at h
        rw [← h.2]; omega

theorem dropWord_length (w s r : List Char) (h : dropWord w s = some r) :
    r.length ≤ s.length := by
  induction w generalizing s with
  | nil =>
    simp only [dropWord, Option.some.injEq] at h
    rw [h]
  | cons x ws ih =>
    cases s with
    | nil => simp [dropWord] at h
    | cons c rest =>
      by_cases hc : c = x
      · simp only [dropWord, hc, if_true] at h
        have := ih rest h
        simp only [List.length_cons]; omega
      · simp [dropWord, hc] at h

theorem map_rest (x : Option (List Char × List Char)) (d : Char) (v rest : List Char)
    (h : x.map (fun r => (d :: r.1, r.2)) = some (v, rest)) : ∃ w, x = some (w, rest) := by
  cases x with
  | none => simp at h
  | some p =>
    obtain ⟨w, r⟩ := p
    simp only [Option.map_some', Option.some.injEq, Prod.mk.injEq] at h
    exact ⟨w, by rw [h.2]⟩

theorem parseString_rest (f : Nat) : ∀ (s v rest : List Char),
    parseString f s = some (v, rest) → rest.length < s.length := by
  induction f with
  | zero => intro s v rest h; simp [parseString] at h
  | succ f ih =>
    intro s v rest h
    cases s with
    | nil => simp [parseString] at h
    | cons c rest0 =>
      by_cases hq : c = '"'
      · simp only [parseString, hq, if_true, Option.some.injEq, Prod.mk.injEq] at h
        rw [← h.2]; simp
      · by_cases hb : c = '\\'
        · subst hb
          have hq2 : ¬ ('\\' = '"') := by decide
          cases rest0 with
          | nil => simp [parseString, hq2] at h
          | cons e rest2 =>
            have d4 : (rest2.drop 4).length ≤ rest2.length := by simp
            have d10 : (rest2.drop 10).length ≤ rest2.length := by simp
            by_cases hu : e = 'u'
            · subst hu
              simp only [parseString, hq2, if_false, if_true] at h
              cases hg : getu4 ('\\' :: 'u' :: rest2) with
              | none => simp [hg] at h
              | some rr =>
                simp only [hg] at h
                by_cases hs : isSurrogate rr = true
                · simp only [hs, if_true] at h
                  cases hd : (getu4 (rest2.drop 4)).bind (decodeRune rr) with
                  | none =>
                    simp only [hd] at h
                    obtain ⟨w, hw⟩ := map_rest _ _ _ _ h
                    have := ih _ _ _ hw
                    simp only [List.length_cons]; omega
                  | some dec =>
                    simp only [hd] at h
                    obtain ⟨w, hw⟩ := map_rest _ _ _ _ h
                    have := ih _ _ _ hw
                    simp only [List.length_cons]; omega
                · simp only [hs, Bool.false_eq_true, if_false] at h
                  obtain ⟨w, hw⟩ := map_rest _ _ _ _ h
                  have := ih _ _ _ hw
                  simp only [List.length_cons]; omega
            · simp only [parseString, hq2, if_false, if_true, hu] at h
              cases hse : simpleEscape e with
              | none => simp [hse] at h
              | some d =>
                simp only [hse] at h
                obtain ⟨w, hw⟩ := map_rest _ _ _ _ h
                have := ih _ _ _ hw
                simp only [List.length_cons]; omega
        · by_cases hc : c.toNat < 0x20
          · simp [parseString, hq, hb, hc] at h
          · simp only [parseString, hq, if_false, hb, hc] at h
            obtain ⟨w, hw⟩ := map_rest _ _ _ _ h
            have := ih _ _ _ hw
            simp only [List.length_cons]; omega

theorem parseString_step (fuel : Nat) (c e : Char) (rest2 : List Char) :
    parseString (fuel + 1) (c :: e :: rest2)
      = if c = '"' then some ([], e :: rest2)
        else if c = '\\' then
          if e = 'u' then
            match getu4 (c :: e :: rest2) with
            | none => none
            | some rr =>
              if isSurrogate rr then
                match (getu4 (rest2.drop 4)).bind (decodeRune rr) with
                | some dec =>
                  (parseString fuel (rest2.drop 10)).map (fun r => (Char.ofNat dec :: r.1, r.2))
                | none =>
                  (parseString fuel (rest2.drop 4)).map (fun r => (Char.ofNat 0xFFFD :: r.1, r.2))
              else (parseString fuel (rest2.drop 4)).map (fun r => (Char.ofNat rr :: r.1, r.2))
          else
            match simpleEscape e with
            | none => none
            | some d => (parseString fuel rest2).map (fun r => (d :: r.1, r.2))
        else if c.toNat < 0x20 then none
        else (parseString fuel (e :: rest2)).map (fun r => (c :: r.1, r.2)) := by
  rw [parseString]

theorem parseString_step_one (fuel : Nat) (c : Char) :
    parseString (fuel + 1) [c]
      = if c = '"' then some ([], [])
        else if c = '\\' then none
        else if c.toNat < 0x20 then none
        else (parseString fuel []).map (fun r => (c :: r.1, r.2)) := by
  rw [parseString]

theorem parseString_nil (fuel : Nat) : parseString fuel [] = none := by
  cases fuel <;> simp [parseString]

theorem parseString_stable (f : Nat) : ∀ s : List Char, s.length < f →
    parseString (f + 1) s = parseString f s := by
  induction f with
  | zero => intro s h; omega
  | succ f ih =>
    intro s h
    cases s with
    | nil => rw [parseString_nil, parseString_nil]
    | cons c rest0 =>
      cases rest0 with
      | nil =>
        rw [parseString_step_one (f + 1), parseString_step_one f, parseString_nil,
          parseString_nil]
      | cons e rest2 =>
        simp only [List.length_cons] at h
        have d4 : (rest2.drop 4).length ≤ rest2.length := by simp
        have d10 : (rest2.drop 10).length ≤ rest2.length := by simp
        rw [parseString_step (f + 1), parseString_step f,
          ih (rest2.drop 10) (by omega), ih (rest2.drop 4) (by omega), ih rest2 (by omega),
          ih (e :: rest2) (by simp only [List.length_cons]; omega)]

theorem parseValue_step (fuel depth : Nat) (c : Char) (rest : List Char) :
    parseValue (fuel + 1) depth (c :: rest)
      = if c = '{' then
          if maxNestingDepth < depth + 1 then none
          else
            match skipSpace rest with
            | [] => none
            | d :: rest2 =>
              if d = '}' then some (Json.obj [], rest2)
              else (parseMembers fuel (depth + 1) (d :: rest2)).map (fun r => (Json.obj r.1, r.2))
        else if c = '[' then
          if maxNestingDepth < depth + 1 then none
          else
            match skipSpace rest with
            | [] => none
            | d :: rest2 =>
              if d = ']' then some (Json.arr [], rest2)
              else (parseElems fuel (depth + 1) (d :: rest2)).map (fun r => (Json.arr r.1, r.2))
        else if c = '"' then
          (parseString fuel rest).map (fun r => (Json.str (String.mk r.1), r.2))
        else if c = 't' then (dropWord ['r', 'u', 'e'] rest).map (fun r => (Json.bool true, r))
        else if c = 'f' then (dropWord ['a', 'l', 's', 'e'] rest).map (fun r => (Json.bool false, r))
        else if c = 'n' then (dropWord ['u', 'l', 'l'] rest).map (fun r => (Json.null, r))
        else if c = '-' ∨ isDigit c then (parseNumber (c :: rest)).map (fun r => (Json.num r.1, r.2))
        else none := by
  rw [parseValue]

theorem parseValue_nil (fuel depth : Nat) : parseValue fuel depth [] = none := by
  cases fuel <;> simp [parseValue]

theorem parseElems_step (fuel depth : Nat) (s : List Char) :
    parseElems (fuel + 1) depth s
      = match parseValue fuel depth s with
        | none => none
        | some (v, rest) =>
          match skipSpace rest with
          | [] => none
          | d :: rest2 =>
            if d = ',' then
              (parseElems fuel depth (skipSpace rest2)).map (fun r => (v :: r.1, r.2))
            else if d = ']' then some ([v], rest2)
            else none := by
  rw [parseElems]

theorem parseMembers_nil (fuel depth : Nat) : parseMembers fuel depth [] = none := by
  cases fuel <;> simp [parseMembers]

theorem parseMembers_step (fuel depth : Nat) (q : Char) (rest : List Char) :
    parseMembers (fuel + 1) depth (q :: rest)
      = if q = '"' then
          match parseString fuel rest with
          | none => none
          | some (k, rest2) =>
            match skipSpace rest2 with
            | [] => none
            | col :: rest3 =>
              if col = ':' then
                match parseValue fuel depth (skipSpace rest3) with
                | none => none
                | some (v, rest4) =>
                  match skipSpace rest4 with
                  | [] => none
                  | d :: rest5 =>
                    if d = ',' then
                      (parseMembers fuel depth (skipSpace rest5)).map
                        (fun r => ((String.mk k, v) :: r.1, r.2))
                    else if d = '}' then some ([(String.mk k, v)], rest5)
                    else none
              else none
        else none := by
  rw [parseMembers]

theorem map_snd_eq {α β : Type} (x : Option (α × List Char)) (g : α → β) (v : β)
    (rest : List Char) (h : x.map (fun r => (g r.1, r.2)) = some (v, rest)) :
    ∃ w, x = some (w, rest) := by
  cases x with
  | none => simp at h
  | some p =>
    obtain ⟨w, r⟩ := p
    simp only [Option.map_some', Option.some.injEq, Prod.mk.injEq] at h
    exact ⟨w, by rw [h.2]⟩

theorem map_word_eq {β : Type} (x : Option (List Char)) (b v : β) (rest : List Char)
    (h : x.map (fun r => (b, r)) = some (v, rest)) : x = some rest := by
  cases x with
  | none => simp at h
  | some p =>
    simp only [Option.map_some', Option.some.injEq, Prod.mk.injEq] at h
    rw [h.2]

theorem skipSpace_tail (s rest2 : List Char) (d : Char) (h : skipSpace s = d :: rest2) :
    rest2.length < s.length := by
  have := skipSpace_length s
  rw [h] at this
  simp only [List.length_cons] at this
  omega

theorem parse_rest (f : Nat) :
    (∀ (d : Nat) (s : List Char) (v : Json) (rest : List Char),
        parseValue f d s = some (v, rest) → rest.length < s.length)
      ∧ (∀ (d : Nat) (s : List Char) (vs : List Json) (rest : List Char),
        parseElems f d s = some (vs, rest) → rest.length < s.length)
      ∧ (∀ (d : Nat) (s : List Char) (ms : List (String × Json)) (rest : List Char),
        parseMembers f d s = some (ms, rest) → rest.length < s.length) := by
  induction f with
  | zero =>
    refine ⟨?_, ?_, ?_⟩
    · intro d s v rest h; simp [parseValue] at h
    · intro d s v rest h; simp [parseElems] at h
    · intro d s v rest h; simp [parseMembers] at h
  | succ f ih =>
    obtain ⟨ihv, ihe, ihm⟩ := ih
    refine ⟨?_, ?_, ?_⟩
    · intro d s v rest h
      cases s with
      | nil => rw [parseValue_nil] at h; simp at h
      | cons c rest0 =>
        rw [parseValue_step] at h
        simp only [List.length_cons]
        split at h
        · split at h
          · simp at h
          · cases hsk : skipSpace rest0 with
            | nil => simp [hsk] at h
            | cons d0 rest2 =>
              have hl := skipSpace_tail _ _ _ hsk
              simp only [hsk] at h
              split at h
              · simp only [Option.some.injEq, Prod.mk.injEq] at h
                rw [← h.2]; omega
              · obtain ⟨w, hw⟩ := map_snd_eq _ _ _ _ h
                have := ihm _ _ _ _ hw
                simp only [List.length_cons] at this
                omega
        · split at h
          · split at h
            · simp at h
            · cases hsk : skipSpace rest0 with
              | nil => simp [hsk] at h
              | cons d0 rest2 =>
                have hl := skipSpace_tail _ _ _ hsk
                simp only [hsk] at h
                split at h
                · simp only [Option.some.injEq, Prod.mk.injEq] at h
                  rw [← h.2]; omega
                · obtain ⟨w, hw⟩ := map_snd_eq _ _ _ _ h
                  have := ihe _ _ _ _ hw
                  simp only [List.length_cons] at this
                  omega
          · split at h
            · obtain ⟨w, hw⟩ := map_snd_eq _ (fun k => Json.str (String.mk k)) _ _ h
              have := parseString_rest _ _ _ _ hw
              omega
            · split at h
              · have := dropWord_length _ _ _ (map_word_eq _ _ _ _ h)
                omega
              · split at h
                · have := dropWord_length _ _ _ (map_word_eq _ _ _ _ h)
                  omega
                · split at h
                  · have := dropWord_length _ _ _ (map_word_eq _ _ _ _ h)
                    omega
                  · split at h
                    · obtain ⟨w, hw⟩ := map_snd_eq _ _ _ _ h
                      have := parseNumber_length _ _ _ hw
                      simp only [List.length_cons] at this
                      omega
                    · simp at h
    · intro d s vs rest h
      rw [parseElems_step] at h
      cases hv : parseValue f d s with
      | none => simp [hv] at h
      | some p =>
        obtain ⟨v, rest1⟩ := p
        have l1 := ihv _ _ _ _ hv
        simp only [hv] at h
        cases hsk : skipSpace rest1 with
        | nil => simp [hsk] at h
        | cons d0 rest2 =>
          have l2 := skipSpace_tail _ _ _ hsk
          simp only [hsk] at h
          split at h
          · obtain ⟨w, hw⟩ := map_snd_eq _ _ _ _ h
            have l3 := ihe _ _ _ _ hw
            have l4 := skipSpace_length rest2
            omega
          · split at h
            · simp only [Option.some.injEq, Prod.mk.injEq] at h
              rw [← h.2]; omega
            · simp at h
    · intro d s ms rest h
      cases s with
      | nil => rw [parseMembers_nil] at h; simp at h
      | cons q rest0 =>
        rw [parseMembers_step] at h
        simp only [List.length_cons]
        split at h
        · cases hk : parseString f rest0 with
          | none => simp [hk] at h
          | some p =>
            obtain ⟨k, rest2⟩ := p
            have l1 := parseString_rest _ _ _ _ hk
            simp only [hk] at h
            cases hsk : skipSpace rest2 with
            | nil => simp [hsk] at h
            | cons col rest3 =>
              have l2 := skipSpace_tail _ _ _ hsk
              simp only [hsk] at h
              split at h
              · cases hv : parseValue f d (skipSpace rest3) with
                | none => simp [hv] at h
                | some p2 =>
                  obtain ⟨v, rest4⟩ := p2
                  have l3 := ihv _ _ _ _ hv
                  have l3b := skipSpace_length rest3
                  simp only [hv] at h
                  cases hsk2 : skipSpace rest4 with
                  | nil => simp [hsk2] at h
                  | cons d0 rest5 =>
                    have l4 := skipSpace_tail _ _ _ hsk2
                    simp only [hsk2] at h
                    split at h
                    · obtain ⟨w, hw⟩ := map_snd_eq _ _ _ _ h
                      have l5 := ihm _ _ _ _ hw
                      have l6 := skipSpace_length rest5
                      omega
                    · split at h
                      · simp only [Option.some.injEq, Prod.mk.injEq] at h
                        rw [← h.2]; omega
                      · simp at h
              · simp at h
        · simp at h

theorem parse_stable (f : Nat) :
    (∀ (d : Nat) (s : List Char), 2 * s.length < f →
        parseValue (f + 1) d s = parseValue f d s)
      ∧ (∀ (d : Nat) (s : List Char), 2 * s.length + 1 < f →
        parseElems (f + 1) d s = parseElems f d s)
      ∧ (∀ (d : Nat) (s : List Char), 2 * s.length + 1 < f →
        parseMembers (f + 1) d s = parseMembers f d s) := by
  induction f with
  | zero =>
    refine ⟨?_, ?_, ?_⟩
    · intro d s h; omega
    · intro d s h; omega
    · intro d s h; omega
  | succ f ih =>
    obtain ⟨ihv, ihe, ihm⟩ := ih
    refine ⟨?_, ?_, ?_⟩
    · intro d s h
      cases s with
      | nil => rw [parseValue_nil, parseValue_nil]
      | cons c rest0 =>
        simp only [List.length_cons] at h
        rw [parseValue_step (f + 1), parseValue_step f, parseString_stable f rest0 (by omega)]
        cases hsk : skipSpace rest0 with
        | nil => rfl
        | cons d0 rest2 =>
          have hl := skipSpace_tail _ _ _ hsk
          simp only []
          rw [ihm (d + 1) (d0 :: rest2) (by simp only [List.length_cons]; omega),
            ihe (d + 1) (d0 :: rest2) (by simp only [List.length_cons]; omega)]
    · intro d s h
      rw [parseElems_step (f + 1), parseElems_step f, ihv d s (by omega)]
      cases hv : parseValue f d s with
      | none => rfl
      | some p =>
        obtain ⟨v, rest1⟩ := p
        have l1 := (parse_rest f).1 _ _ _ _ hv
        simp only []
        cases hsk : skipSpace rest1 with
        | nil => rfl
        | cons d0 rest2 =>
          have l2 := skipSpace_tail _ _ _ hsk
          have l3 := skipSpace_length rest2
          simp only []
          rw [ihe d (skipSpace rest2) (by omega)]
    · intro d s h
      cases s with
      | nil => rw [parseMembers_nil, parseMembers_nil]
      | cons q rest0 =>
        simp only [List.length_cons] at h
        rw [parseMembers_step (f + 1), parseMembers_step f,
          parseString_stable f rest0 (by omega)]
        cases hk : parseString f rest0 with
        | none => rfl
        | some p =>
          obtain ⟨k, rest2⟩ := p
          have l1 := parseString_rest _ _ _ _ hk
          simp only []
          cases hsk : skipSpace rest2 with
          | nil => rfl
          | cons col rest3 =>
            have l2 := skipSpace_tail _ _ _ hsk
            have l2b := skipSpace_length rest3
            simp only []
            rw [ihv d (skipSpace rest3) (by omega)]
            cases hv : parseValue f d (skipSpace rest3) with
            | none => rfl
            | some p2 =>
              obtain ⟨v, rest4⟩ := p2
              have l3 := (parse_rest f).1 _ _ _ _ hv
              simp only []
              cases hsk2 : skipSpace rest4 with
              | nil => rfl
              | cons d0 rest5 =>
                have l4 := skipSpace_tail _ _ _ hsk2
                have l5 := skipSpace_length rest5
                simp only []
                rw [ihm d (skipSpace rest5) (by omega)]

theorem parseValue_fuel (d : Nat) (s : List Char) (extra : Nat) :
    parseValue (2 * s.length + 1 + extra) d s = parseValue (2 * s.length + 1) d s := by
  induction extra with
  | zero => rfl
  | succ k ih =>
    rw [← ih]
    exact (parse_stable (2 * s.length + 1 + k)).1 d s (by omega)

/-- The fuel `parseJSON` gives the parser is enough: with any larger fuel
the parser gives the same answer, so a text `parseJSON` rejects is rejected
whatever the fuel, and is not valid JSON. -/
theorem parseJSON_fuel (s : List Char) (fuel : Nat) (h : 2 * s.length + 1 ≤ fuel) :
    (match parseValue fuel 0 (skipSpace s) with
      | none => none
      | some (v, rest) => if skipSpace rest = [] then some v else none) = parseJSON s := by
  have hl := skipSpace_length s
  obtain ⟨e1, he1⟩ : ∃ e, fuel = 2 * (skipSpace s).length + 1 + e :=
    ⟨fuel - (2 * (skipSpace s).length + 1), by omega⟩
  obtain ⟨e2, he2⟩ : ∃ e, 2 * s.length + 1 = 2 * (skipSpace s).length + 1 + e :=
    ⟨2 * s.length - 2 * (skipSpace s).length, by omega⟩
  unfold parseJSON
  rw [he1, he2, parseValue_fuel, parseValue_fuel]

/-! ## What Marshal writes, parseJSON reads back -/

theorem hexVal_lowerhex : ∀ n : Fin 16, hexVal (lowerhex n.val) = some n.val := by
  decide

theorem hexVal_lowerhex_nat (n : Nat) (h : n < 16) : hexVal (lowerhex n) = some n :=
  hexVal_lowerhex ⟨n, h⟩

theorem parseString_quote (fuel : Nat) (rest : List Char) :
    parseString (fuel + 1) ('"' :: rest) = some ([], rest) := by
  simp [parseString]

theorem parseString_simple (fuel : Nat) (e d : Char) (rest : List Char) (he : e ≠ 'u')
    (hd : simpleEscape e = some d) :
    parseString (fuel + 1) ('\\' :: e :: rest)
      = (parseString fuel rest).map (fun r => (d :: r.1, r.2)) := by
  have h1 : ¬ ('\\' = '"') := by decide
  simp [parseString, h1, he, hd]

theorem parseString_plain (fuel : Nat) (c : Char) (rest : List Char) (h1 : c ≠ '"')
    (h2 : c ≠ '\\') (h3 : ¬ c.toNat < 0x20) :
    parseString (fuel + 1) (c :: rest)
      = (parseString fuel rest).map (fun r => (c :: r.1, r.2)) := by
  simp [parseString, h1, h2, h3]

theorem parseString_u (fuel : Nat) (a b c d : Char) (x y z w : Nat) (rest : List Char)
    (ha : hexVal a = some x) (hb : hexVal b = some y) (hc : hexVal c = some z)
    (hd : hexVal d = some w)
    (hs : isSurrogate (x * 4096 + y * 256 + z * 16 + w) = false) :
    parseString (fuel + 1) ('\\' :: 'u' :: a :: b :: c :: d :: rest)
      = (parseString fuel rest).map
          (fun r => (Char.ofNat (x * 4096 + y * 256 + z * 16 + w) :: r.1, r.2)) := by
  have h1 : ¬ ('\\' = '"') := by decide
  simp [parseString, h1, getu4, ha, hb, hc, hd, hs]

theorem parseString_escapeChar (fuel : Nat) (c : Char) (rest : List Char) :
    parseString (fuel + 1) (escapeChar c ++ rest)
      = (parseString fuel rest).map (fun r => (c :: r.1, r.2)) := by
  unfold escapeChar
  by_cases h1 : c = '"'
  · subst h1
    exact parseString_simple fuel '"' '"' rest (by decide) rfl
  · by_cases h2 : c = '\\'
    · subst h2
      exact parseString_simple fuel '\\' '\\' rest (by decide) rfl
    · by_cases h3 : c = '\n'
      · subst h3
        exact parseString_simple fuel 'n' '\n' rest (by decide) rfl
      · by_cases h4 : c = '\r'
        · subst h4
          exact parseString_simple fuel 'r' '\r' rest (by decide) rfl
        · by_cases h5 : c = '\t'
          · subst h5
            exact parseString_simple fuel 't' '\t' rest (by decide) rfl
          · simp only [h1, h2, h3, h4, h5, if_false]
            by_cases h6 : c.toNat < 0x20 ∨ c = '<' ∨ c = '>' ∨ c = '&'
            · rw [if_pos h6]
              have hlt : c.toNat < 128 := by
                rcases h6 with h | h | h | h
                · omega
                · subst h; decide
                · subst h; decide
                · subst h; decide
              have hs : isSurrogate (0 * 4096 + 0 * 256 + c.toNat / 16 * 16 + c.toNat % 16) = false := by
                have : 0 * 4096 + 0 * 256 + c.toNat / 16 * 16 + c.toNat % 16 = c.toNat := by omega
                rw [this]
                simp [isSurrogate]
                omega
              have hv : 0 * 4096 + 0 * 256 + c.toNat / 16 * 16 + c.toNat % 16 = c.toNat := by omega
              have := parseString_u fuel '0' '0' (lowerhex (c.toNat / 16)) (lowerhex (c.toNat % 16))
                0 0 (c.toNat / 16) (c.toNat % 16) rest rfl rfl
                (hexVal_lowerhex_nat _ (by omega)) (hexVal_lowerhex_nat _ (by omega)) hs
              rw [hv, Char.ofNat_toNat] at this
              exact this
            · rw [if_neg h6]
              by_cases h7 : c.toNat = 0x2028 ∨ c.toNat = 0x2029
              · rw [if_pos h7]
                have hv : 2 * 4096 + 0 * 256 + 2 * 16 + c.toNat % 16 = c.toNat := by omega
                have hs : isSurrogate (2 * 4096 + 0 * 256 + 2 * 16 + c.toNat % 16) = false := by
                  rw [hv]
                  simp [isSurrogate]
                  omega
                have := parseString_u fuel '2' '0' '2' (lowerhex (c.toNat % 16))
                  2 0 2 (c.toNat % 16) rest rfl rfl rfl
                  (hexVal_lowerhex_nat _ (by omega)) hs
                rw [hv, Char.ofNat_toNat] at this
                exact this
              · rw [if_neg h7]
                have h8 : ¬ c.toNat < 0x20 := fun h => h6 (Or.inl h)
                exact parseString_plain fuel c rest h1 h2 h8

theorem parseString_escaped (a : List Char) (rest : List Char) (fuel : Nat)
    (hf : a.length < fuel) :
    parseString fuel (a.flatMap escapeChar ++ '"' :: rest) = some (a, rest) := by
  induction a generalizing fuel with
  | nil =>
    obtain ⟨f, rfl⟩ : ∃ f, fuel = f + 1 := ⟨fuel - 1, by simp at hf; omega⟩
    exact parseString_quote f rest
  | cons c a ih =>
    obtain ⟨f, rfl⟩ : ∃ f, fuel = f + 1 := ⟨fuel - 1, by simp at hf; omega⟩
    have hf2 : a.length < f := by simp at hf; omega
    simp only [List.flatMap_cons, List.append_assoc]
    rw [parseString_escapeChar, ih f hf2]
    rfl

theorem digit_facts : ∀ d : Fin 10, isDigit (Char.ofNat (48 + d.val)) = true
    ∧ (Char.ofNat (48 + d.val)).toNat - 48 = d.val
    ∧ (Char.ofNat (48 + d.val) = '0' ↔ d.val = 0)
    ∧ Char.ofNat (48 + d.val) ≠ '-' := by
  decide

theorem digitsRev_stable (f : Nat) : ∀ n, n < f → digitsRev (f + 1) n = digitsRev f n := by
  induction f with
  | zero => intro n h; omega
  | succ f ih =>
    intro n h
    have e1 : digitsRev (f + 1 + 1) n
        = if n < 10 then [Char.ofNat (48 + n)]
          else Char.ofNat (48 + n % 10) :: digitsRev (f + 1) (n / 10) := rfl
    have e2 : digitsRev (f + 1) n
        = if n < 10 then [Char.ofNat (48 + n)]
          else Char.ofNat (48 + n % 10) :: digitsRev f (n / 10) := rfl
    rw [e1, e2]
    by_cases h10 : n < 10
    · simp [h10]
    · simp only [h10, if_false]
      rw [ih (n / 10) (by omega)]

theorem digitsRev_fuel (f n : Nat) (h : n < f) : digitsRev f n = digitsRev (n + 1) n := by
  induction f with
  | zero => omega
  | succ f ih =>
    by_cases hf : n < f
    · rw [digitsRev_stable f n hf]; exact ih hf
    · have : f = n := by omega
      rw [this]

theorem formatUint_small (n : Nat) (h : n < 10) : formatUint n = [Char.ofNat (48 + n)] := by
  simp [formatUint, digitsRev, h]

theorem formatUint_step (n : Nat) (h : ¬ n < 10) :
    formatUint n = formatUint (n / 10) ++ [Char.ofNat (48 + n % 10)] := by
  unfold formatUint
  rw [digitsRev]
  simp only [h, if_false, List.reverse_cons]
  rw [digitsRev_fuel n (n / 10) (by omega)]

theorem digitsValue_append (l : List Char) (d : Char) (acc : Nat) :
    digitsValue acc (l ++ [d])
      = (digitsValue acc l).bind
          (fun v => if isDigit d then some (v * 10 + (d.toNat - 48)) else none) := by
  induction l generalizing acc with
  | nil => simp [digitsValue]
  | cons c rest ih =>
    simp only [List.cons_append, digitsValue]
    split
    · exact ih _
    · rfl

theorem formatUint_spec (n : Nat) :
    canonicalDigits (formatUint n) ∧ (n = 0 → formatUint n = ['0'])
      ∧ (0 < n → ∃ c rest, formatUint n = c :: rest ∧ c ≠ '0')
      ∧ digitsValue 0 (formatUint n) = some n := by
  induction n using Nat.strong_induction_on with
  | _ n ih =>
    by_cases h10 : n < 10
    · obtain ⟨d1, d2, d3, _⟩ := digit_facts ⟨n, h10⟩
      simp only at d1 d2 d3
      rw [formatUint_small n h10]
      refine ⟨⟨?_, ?_⟩, ?_, ?_, ?_⟩
      · intro c hc
        simp only [List.mem_singleton] at hc
        simpa [hc] using d1
      · by_cases h0 : n = 0
        · left; rw [h0]
        · right; exact ⟨_, [], rfl, fun e => h0 (d3.mp e)⟩
      · intro h0; rw [h0]
      · intro hpos
        exact ⟨_, [], rfl, fun e => by have := d3.mp e; omega⟩
      · simp [digitsValue, d1, d2]
    · obtain ⟨⟨hall, _⟩, _, hhead, hval⟩ := ih (n / 10) (by omega)
      obtain ⟨c, rest, hc, hne⟩ := hhead (by omega)
      obtain ⟨d1, d2, _, _⟩ := digit_facts ⟨n % 10, by omega⟩
      simp only at d1 d2
      rw [formatUint_step n h10]
      refine ⟨⟨?_, ?_⟩, ?_, ?_, ?_⟩
      · intro x hx
        simp only [List.mem_append, List.mem_singleton] at hx
        rcases hx with hx | hx
        · exact hall x hx
        · simpa [hx] using d1
      · right
        exact ⟨c, rest ++ [Char.ofNat (48 + n % 10)], by rw [hc]; rfl, hne⟩
      · intro h0; omega
      · intro _
        exact ⟨c, rest ++ [Char.ofNat (48 + n % 10)], by rw [hc]; rfl, hne⟩
      · rw [digitsValue_append, hval]
        simp only [Option.bind_some, d1, if_true]
        rw [d2]
        show some (n / 10 * 10 + n % 10) = some n
        congr 1
        omega

theorem parseUint_formatUint (n : Nat) (h : n < 2 ^ uintSize) :
    parseUint (formatUint n) = some n := by
  obtain ⟨⟨_, hc⟩, _, _, hval⟩ := formatUint_spec n
  unfold parseUint
  rcases hc with hc | ⟨c, rest, hc, _⟩
  · rw [hc] at hval ⊢
    simp only [hval, h, if_true]
  · rw [hc] at hval ⊢
    simp only [hval, h, if_true]

theorem takeDigits_append (ds : List Char) (t : Char) (rest : List Char)
    (hall : ∀ c ∈ ds, isDigit c = true) (ht : isDigit t = false) :
    takeDigits (ds ++ t :: rest) = (ds, t :: rest) := by
  induction ds with
  | nil => simp [takeDigits, ht]
  | cons c ds ih =>
    have hc : isDigit c = true := hall c (by simp)
    have := ih (fun x hx => hall x (by simp [hx]))
    simp [takeDigits, hc, this]

theorem parseNumber_canonical (ds : List Char) (t : Char) (rest : List Char)
    (hds : canonicalDigits ds) (ht : isDigit t = false) (h1 : t ≠ '.') (h2 : t ≠ 'e')
    (h3 : t ≠ 'E') :
    parseNumber (ds ++ t :: rest) = some (ds, t :: rest) := by
  obtain ⟨hall, hc⟩ := hds
  have hfrac : scanFrac (t :: rest) = some ([], t :: rest) := by simp [scanFrac, h1]
  have hexp : scanExp (t :: rest) = some ([], t :: rest) := by simp [scanExp, h2, h3]
  rcases hc with hc | ⟨c, ds2, hc, hne⟩
  · subst hc
    have hs : scanSign ('0' :: t :: rest) = ([], '0' :: t :: rest) := by
      simp [scanSign]
    have hi : scanInt ('0' :: t :: rest) = some (['0'], t :: rest) := by simp [scanInt]
    simp [parseNumber, hs, hi, hfrac, hexp]
  · subst hc
    have hcd : isDigit c = true := hall c (by simp)
    have hminus : c ≠ '-' := by
      intro e; rw [e] at hcd; exact absurd hcd (by decide)
    have hs : scanSign (c :: (ds2 ++ t :: rest)) = ([], c :: (ds2 ++ t :: rest)) := by
      simp [scanSign, hminus]
    have htd := takeDigits_append ds2 t rest (fun x hx => hall x (by simp [hx])) ht
    have hi : scanInt (c :: (ds2 ++ t :: rest)) = some (c :: ds2, t :: rest) := by
      simp [scanInt, hne, hcd, htd]
    simp [parseNumber, hs, hi, hfrac, hexp]

theorem length_le_escaped (a : List Char) : a.length ≤ (a.flatMap escapeChar).length := by
  induction a with
  | nil => simp
  | cons c a ih =>
    have h1 : 1 ≤ (escapeChar c).length := by
      unfold escapeChar
      repeat' split
      all_goals simp
    simp only [List.flatMap_cons, List.length_append, List.length_cons]
    omega

theorem skipSpace_cons (c : Char) (rest : List Char) (h : isSpace c = false) :
    skipSpace (c :: rest) = c :: rest := by
  simp [skipSpace, h]

theorem parseValue_string (G depth : Nat) (v rest : List Char) (hv : v.length < G) :
    parseValue (G + 1) depth ('"' :: (v.flatMap escapeChar ++ '"' :: rest))
      = some (Json.str (String.mk v), rest) := by
  have h1 : ¬ ('"' = '{') := by decide
  have h2 : ¬ ('"' = '[') := by decide
  simp [parseValue, h1, h2, parseString_escaped v rest G hv]

theorem parseValue_digits (G depth : Nat) (ds rest : List Char) (hds : canonicalDigits ds) :
    parseValue (G + 1) depth (ds ++ '}' :: rest) = some (Json.num ds, '}' :: rest) := by
  have hnum := parseNumber_canonical ds '}' rest hds (by decide) (by decide) (by decide)
    (by decide)
  obtain ⟨hall, hc⟩ := hds
  have hshape : ∃ c ds2, ds = c :: ds2 := by
    rcases hc with hc | ⟨c, ds2, hc, _⟩
    · exact ⟨'0', [], hc⟩
    · exact ⟨c, ds2, hc⟩
  obtain ⟨c, ds2, hcd⟩ := hshape
  have hdig : isDigit c = true := hall c (by simp [hcd])
  have n1 : c ≠ '{' := by intro e; rw [e] at hdig; exact absurd hdig (by decide)
  have n2 : c ≠ '[' := by intro e; rw [e] at hdig; exact absurd hdig (by decide)
  have n3 : c ≠ '"' := by intro e; rw [e] at hdig; exact absurd hdig (by decide)
  have n4 : c ≠ 't' := by intro e; rw [e] at hdig; exact absurd hdig (by decide)
  have n5 : c ≠ 'f' := by intro e; rw [e] at hdig; exact absurd hdig (by decide)
  have n6 : c ≠ 'n' := by intro e; rw [e] at hdig; exact absurd hdig (by decide)
  rw [hcd] at hnum ⊢
  simp only [List.cons_append] at hnum ⊢
  simp [parseValue, n1, n2, n3, n4, n5, n6, hdig, hnum]

theorem parseMembers_string (G depth : Nat) (k v more : List Char) (hk : k.length < G + 1)
    (hv : v.length < G) :
    parseMembers (G + 2) depth
        ('"' :: (k.flatMap escapeChar ++ '"' :: ':' :: '"' ::
          (v.flatMap escapeChar ++ '"' :: ',' :: '"' :: more)))
      = (parseMembers (G + 1) depth ('"' :: more)).map
          (fun r => ((String.mk k, Json.str (String.mk v)) :: r.1, r.2)) := by
  have s1 : skipSpace (':' :: '"' :: (v.flatMap escapeChar ++ '"' :: ',' :: '"' :: more))
      = ':' :: '"' :: (v.flatMap escapeChar ++ '"' :: ',' :: '"' :: more) :=
    skipSpace_cons _ _ (by decide)
  have s2 : skipSpace ('"' :: (v.flatMap escapeChar ++ '"' :: ',' :: '"' :: more))
      = '"' :: (v.flatMap escapeChar ++ '"' :: ',' :: '"' :: more) :=
    skipSpace_cons _ _ (by decide)
  have s3 : skipSpace (',' :: '"' :: more) = ',' :: '"' :: more := skipSpace_cons _ _ (by decide)
  have s4 : skipSpace ('"' :: more) = '"' :: more := skipSpace_cons _ _ (by decide)
  have pk := parseString_escaped k
    (':' :: '"' :: (v.flatMap escapeChar ++ '"' :: ',' :: '"' :: more)) (G + 1) hk
  have pv := parseValue_string G depth v (',' :: '"' :: more) hv
  rw [parseMembers]
  simp only [if_true, pk, s1, s2, pv, s3, s4]

theorem parseMembers_number_last (G depth : Nat) (k ds : List Char) (hk : k.length < G + 1)
    (hds : canonicalDigits ds) :
    parseMembers (G + 2) depth ('"' :: (k.flatMap escapeChar ++ '"' :: ':' :: (ds ++ ['}'])))
      = some ([(String.mk k, Json.num ds)], []) := by
  obtain ⟨c, ds2, hcd⟩ : ∃ c ds2, ds = c :: ds2 := by
    rcases hds.2 with hc | ⟨c, ds2, hc, _⟩
    · exact ⟨'0', [], hc⟩
    · exact ⟨c, ds2, hc⟩
  have hdig : isDigit c = true := hds.1 c (by simp [hcd])
  have hsp : isSpace c = false := by
    cases hs : isSpace c with
    | false => rfl
    | true =>
      simp only [isSpace, decide_eq_true_eq] at hs
      rcases hs with e | e | e | e <;> rw [e] at hdig <;> exact absurd hdig (by decide)
  have s1 : skipSpace (':' :: (ds ++ ['}'])) = ':' :: (ds ++ ['}']) :=
    skipSpace_cons _ _ (by decide)
  have s2 : skipSpace (ds ++ ['}']) = ds ++ ['}'] := by
    rw [hcd]; exact skipSpace_cons _ _ hsp
  have s3 : skipSpace ['}'] = ['}'] := skipSpace_cons _ _ (by decide)
  have pk := parseString_escaped k (':' :: (ds ++ ['}'])) (G + 1) hk
  have pv := parseValue_digits G depth ds [] hds
  rw [parseMembers]
  simp only [if_true, pk, s1, s2, pv, s3]
  simp


theorem marshal_text (r : OAuthAccessTokenResponse) :
    (Marshal r).toList
      = '{' :: '"' :: ("AccessToken".toList.flatMap escapeChar ++ '"' :: ':' :: '"' ::
          (r.AccessToken.toList.flatMap escapeChar ++ '"' :: ',' :: '"' ::
          ("RefreshToken".toList.flatMap escapeChar ++ '"' :: ':' :: '"' ::
          (r.RefreshToken.toList.flatMap escapeChar ++ '"' :: ',' :: '"' ::
          ("ExpiresIn".toList.flatMap escapeChar ++ '"' :: ':' ::
          (formatUint r.ExpiresIn ++ ['}'])))))) := by
  have k1 : "AccessToken".toList.flatMap escapeChar = "AccessToken".toList := by decide
  have k2 : "RefreshToken".toList.flatMap escapeChar = "RefreshToken".toList := by decide
  have k3 : "ExpiresIn".toList.flatMap escapeChar = "ExpiresIn".toList := by decide
  rw [k1, k2, k3]
  simp [Marshal, encodeString]

/-- What `Marshal` writes is valid JSON, and parses back to an object with
the three members under their Go names, the strings unchanged and the number
in decimal digits that `parseUint` reads back to the same value. -/
theorem parse_marshal (r : OAuthAccessTokenResponse) :
    parseJSON (Marshal r).toList
      = some (Json.obj [("AccessToken", Json.str r.AccessToken),
          ("RefreshToken", Json.str r.RefreshToken),
          ("ExpiresIn", Json.num (formatUint r.ExpiresIn))]) := by
  have hlen : (Marshal r).toList.length
      = 49 + (r.AccessToken.toList.flatMap escapeChar).length
        + (r.RefreshToken.toList.flatMap escapeChar).length
        + (formatUint r.ExpiresIn).length := by
    have k1 : "AccessToken".toList.flatMap escapeChar = "AccessToken".toList := by decide
    have k2 : "RefreshToken".toList.flatMap escapeChar = "RefreshToken".toList := by decide
    have k3 : "ExpiresIn".toList.flatMap escapeChar = "ExpiresIn".toList := by decide
    have l1 : "AccessToken".toList.length = 11 := rfl
    have l2 : "RefreshToken".toList.length = 12 := rfl
    have l3 : "ExpiresIn".toList.length = 9 := rfl
    rw [marshal_text, k1, k2, k3]
    simp only [List.length_cons, List.length_append, List.length_nil, l1, l2, l3]
    omega
  have l1 : "AccessToken".toList.length = 11 := rfl
  have l2 : "RefreshToken".toList.length = 12 := rfl
  have l3 : "ExpiresIn".toList.length = 9 := rfl
  have la := length_le_escaped r.AccessToken.toList
  have lr := length_le_escaped r.RefreshToken.toList
  obtain ⟨G, hG⟩ : ∃ G, 2 * (Marshal r).toList.length + 1 = G + 5 :=
    ⟨2 * (Marshal r).toList.length - 4, by omega⟩
  have gA : r.AccessToken.toList.length < G + 2 := by omega
  have gR : r.RefreshToken.toList.length < G + 1 := by omega
  have gk1 : "AccessToken".toList.length < G + 2 + 1 := by omega
  have gk2 : "RefreshToken".toList.length < G + 1 + 1 := by omega
  have gk3 : "ExpiresIn".toList.length < G + 1 := by omega
  have hds := (formatUint_spec r.ExpiresIn).1
  unfold parseJSON
  rw [hG, marshal_text]
  have s0 : skipSpace ('{' :: '"' :: ("AccessToken".toList.flatMap escapeChar ++ '"' :: ':' :: '"' ::
          (r.AccessToken.toList.flatMap escapeChar ++ '"' :: ',' :: '"' ::
          ("RefreshToken".toList.flatMap escapeChar ++ '"' :: ':' :: '"' ::
          (r.RefreshToken.toList.flatMap escapeChar ++ '"' :: ',' :: '"' ::
          ("ExpiresIn".toList.flatMap escapeChar ++ '"' :: ':' ::
          (formatUint r.ExpiresIn ++ ['}'])))))))
      = '{' :: '"' :: ("AccessToken".toList.flatMap escapeChar ++ '"' :: ':' :: '"' ::
          (r.AccessToken.toList.flatMap escapeChar ++ '"' :: ',' :: '"' ::
          ("RefreshToken".toList.flatMap escapeChar ++ '"' :: ':' :: '"' ::
          (r.RefreshToken.toList.flatMap escapeChar ++ '"' :: ',' :: '"' ::
          ("ExpiresIn".toList.flatMap escapeChar ++ '"' :: ':' ::
          (formatUint r.ExpiresIn ++ ['}'])))))) := skipSpace_cons _ _ (by decide)
  rw [s0]
  have m3 := parseMembers_number_last G 1 "ExpiresIn".toList (formatUint r.ExpiresIn) gk3 hds
  have m2 := parseMembers_string (G + 1) 1 "RefreshToken".toList r.RefreshToken.toList
    ("ExpiresIn".toList.flatMap escapeChar ++ '"' :: ':' :: (formatUint r.ExpiresIn ++ ['}']))
    gk2 gR
  have m1 := parseMembers_string (G + 2) 1 "AccessToken".toList r.AccessToken.toList
    ("RefreshToken".toList.flatMap escapeChar ++ '"' :: ':' :: '"' ::
          (r.RefreshToken.toList.flatMap escapeChar ++ '"' :: ',' :: '"' ::
          ("ExpiresIn".toList.flatMap escapeChar ++ '"' :: ':' ::
          (formatUint r.ExpiresIn ++ ['}']))))
    gk1 gA
  rw [m3] at m2
  rw [m2] at m1
  have hdepth : ¬ maxNestingDepth < 0 + 1 := by decide
  rw [parseValue]
  simp only [if_true, hdepth, if_false]
  rw [skipSpace_cons _ _ (by decide : isSpace '"' = false)]
  have hq : ¬ ('"' = '}') := by decide
  simp only [hq, if_false, m1]
  simp [skipSpace]

theorem unmarshal_eq (data : String) (v : OAuthAccessTokenResponseRaw) :
    Unmarshal data v =
      match parseJSON data.toList with
      | none => none
      | some j => if shapeError j then none else some (decodeValue j v).value := by
  unfold Unmarshal
  cases parseJSON data.toList with
  | none => rfl
  | some j => simp [decodeValue_typeError]

theorem tokenExchange_ok (env : Env) (world : World) (ctx : Context) (body : String)
    (raw : OAuthAccessTokenResponseRaw) (hfresh : ctx.unwritten)
    (hpost : world.Post (tokenExchangeCall env ctx) = PostResult.reply 200 (some body))
    (hun : Unmarshal body zeroRaw = some raw) :
    (tokenExchange env world ctx).response.status = 200
      ∧ (tokenExchange env world ctx).response.body = Marshal (OAuthAccessTokenResponse.ofRaw raw)
      ∧ (tokenExchange env world ctx).IsAborted = ctx.IsAborted
      ∧ (tokenExchange env world ctx).bodyReads = ctx.bodyReads + 1 := by
  have hw := render_writer
    ({ ctx with outbound := ctx.outbound ++ [tokenExchangeCall env ctx],
                bodyReads := ctx.bodyReads + 1 } : Context) 200
    "application/json; charset=utf-8" (Marshal (OAuthAccessTokenResponse.ofRaw raw)) hfresh
    (by decide) (by decide)
  have hr := render_record
    ({ ctx with outbound := ctx.outbound ++ [tokenExchangeCall env ctx],
                bodyReads := ctx.bodyReads + 1 } : Context) 200
    "application/json; charset=utf-8" (Marshal (OAuthAccessTokenResponse.ofRaw raw))
  simp only [tokenExchange, hpost, hun, StatusOK, ne_eq, not_true_eq_false, if_false,
    Context.JSON]
  refine ⟨?_, ?_, ?_, ?_⟩
  · simp [Context.response, hw]
  · simp [Context.response, hw]
  · simp [Context.IsAborted, hr.2.1]
  · simp [hr.2.2.2.2]

theorem tokenExchange_bad (env : Env) (world : World) (ctx : Context) (body : String)
    (hfresh : ctx.unwritten)
    (hpost : world.Post (tokenExchangeCall env ctx) = PostResult.reply 200 (some body))
    (hun : Unmarshal body zeroRaw = none) :
    (tokenExchange env world ctx).response
        = { status := 400, header := ctx.Writer.header, body := "" }
      ∧ (tokenExchange env world ctx).IsAborted = true := by
  have hfresh2 : ({ ctx with outbound := ctx.outbound ++ [tokenExchangeCall env ctx],
                              bodyReads := ctx.bodyReads + 1 } : Context).unwritten := hfresh
  simp only [tokenExchange, hpost, hun, StatusOK, ne_eq, not_true_eq_false, if_false]
  constructor
  · rw [abortWithStatus_response _ _ hfresh2 (by decide)]; rfl
  · exact abortWithStatus_aborted _ _

theorem mem_matched (f : RawField) (ms : List (String × Json)) (m : String × Json)
    (hm : m ∈ ms) (hf : findField m.1 = some f) : m.2 ∈ matched f ms := by
  unfold matched
  simp only [List.mem_map, List.mem_filter, decide_eq_true_eq]
  exact ⟨m, ⟨hm, hf⟩, rfl⟩

/-- The handler, run on a context with nothing written, on an upstream 200
whose object has one matched member per field. -/
theorem success_at_handler (env : Env) (world : World) (ctx : Context) (body : String)
    (members : List (String × Json)) (a r : String) (lit : List Char) (n : Nat)
    (hfresh : ctx.unwritten)
    (hpost : world.Post (tokenExchangeCall env ctx) = PostResult.reply 200 (some body))
    (hparse : parseJSON body.toList = some (Json.obj members))
    (hA : matched RawField.AccessToken members = [Json.str a])
    (hR : matched RawField.RefreshToken members = [Json.str r])
    (hE : matched RawField.ExpiresIn members = [Json.num lit])
    (hn : parseUint lit = some n) :
    (tokenExchange env world ctx).response.status = 200
      ∧ (tokenExchange env world ctx).response.body
          = Marshal { AccessToken := a, RefreshToken := r, ExpiresIn := n }
      ∧ parseJSON (tokenExchange env world ctx).response.body.toList
          = some (Json.obj [("AccessToken", Json.str a), ("RefreshToken", Json.str r),
              ("ExpiresIn", Json.num (formatUint n))])
      ∧ parseUint (formatUint n) = some n
      ∧ (tokenExchange env world ctx).response.header.Get "Content-Type"
          = (if ctx.Writer.header.Has "Content-Type" then ctx.Writer.header.Get "Content-Type"
             else "application/json; charset=utf-8") := by
  have hshape : shapeError (Json.obj members) = false := by
    simp only [shapeError, List.any_eq_false]
    intro m hm
    unfold memberBad
    cases hf : findField m.1 with
    | none => simp
    | some f =>
      have hmem := mem_matched f members m hm hf
      cases f with
      | AccessToken =>
        rw [hA] at hmem
        simp only [List.mem_singleton] at hmem
        simp [hmem, badString]
      | RefreshToken =>
        rw [hR] at hmem
        simp only [List.mem_singleton] at hmem
        simp [hmem, badString]
      | ExpiresIn =>
        rw [hE] at hmem
        simp only [List.mem_singleton] at hmem
        simp [hmem, badUint, hn]
  have hval : (decodeValue (Json.obj members) zeroRaw).value
      = { AccessToken := a, RefreshToken := r, ExpiresIn := n } := by
    have h1 := decode_accessToken members { value := zeroRaw, typeError := false }
    have h2 := decode_refreshToken members { value := zeroRaw, typeError := false }
    have h3 := decode_expiresIn members { value := zeroRaw, typeError := false }
    rw [hA] at h1
    rw [hR] at h2
    rw [hE] at h3
    simp only [List.foldl_cons, List.foldl_nil, storeString, storeUint, hn] at h1 h2 h3
    simp only [decodeValue]
    cases hv : (List.foldl decodeMember { value := zeroRaw, typeError := false } members).value
    rw [hv] at h1 h2 h3
    simp only at h1 h2 h3
    rw [h1, h2, h3]
  have hun : Unmarshal body zeroRaw
      = some { AccessToken := a, RefreshToken := r, ExpiresIn := n } := by
    rw [unmarshal_eq, hparse]
    simp only [hshape, Bool.false_eq_true, if_false, hval]
  have hok := tokenExchange_ok env world ctx body _ hfresh hpost hun
  have hbound : n < 2 ^ uintSize := by
    unfold parseUint at hn
    cases lit with
    | nil => simp at hn
    | cons c cs =>
      simp only at hn
      cases hd : digitsValue 0 (c :: cs) with
      | none => simp [hd] at hn
      | some m =>
        simp only [hd] at hn
        by_cases hm : m < 2 ^ uintSize
        · simp only [hm, if_true, Option.some.injEq] at hn
          rw [← hn]; exact hm
        · simp [hm] at hn
  refine ⟨hok.1, hok.2.1, ?_, parseUint_formatUint n hbound, ?_⟩
  · rw [hok.2.1]
    exact parse_marshal _
  have hw := render_writer
    ({ ctx with outbound := ctx.outbound ++ [tokenExchangeCall env ctx],
                bodyReads := ctx.bodyReads + 1 } : Context) 200
    "application/json; charset=utf-8"
    (Marshal (OAuthAccessTokenResponse.ofRaw { AccessToken := a, RefreshToken := r, ExpiresIn := n }))
    hfresh (by decide) (by decide)
  simp only [tokenExchange, hpost, hun, StatusOK, ne_eq, not_true_eq_false, if_false,
    Context.JSON, Context.response, hw]
  split
  · rfl
  · exact header_get_set_eq _ _ _

/-- C1 as amended: when the upstream replies 200 with a JSON object in
which exactly one member is matched to each of access_token, refresh_token
and expires_in (keys compared as encoding/json does, exactly or under case
folding), with the values a string `a`, a string `r` and a number written in
decimal digits whose value `n` fits a `uint`, the handler answers 200 with the
JSON encoding of AccessToken = `a`, RefreshToken = `r`, ExpiresIn = `n`; other
members are ignored; in non-TLS mode this is the response of the service to
a GET on the token route. -/
theorem success_path (env : Env) (world : World) (ctx : Context) (body : String)
    (members : List (String × Json)) (a r : String) (lit : List Char) (n : Nat)
    (hfresh : ctx.unwritten)
    (hpost : world.Post (tokenExchangeCall env ctx) = PostResult.reply 200 (some body))
    (hparse : parseJSON body.toList = some (Json.obj members))
    (hA : matched RawField.AccessToken members = [Json.str a])
    (hR : matched RawField.RefreshToken members = [Json.str r])
    (hE : matched RawField.ExpiresIn members = [Json.num lit])
    (hn : parseUint lit = some n) :
    (tokenExchange env world ctx).response.status = 200
      ∧ (tokenExchange env world ctx).response.body
          = Marshal { AccessToken := a, RefreshToken := r, ExpiresIn := n }
      ∧ parseJSON (tokenExchange env world ctx).response.body.toList
          = some (Json.obj [("AccessToken", Json.str a), ("RefreshToken", Json.str r),
              ("ExpiresIn", Json.num (formatUint n))])
      ∧ parseUint (formatUint n) = some n
      ∧ (tokenExchange env world ctx).response.header.Get "Content-Type"
          = (if ctx.Writer.header.Has "Content-Type" then ctx.Writer.header.Get "Content-Type"
             else "application/json; charset=utf-8")
      ∧ (ctx.Request.Method = "GET" → ctx.Request.Path = "/v0/integrations/figma/token" →
          (serve false env world ctx.Request).status = 200
            ∧ (serve false env world ctx.Request).body
                = Marshal { AccessToken := a, RefreshToken := r, ExpiresIn := n }
            ∧ (serve false env world ctx.Request).header.Get "Content-Type"
                = "application/json; charset=utf-8") := by
  obtain ⟨h1, h2, h3, h4, h5⟩ :=
    success_at_handler env world ctx body members a r lit n hfresh hpost hparse hA hR hE hn
  refine ⟨h1, h2, h3, h4, h5, fun hm hp => ?_⟩
  have hs := serve_token_route env world ctx.Request hm hp
  have hh := success_at_handler env world
    (stageInput ctx.Request 200 Stage.FigmaTokenExchangeHandler) body members a r lit n
    hs.2 hpost hparse hA hR hE hn
  rw [hs.1]
  refine ⟨hh.1, hh.2.1, ?_⟩
  rw [hh.2.2.2.2]
  exact if_neg (stageInput_no_content_type ctx.Request)

/-- C1 at the claim's input: the upstream body
`{"access_token":"tok","refresh_token":"ref","expires_in":3600}` gives 200
with `{"AccessToken":"tok","RefreshToken":"ref","ExpiresIn":3600}`, from the
handler and from the service. -/
theorem success_path_witness :
    (tokenExchange sampleEnv (sampleWorld (PostResult.reply 200 (some sampleBody)))
        (newContext (sampleRequest "GET" "/v0/integrations/figma/token" (ascii "Code=abc123") ""))).response.status
        = 200
      ∧ (tokenExchange sampleEnv (sampleWorld (PostResult.reply 200 (some sampleBody)))
        (newContext (sampleRequest "GET" "/v0/integrations/figma/token" (ascii "Code=abc123") ""))).response.body
        = "\x7b\"AccessToken\":\"tok\",\"RefreshToken\":\"ref\",\"ExpiresIn\":3600\x7d"
      ∧ (serve false sampleEnv (sampleWorld (PostResult.reply 200 (some sampleBody)))
          (sampleRequest "GET" "/v0/integrations/figma/token" (ascii "Code=abc123") "")).body
        = "\x7b\"AccessToken\":\"tok\",\"RefreshToken\":\"ref\",\"ExpiresIn\":3600\x7d" :=
  ⟨(success_path sampleEnv (sampleWorld (PostResult.reply 200 (some sampleBody)))
      (newContext (sampleRequest "GET" "/v0/integrations/figma/token" (ascii "Code=abc123") ""))
      sampleBody
      [("access_token", Json.str "tok"), ("refresh_token", Json.str "ref"),
        ("expires_in", Json.num ['3', '6', '0', '0'])]
      "tok" "ref" ['3', '6', '0', '0'] 3600 (by decide) rfl rfl rfl rfl rfl rfl).1,
   ((success_path sampleEnv (sampleWorld (PostResult.reply 200 (some sampleBody)))
      (newContext (sampleRequest "GET" "/v0/integrations/figma/token" (ascii "Code=abc123") ""))
      sampleBody
      [("access_token", Json.str "tok"), ("refresh_token", Json.str "ref"),
        ("expires_in", Json.num ['3', '6', '0', '0'])]
      "tok" "ref" ['3', '6', '0', '0'] 3600 (by decide) rfl rfl rfl rfl rfl rfl).2.1).trans rfl,
   (((success_path sampleEnv (sampleWorld (PostResult.reply 200 (some sampleBody)))
      (newContext (sampleRequest "GET" "/v0/integrations/figma/token" (ascii "Code=abc123") ""))
      sampleBody
      [("access_token", Json.str "tok"), ("refresh_token", Json.str "ref"),
        ("expires_in", Json.num ['3', '6', '0', '0'])]
      "tok" "ref" ['3', '6', '0', '0'] 3600 (by decide) rfl rfl rfl rfl rfl rfl).2.2.2.2.2
        rfl rfl).2.1).trans rfl⟩

/-- C1 as stated fails: the upstream body is a JSON object with the string
fields access_token = `tok`, refresh_token = `ref` and the unsigned-integer
field expires_in = 3600, but it also has a member `EXPIRES_IN`, which
encoding/json stores into the same field; its value is a string, so the
decode fails and the handler, and with it the service, answers 400 with an
empty body. -/
theorem success_path_fails_on_case_variant_key :
    parseJSON duplicateKeyBody.toList
        = some (Json.obj [("access_token", Json.str "tok"), ("refresh_token", Json.str "ref"),
            ("expires_in", Json.num ['3', '6', '0', '0']), ("EXPIRES_IN", Json.str "soon")])
      ∧ (tokenExchange sampleEnv (sampleWorld (PostResult.reply 200 (some duplicateKeyBody)))
          (newContext (sampleRequest "GET" "/v0/integrations/figma/token" (ascii "Code=abc123") ""))).response
          = { status := 400, header := ⟨[]⟩, body := "" }
      ∧ serve false sampleEnv (sampleWorld (PostResult.reply 200 (some duplicateKeyBody)))
          (sampleRequest "GET" "/v0/integrations/figma/token" (ascii "Code=abc123") "")
          = { status := 400, header := ⟨[]⟩, body := "" } := by
  refine ⟨rfl, rfl, rfl⟩

/-- The handler, run on a context with nothing written, on an upstream 200
whose body does not parse or has a shape error. -/
theorem malformed_at_handler (env : Env) (world : World) (ctx : Context)
    (body : String) (hfresh : ctx.unwritten)
    (hpost : world.Post (tokenExchangeCall env ctx) = PostResult.reply 200 (some body))
    (hbad : parseJSON body.toList = none
      ∨ ∃ j, parseJSON body.toList = some j ∧ shapeError j = true) :
    (tokenExchange env world ctx).response
        = { status := 400, header := ctx.Writer.header, body := "" }
      ∧ (tokenExchange env world ctx).IsAborted = true := by
  apply tokenExchange_bad env world ctx body hfresh hpost
  rw [unmarshal_eq]
  rcases hbad with h | ⟨j, h, hs⟩
  · rw [h]
  · rw [h]; simp [hs]

/-- C3 as amended: when the upstream replies 200 with a body that is not
valid JSON, or whose JSON value is neither an object nor `null`, or is an
object with a member matched to access_token or refresh_token whose value is
neither a string nor `null`, or a member matched to expires_in whose value is
neither `null` nor a number written in decimal digits below `2 ^ 64` (so
negative, fractional, with an exponent, too large, or a string), the handler
answers 400 with an empty body and aborts; in non-TLS mode this is the
response of the service to a GET on the token route. -/
theorem malformed_body_gives_bad_request (env : Env) (world : World) (ctx : Context)
    (body : String) (hfresh : ctx.unwritten)
    (hpost : world.Post (tokenExchangeCall env ctx) = PostResult.reply 200 (some body))
    (hbad : parseJSON body.toList = none
      ∨ ∃ j, parseJSON body.toList = some j ∧ shapeError j = true) :
    (tokenExchange env world ctx).response
        = { status := 400, header := ctx.Writer.header, body := "" }
      ∧ (tokenExchange env world ctx).IsAborted = true
      ∧ (ctx.Request.Method = "GET" → ctx.Request.Path = "/v0/integrations/figma/token" →
          (serve false env world ctx.Request).status = 400
            ∧ (serve false env world ctx.Request).body = "") := by
  obtain ⟨h1, h2⟩ := malformed_at_handler env world ctx body hfresh hpost hbad
  refine ⟨h1, h2, fun hm hp => ?_⟩
  have hs := serve_token_route env world ctx.Request hm hp
  have hh := malformed_at_handler env world
    (stageInput ctx.Request 200 Stage.FigmaTokenExchangeHandler) body hs.2 hpost hbad
  rw [hs.1, hh.1]
  exact ⟨rfl, rfl⟩

/-- C3 at concrete inputs: the body `not json` of the claim, and bodies
whose expires_in is negative, fractional, a string or too large, or whose
access_token is a number, all give 400. -/
theorem malformed_body_witness :
    (tokenExchange sampleEnv (sampleWorld (PostResult.reply 200 (some "not json")))
        (newContext (sampleRequest "GET" "/v0/integrations/figma/token" [] ""))).response
        = { status := 400, header := ⟨[]⟩, body := "" }
      ∧ (tokenExchange sampleEnv
          (sampleWorld (PostResult.reply 200 (some "\x7b\"expires_in\":-1\x7d")))
          (newContext (sampleRequest "GET" "/v0/integrations/figma/token" [] ""))).response.status
          = 400
      ∧ (tokenExchange sampleEnv
          (sampleWorld (PostResult.reply 200 (some "\x7b\"expires_in\":1.5\x7d")))
          (newContext (sampleRequest "GET" "/v0/integrations/figma/token" [] ""))).response.status
          = 400
      ∧ (tokenExchange sampleEnv
          (sampleWorld (PostResult.reply 200 (some "\x7b\"expires_in\":\"3600\"\x7d")))
          (newContext (sampleRequest "GET" "/v0/integrations/figma/token" [] ""))).response.status
          = 400
      ∧ (tokenExchange sampleEnv
          (sampleWorld (PostResult.reply 200 (some "\x7b\"expires_in\":18446744073709551616\x7d")))
          (newContext (sampleRequest "GET" "/v0/integrations/figma/token" [] ""))).response.status
          = 400
      ∧ (tokenExchange sampleEnv
          (sampleWorld (PostResult.reply 200 (some "\x7b\"access_token\":5\x7d")))
          (newContext (sampleRequest "GET" "/v0/integrations/figma/token" [] ""))).response.status
          = 400
      ∧ (serve false sampleEnv (sampleWorld (PostResult.reply 200 (some "not json")))
          (sampleRequest "GET" "/v0/integrations/figma/token" [] "")).status = 400
      ∧ (serve false sampleEnv (sampleWorld (PostResult.reply 200 (some "not json")))
          (sampleRequest "GET" "/v0/integrations/figma/token" [] "")).body = "" :=
  ⟨(malformed_body_gives_bad_request sampleEnv _ _ "not json" (by decide) rfl (Or.inl rfl)).1,
   congrArg Response.status (malformed_body_gives_bad_request sampleEnv _ _
      "\x7b\"expires_in\":-1\x7d" (by decide) rfl
      (Or.inr ⟨Json.obj [("expires_in", Json.num ['-', '1'])], rfl, rfl⟩)).1,
   congrArg Response.status (malformed_body_gives_bad_request sampleEnv _ _
      "\x7b\"expires_in\":1.5\x7d" (by decide) rfl
      (Or.inr ⟨Json.obj [("expires_in", Json.num ['1', '.', '5'])], rfl, rfl⟩)).1,
   congrArg Response.status (malformed_body_gives_bad_request sampleEnv _ _
      "\x7b\"expires_in\":\"3600\"\x7d" (by decide) rfl
      (Or.inr ⟨Json.obj [("expires_in", Json.str "3600")], rfl, rfl⟩)).1,
   congrArg Response.status (malformed_body_gives_bad_request sampleEnv _ _
      "\x7b\"expires_in\":18446744073709551616\x7d" (by decide) rfl
      (Or.inr ⟨Json.obj [("expires_in", Json.num "18446744073709551616".toList)], rfl, rfl⟩)).1,
   congrArg Response.status (malformed_body_gives_bad_request sampleEnv _ _
      "\x7b\"access_token\":5\x7d" (by decide) rfl
      (Or.inr ⟨Json.obj [("access_token", Json.num ['5'])], rfl, rfl⟩)).1,
   (malformed_body_gives_bad_request sampleEnv
      (sampleWorld (PostResult.reply 200 (some "not json")))
      (newContext (sampleRequest "GET" "/v0/integrations/figma/token" [] ""))
      "not json" (by decide) rfl (Or.inl rfl)).2.2 rfl rfl⟩

/-- C3 as stated fails: in this upstream body access_token is `null`, not a
string, yet the decode succeeds (encoding/json leaves the field as it is) and
the handler, and with it the service, answers 200 with an empty AccessToken. -/
theorem null_field_is_not_an_error :
    parseJSON nullFieldBody.toList
        = some (Json.obj [("access_token", Json.null), ("refresh_token", Json.str "ref"),
            ("expires_in", Json.num ['3', '6', '0', '0'])])
      ∧ (tokenExchange sampleEnv (sampleWorld (PostResult.reply 200 (some nullFieldBody)))
          (newContext (sampleRequest "GET" "/v0/integrations/figma/token" [] ""))).response.status
          = 200
      ∧ (tokenExchange sampleEnv (sampleWorld (PostResult.reply 200 (some nullFieldBody)))
          (newContext (sampleRequest "GET" "/v0/integrations/figma/token" [] ""))).response.body
          = "\x7b\"AccessToken\":\"\",\"RefreshToken\":\"ref\",\"ExpiresIn\":3600\x7d"
      ∧ (serve false sampleEnv (sampleWorld (PostResult.reply 200 (some nullFieldBody)))
          (sampleRequest "GET" "/v0/integrations/figma/token" [] "")).status = 200
      ∧ (serve false sampleEnv (sampleWorld (PostResult.reply 200 (some nullFieldBody)))
          (sampleRequest "GET" "/v0/integrations/figma/token" [] "")).body
          = "\x7b\"AccessToken\":\"\",\"RefreshToken\":\"ref\",\"ExpiresIn\":3600\x7d" := by
  refine ⟨rfl, rfl, rfl, rfl, rfl⟩

theorem storeString_fold_null (vs : List Json) (cur : String)
    (h : ∀ v ∈ vs, v = Json.null) :
    vs.foldl (fun c j => (storeString j c).1) cur = cur := by
  induction vs generalizing cur with
  | nil => rfl
  | cons v rest ih =>
    have hv : v = Json.null := h v (by simp)
    subst hv
    simp only [List.foldl_cons, storeString]
    exact ih cur (fun w hw => h w (by simp [hw]))

theorem storeUint_fold_null (vs : List Json) (cur : Nat)
    (h : ∀ v ∈ vs, v = Json.null) :
    vs.foldl (fun c j => (storeUint j c).1) cur = cur := by
  induction vs generalizing cur with
  | nil => rfl
  | cons v rest ih =>
    have hv : v = Json.null := h v (by simp)
    subst hv
    simp only [List.foldl_cons, storeUint]
    exact ih cur (fun w hw => h w (by simp [hw]))

theorem decode_skips_unmatched (ms : List (String × Json)) (st : DecodeState) :
    ms.foldl decodeMember st
      = (ms.filter (fun m => (findField m.1).isSome)).foldl decodeMember st := by
  induction ms generalizing st with
  | nil => rfl
  | cons m rest ih =>
    cases hf : findField m.1 with
    | none =>
      have hd : decodeMember st m = st := by simp [decodeMember, hf]
      simp only [List.foldl_cons, hd]
      rw [List.filter_cons_of_neg (by simp [hf])]
      exact ih st
    | some f =>
      rw [List.filter_cons_of_pos (by simp [hf])]
      simp only [List.foldl_cons]
      exact ih _

/-- The handler, run on a context with nothing written, on an upstream 200
whose body is valid JSON without a shape error. -/
theorem missing_at_handler (env : Env) (world : World) (ctx : Context) (body : String)
    (j : Json) (hfresh : ctx.unwritten)
    (hpost : world.Post (tokenExchangeCall env ctx) = PostResult.reply 200 (some body))
    (hparse : parseJSON body.toList = some j) (hok : shapeError j = false) :
    (tokenExchange env world ctx).response.status = 200
      ∧ (tokenExchange env world ctx).response.body
          = Marshal (OAuthAccessTokenResponse.ofRaw (decodeValue j zeroRaw).value)
      ∧ parseJSON (tokenExchange env world ctx).response.body.toList
          = some (Json.obj [("AccessToken", Json.str (decodeValue j zeroRaw).value.AccessToken),
              ("RefreshToken", Json.str (decodeValue j zeroRaw).value.RefreshToken),
              ("ExpiresIn", Json.num (formatUint (decodeValue j zeroRaw).value.ExpiresIn))])
      ∧ ((∀ v ∈ matched RawField.AccessToken (membersOf j), v = Json.null) →
          (decodeValue j zeroRaw).value.AccessToken = "")
      ∧ ((∀ v ∈ matched RawField.RefreshToken (membersOf j), v = Json.null) →
          (decodeValue j zeroRaw).value.RefreshToken = "")
      ∧ ((∀ v ∈ matched RawField.ExpiresIn (membersOf j), v = Json.null) →
          (decodeValue j zeroRaw).value.ExpiresIn = 0)
      ∧ decodeValue j zeroRaw
          = decodeValue (Json.obj ((membersOf j).filter (fun m => (findField m.1).isSome)))
              zeroRaw := by
  have hun : Unmarshal body zeroRaw = some (decodeValue j zeroRaw).value := by
    rw [unmarshal_eq, hparse]
    simp [hok]
  have hres := tokenExchange_ok env world ctx body _ hfresh hpost hun
  refine ⟨hres.1, hres.2.1, ?_, ?_, ?_, ?_, ?_⟩
  · rw [hres.2.1]
    exact parse_marshal _
  · intro h
    cases j with
    | obj members =>
      simp only [decodeValue, decode_accessToken]
      exact storeString_fold_null _ _ h
    | _ => rfl
  · intro h
    cases j with
    | obj members =>
      simp only [decodeValue, decode_refreshToken]
      exact storeString_fold_null _ _ h
    | _ => rfl
  · intro h
    cases j with
    | obj members =>
      simp only [decodeValue, decode_expiresIn]
      exact storeUint_fold_null _ _ h
    | _ => rfl
  · cases j with
    | obj members =>
      simp only [decodeValue, membersOf]
      exact decode_skips_unmatched members _
    | null => rfl
    | _ => simp [shapeError] at hok

/-- C9 as amended: when the upstream replies 200 with valid JSON that has
no shape error, the handler answers 200 with the JSON encoding of the decoded
struct; a field to which no member is matched (keys compared exactly or under
case folding), or only `null` members, is emitted with its zero value, so
`{}` and `null` give 200 with empty tokens; members matched to no field do
not change the result; in non-TLS mode this is the response of the service
to a GET on the token route. -/
theorem missing_fields_are_zero (env : Env) (world : World) (ctx : Context) (body : String)
    (j : Json) (hfresh : ctx.unwritten)
    (hpost : world.Post (tokenExchangeCall env ctx) = PostResult.reply 200 (some body))
    (hparse : parseJSON body.toList = some j) (hok : shapeError j = false) :
    (tokenExchange env world ctx).response.status = 200
      ∧ (tokenExchange env world ctx).response.body
          = Marshal (OAuthAccessTokenResponse.ofRaw (decodeValue j zeroRaw).value)
      ∧ parseJSON (tokenExchange env world ctx).response.body.toList
          = some (Json.obj [("AccessToken", Json.str (decodeValue j zeroRaw).value.AccessToken),
              ("RefreshToken", Json.str (decodeValue j zeroRaw).value.RefreshToken),
              ("ExpiresIn", Json.num (formatUint (decodeValue j zeroRaw).value.ExpiresIn))])
      ∧ ((∀ v ∈ matched RawField.AccessToken (membersOf j), v = Json.null) →
          (decodeValue j zeroRaw).value.AccessToken = "")
      ∧ ((∀ v ∈ matched RawField.RefreshToken (membersOf j), v = Json.null) →
          (decodeValue j zeroRaw).value.RefreshToken = "")
      ∧ ((∀ v ∈ matched RawField.ExpiresIn (membersOf j), v = Json.null) →
          (decodeValue j zeroRaw).value.ExpiresIn = 0)
      ∧ decodeValue j zeroRaw
          = decodeValue (Json.obj ((membersOf j).filter (fun m => (findField m.1).isSome)))
              zeroRaw
      ∧ (ctx.Request.Method = "GET" → ctx.Request.Path = "/v0/integrations/figma/token" →
          (serve false env world ctx.Request).status = 200
            ∧ (serve false env world ctx.Request).body
                = Marshal (OAuthAccessTokenResponse.ofRaw (decodeValue j zeroRaw).value)) := by
  obtain ⟨h1, h2, h3, h4, h5, h6, h7⟩ :=
    missing_at_handler env world ctx body j hfresh hpost hparse hok
  refine ⟨h1, h2, h3, h4, h5, h6, h7, fun hm hp => ?_⟩
  have hs := serve_token_route env world ctx.Request hm hp
  have hh := missing_at_handler env world
    (stageInput ctx.Request 200 Stage.FigmaTokenExchangeHandler) body j hs.2 hpost hparse hok
  rw [hs.1]
  exact ⟨hh.1, hh.2.1⟩

/-- C9 at the claim's inputs: the bodies `{}` and `null` give 200 with
empty tokens, and an object with only access_token gives 200 with the other
two fields zero. -/
theorem missing_fields_witness :
    (tokenExchange sampleEnv (sampleWorld (PostResult.reply 200 (some "\x7b\x7d")))
        (newContext (sampleRequest "GET" "/v0/integrations/figma/token" [] ""))).response.body
        = "\x7b\"AccessToken\":\"\",\"RefreshToken\":\"\",\"ExpiresIn\":0\x7d"
      ∧ (tokenExchange sampleEnv (sampleWorld (PostResult.reply 200 (some "null")))
        (newContext (sampleRequest "GET" "/v0/integrations/figma/token" [] ""))).response.body
        = "\x7b\"AccessToken\":\"\",\"RefreshToken\":\"\",\"ExpiresIn\":0\x7d"
      ∧ (tokenExchange sampleEnv
          (sampleWorld (PostResult.reply 200 (some "\x7b\"access_token\":\"tok\"\x7d")))
        (newContext (sampleRequest "GET" "/v0/integrations/figma/token" [] ""))).response.body
        = "\x7b\"AccessToken\":\"tok\",\"RefreshToken\":\"\",\"ExpiresIn\":0\x7d"
      ∧ (tokenExchange sampleEnv (sampleWorld (PostResult.reply 200 (some "\x7b\x7d")))
        (newContext (sampleRequest "GET" "/v0/integrations/figma/token" [] ""))).response.status
        = 200
      ∧ (serve false sampleEnv (sampleWorld (PostResult.reply 200 (some "\x7b\x7d")))
          (sampleRequest "GET" "/v0/integrations/figma/token" [] "")).body
        = "\x7b\"AccessToken\":\"\",\"RefreshToken\":\"\",\"ExpiresIn\":0\x7d" :=
  ⟨((missing_fields_are_zero sampleEnv _ _ "\x7b\x7d" (Json.obj []) (by decide) rfl rfl rfl).2.1).trans
      rfl,
   ((missing_fields_are_zero sampleEnv _ _ "null" Json.null (by decide) rfl rfl rfl).2.1).trans rfl,
   ((missing_fields_are_zero sampleEnv _ _ "\x7b\"access_token\":\"tok\"\x7d"
      (Json.obj [("access_token", Json.str "tok")]) (by decide) rfl rfl rfl).2.1).trans rfl,
   (missing_fields_are_zero sampleEnv _ _ "\x7b\x7d" (Json.obj []) (by decide) rfl rfl rfl).1,
   (((missing_fields_are_zero sampleEnv
      (sampleWorld (PostResult.reply 200 (some "\x7b\x7d")))
      (newContext (sampleRequest "GET" "/v0/integrations/figma/token" [] ""))
      "\x7b\x7d" (Json.obj []) (by decide) rfl rfl rfl).2.2.2.2.2.2.2 rfl rfl).2).trans rfl⟩

/-- C9 as stated fails: this upstream body decodes without a type error
and has no member named `access_token` (its one member is named
`ACCESS_TOKEN`), yet AccessToken is not emitted with its zero value and the
other member is not dropped: encoding/json matches keys under case folding. -/
theorem missing_field_filled_by_case_variant :
    parseJSON upperKeyBody.toList = some (Json.obj [("ACCESS_TOKEN", Json.str "x")])
      ∧ shapeError (Json.obj [("ACCESS_TOKEN", Json.str "x")]) = false
      ∧ ([("ACCESS_TOKEN", Json.str "x")].filter fun m => m.1 = "access_token") = []
      ∧ (tokenExchange sampleEnv (sampleWorld (PostResult.reply 200 (some upperKeyBody)))
          (newContext (sampleRequest "GET" "/v0/integrations/figma/token" [] ""))).response.status
          = 200
      ∧ (tokenExchange sampleEnv (sampleWorld (PostResult.reply 200 (some upperKeyBody)))
          (newContext (sampleRequest "GET" "/v0/integrations/figma/token" [] ""))).response.body
          = "\x7b\"AccessToken\":\"x\",\"RefreshToken\":\"\",\"ExpiresIn\":0\x7d"
      ∧ (serve false sampleEnv (sampleWorld (PostResult.reply 200 (some upperKeyBody)))
          (sampleRequest "GET" "/v0/integrations/figma/token" [] "")).body
          = "\x7b\"AccessToken\":\"x\",\"RefreshToken\":\"\",\"ExpiresIn\":0\x7d" := by
  refine ⟨rfl, rfl, rfl, rfl, rfl, rfl⟩

/-! ## The query string -/

set_option maxRecDepth 100000 in
theorem escaped_byte_roundtrip : ∀ c : Byte, shouldEscape c = true →
    ishex (upperhex (c.val / 16)) = true ∧ ishex (upperhex (c.val % 16)) = true
      ∧ (Fin.ofNat (unhex (upperhex (c.val / 16)) * 16 + unhex (upperhex (c.val % 16))) : Byte) = c := by
  decide

set_option maxRecDepth 100000 in
theorem kept_byte_plain : ∀ c : Byte, shouldEscape c = false →
    c.val ≠ 37 ∧ c.val ≠ 43 ∧ c.val ≠ 32 := by
  decide

set_option maxRecDepth 100000 in
theorem escaped_byte_plain : ∀ c : Byte, shouldEscape c = true →
    plainByte (upperhex (c.val / 16)) ∧ plainByte (upperhex (c.val % 16)) := by
  decide

set_option maxRecDepth 100000 in
theorem kept_byte_is_plain : ∀ c : Byte, shouldEscape c = false → plainByte c := by
  decide

theorem unescape_plus (rest : Bytes) :
    QueryUnescape ((43 : Byte) :: rest) = (QueryUnescape rest).map (fun t => (32 : Byte) :: t) := by
  have e1 : ((43 : Byte).val = 37) = False := by decide
  have e2 : ((43 : Byte).val = 43) = True := by decide
  cases rest with
  | nil => simp [QueryUnescape, e1, e2]
  | cons a r1 =>
    cases r1 with
    | nil => simp [QueryUnescape, e1, e2]
    | cons b r2 => simp [QueryUnescape, e1, e2]

theorem unescape_percent (h1 h2 : Byte) (rest : Bytes) (k1 : ishex h1 = true)
    (k2 : ishex h2 = true) :
    QueryUnescape ((37 : Byte) :: h1 :: h2 :: rest)
      = (QueryUnescape rest).map (fun t => (Fin.ofNat (unhex h1 * 16 + unhex h2) : Byte) :: t) := by
  have e1 : ((37 : Byte).val = 37) = True := by decide
  simp [QueryUnescape, e1, k1, k2]

theorem unescape_escape (x : Bytes) : QueryUnescape (QueryEscape x) = some x := by
  induction x with
  | nil => rfl
  | cons c rest ih =>
    unfold QueryEscape
    by_cases h32 : c.val = 32
    · have hc : c = (32 : Byte) := Fin.ext h32
      simp only [h32, if_true]
      rw [unescape_plus, ih, hc]
      rfl
    · simp only [h32, if_false]
      by_cases hs : shouldEscape c = true
      · obtain ⟨h1, h2, h3⟩ := escaped_byte_roundtrip c hs
        simp only [hs, if_true]
        rw [unescape_percent _ _ _ h1 h2, ih, h3]
        rfl
      · have hs2 : shouldEscape c = false := by simpa using hs
        obtain ⟨k1, k2, _⟩ := kept_byte_plain c hs2
        simp only [hs2, Bool.false_eq_true, if_false]
        unfold QueryUnescape
        simp [k1, k2, ih]

theorem escape_plain (x : Bytes) : ∀ b ∈ QueryEscape x, plainByte b := by
  induction x with
  | nil => intro b hb; simp [QueryEscape] at hb
  | cons c rest ih =>
    intro b hb
    unfold QueryEscape at hb
    by_cases h32 : c.val = 32
    · simp only [h32, if_true, List.mem_cons] at hb
      rcases hb with hb | hb
      · rw [hb]; decide
      · exact ih b hb
    · simp only [h32, if_false] at hb
      by_cases hs : shouldEscape c = true
      · obtain ⟨p1, p2⟩ := escaped_byte_plain c hs
        simp only [hs, if_true, List.mem_cons] at hb
        rcases hb with hb | hb | hb | hb
        · rw [hb]; decide
        · rw [hb]; exact p1
        · rw [hb]; exact p2
        · exact ih b hb
      · have hs2 : shouldEscape c = false := by simpa using hs
        simp only [hs2, Bool.false_eq_true, if_false, List.mem_cons] at hb
        rcases hb with hb | hb
        · rw [hb]; exact kept_byte_is_plain c hs2
        · exact ih b hb

theorem escape_ne_nil (x : Bytes) (hx : x ≠ []) : QueryEscape x ≠ [] := by
  cases x with
  | nil => exact absurd rfl hx
  | cons c rest =>
    unfold QueryEscape
    split
    · simp
    · split <;> simp

theorem cut_append (sep : Byte) (a b : Bytes) (ha : sep ∉ a) :
    cut sep (a ++ sep :: b) = (a, b) := by
  induction a with
  | nil => simp [cut]
  | cons c rest ih =>
    have hc : c ≠ sep := fun e => ha (by simp [e])
    have hr : sep ∉ rest := fun e => ha (by simp [e])
    simp [cut, hc, ih hr]

theorem pieces_single (sep : Byte) (a : Bytes) (ha : sep ∉ a) (hne : a ≠ []) :
    pieces sep a = [a] := by
  induction a with
  | nil => exact absurd rfl hne
  | cons c rest ih =>
    have hc : c ≠ sep := fun e => ha (by simp [e])
    have hr : sep ∉ rest := fun e => ha (by simp [e])
    cases rest with
    | nil => simp [pieces, hc]
    | cons d rest2 =>
      have := ih hr (by simp)
      simp only [pieces, hc, if_false] at this ⊢
      rw [this]

theorem pieces_append (sep : Byte) (a b : Bytes) (ha : sep ∉ a) (hne : a ≠ []) :
    pieces sep (a ++ sep :: b) = a :: pieces sep b := by
  induction a with
  | nil => exact absurd rfl hne
  | cons c rest ih =>
    have hc : c ≠ sep := fun e => ha (by simp [e])
    have hr : sep ∉ rest := fun e => ha (by simp [e])
    cases rest with
    | nil => simp [pieces, hc]
    | cons d rest2 =>
      have := ih hr (by simp)
      simp only [List.cons_append, pieces, hc, if_false] at this ⊢
      rw [this]

theorem escapedPair_plain (key value : Bytes) :
    ∀ b ∈ escapedPair key value, b.val ≠ 38 ∧ b.val ≠ 59 ∧ b.val ≠ 35 ∧ b.val ≠ 63 ∧ b.val ≠ 32 := by
  intro b hb
  simp only [escapedPair, List.mem_append, List.mem_cons] at hb
  rcases hb with hb | hb | hb
  · obtain ⟨h1, _, h3, h4, h5, h6⟩ := escape_plain key b hb
    exact ⟨h1, h3, h4, h5, h6⟩
  · rw [hb]; decide
  · obtain ⟨h1, _, h3, h4, h5, h6⟩ := escape_plain value b hb
    exact ⟨h1, h3, h4, h5, h6⟩

theorem escapedPair_no_amp (key value : Bytes) : (38 : Byte) ∉ escapedPair key value :=
  fun h => (escapedPair_plain key value _ h).1 rfl

theorem escapedPair_ne_nil (key value : Bytes) : escapedPair key value ≠ [] := by
  simp [escapedPair]

theorem parseQueryStep_pair (acc : ParsedQuery) (key value : Bytes) :
    parseQueryStep acc (escapedPair key value)
      = { acc with pairs := acc.pairs ++ [(key, value)] } := by
  have hsemi : (59 : Byte) ∉ escapedPair key value :=
    fun h => (escapedPair_plain key value _ h).2.1 rfl
  have heq : (61 : Byte) ∉ QueryEscape key := fun h => (escape_plain key _ h).2.1 rfl
  have hcut : cut 61 (escapedPair key value) = (QueryEscape key, QueryEscape value) :=
    cut_append 61 _ _ heq
  unfold parseQueryStep
  rw [if_neg hsemi, if_neg (escapedPair_ne_nil key value), hcut]
  simp only [unescape_escape]

theorem queryString_sorted (env : Env) (ctx : Context) :
    sortByKey (queryString env ctx).entries
      = [(ascii "client_id", [env.FIGMA_CLIENT_ID]),
         (ascii "client_secret", [env.FIGMA_CLIENT_SECRET]),
         (ascii "code", [ctx.Query (ascii "Code")]),
         (ascii "grant_type", [ascii "authorization_code"]),
         (ascii "redirect_uri", [env.FIGMA_REDIRECT_URI])] := by
  rfl

theorem queryString_encode (env : Env) (ctx : Context) :
    (queryString env ctx).Encode
      = escapedPair (ascii "client_id") env.FIGMA_CLIENT_ID ++ (38 : Byte) ::
        (escapedPair (ascii "client_secret") env.FIGMA_CLIENT_SECRET ++ (38 : Byte) ::
        (escapedPair (ascii "code") (ctx.Query (ascii "Code")) ++ (38 : Byte) ::
        (escapedPair (ascii "grant_type") (ascii "authorization_code") ++ (38 : Byte) ::
        escapedPair (ascii "redirect_uri") env.FIGMA_REDIRECT_URI))) := by
  unfold Values.Encode
  rw [queryString_sorted]
  simp [List.intercalate, escapedPair]

theorem find_eq_head_filter {α : Type} (p : α → Bool) (l : List α) :
    l.find? p = (l.filter p).head? := by
  induction l with
  | nil => rfl
  | cons a rest ih =>
    by_cases h : p a = true
    · rw [List.find?_cons_of_pos _ h, List.filter_cons_of_pos h]; rfl
    · rw [List.find?_cons_of_neg _ h, List.filter_cons_of_neg h]; exact ih

theorem tokenExchange_outbound (env : Env) (world : World) (ctx : Context) :
    (tokenExchange env world ctx).outbound = ctx.outbound ++ [tokenExchangeCall env ctx] := by
  unfold tokenExchange
  simp only
  split
  · exact (abortWithStatus_record _ _).2.1
  · split
    · exact (abortWithStatus_record _ _).2.1
    · split
      · exact (abortWithStatus_record _ _).2.1
      · split
        · exact (abortWithStatus_record _ _).2.1
        · simp [Context.JSON, render_record]

/-- C4: the handler makes one POST, with content type `application/json`
and an empty body, to the URL that is the configured endpoint, `?`, and the
encoded query string.  The query string decodes without error to exactly five
pairs: client_id, client_secret and redirect_uri with the configured values,
grant_type = authorization_code, and code with the first value of the caller's
query parameter named exactly `Code` (empty when there is none).  It holds no
`#`, `?` or space, so for an endpoint without `?` the part of the URL after
the first `?` is that query string: no code value can add a pair or change
another one. -/
theorem outbound_request_construction (env : Env) (world : World) (ctx : Context) :
    (tokenExchange env world ctx).outbound
        = ctx.outbound ++
          [{ url := env.FIGMA_TOKEN_EXCHANGE_ENDPOINT ++ ascii "?" ++ (queryString env ctx).Encode,
             contentType := "application/json", body := [] }]
      ∧ ParseQuery (queryString env ctx).Encode
          = { pairs := [(ascii "client_id", env.FIGMA_CLIENT_ID),
                        (ascii "client_secret", env.FIGMA_CLIENT_SECRET),
                        (ascii "code", ctx.Query (ascii "Code")),
                        (ascii "grant_type", ascii "authorization_code"),
                        (ascii "redirect_uri", env.FIGMA_REDIRECT_URI)],
              err := false }
      ∧ (∀ b ∈ (queryString env ctx).Encode, b.val ≠ 35 ∧ b.val ≠ 63 ∧ b.val ≠ 32)
      ∧ ((63 : Byte) ∉ env.FIGMA_TOKEN_EXCHANGE_ENDPOINT →
          cut 63 (tokenExchangeUrl env ctx)
            = (env.FIGMA_TOKEN_EXCHANGE_ENDPOINT, (queryString env ctx).Encode))
      ∧ (∀ v rest, (ParseQuery ctx.Request.RawQuery).pairs.filter (fun kv => kv.1 = ascii "Code")
            = (ascii "Code", v) :: rest → ctx.Query (ascii "Code") = v)
      ∧ ((ParseQuery ctx.Request.RawQuery).pairs.filter (fun kv => kv.1 = ascii "Code") = [] →
          ctx.Query (ascii "Code") = []) := by
  refine ⟨?_, ?_, ?_, ?_, ?_, ?_⟩
  · rw [tokenExchange_outbound]; rfl
  · rw [queryString_encode]
    unfold ParseQuery
    rw [pieces_append 38 _ _ (escapedPair_no_amp _ _) (escapedPair_ne_nil _ _),
      pieces_append 38 _ _ (escapedPair_no_amp _ _) (escapedPair_ne_nil _ _),
      pieces_append 38 _ _ (escapedPair_no_amp _ _) (escapedPair_ne_nil _ _),
      pieces_append 38 _ _ (escapedPair_no_amp _ _) (escapedPair_ne_nil _ _),
      pieces_single 38 _ (escapedPair_no_amp _ _) (escapedPair_ne_nil _ _)]
    simp only [List.foldl_cons, List.foldl_nil, parseQueryStep_pair]
    rfl
  · rw [queryString_encode]
    intro b hb
    simp only [List.mem_append, List.mem_cons] at hb
    have key : ∀ k v, b ∈ escapedPair k v → b.val ≠ 35 ∧ b.val ≠ 63 ∧ b.val ≠ 32 :=
      fun k v h => (escapedPair_plain k v b h).2.2
    have amp : b = (38 : Byte) → b.val ≠ 35 ∧ b.val ≠ 63 ∧ b.val ≠ 32 := by
      intro h; rw [h]; decide
    rcases hb with h | h | h | h | h | h | h | h | h
    · exact key _ _ h
    · exact amp h
    · exact key _ _ h
    · exact amp h
    · exact key _ _ h
    · exact amp h
    · exact key _ _ h
    · exact amp h
    · exact key _ _ h
  · intro hq
    unfold tokenExchangeUrl
    have h63 : ascii "?" = [(63 : Byte)] := rfl
    rw [h63, List.append_assoc]
    exact cut_append 63 _ _ hq
  · intro v rest hf
    unfold Context.Query
    cases hfind : (ParseQuery ctx.Request.RawQuery).pairs.find? (fun kv => kv.1 = ascii "Code") with
    | none =>
      rw [List.find?_eq_none] at hfind
      have : (ascii "Code", v) ∈ (ParseQuery ctx.Request.RawQuery).pairs.filter
          (fun kv => kv.1 = ascii "Code") := by rw [hf]; simp
      have hmem := (List.mem_filter.mp this).1
      exact absurd (by simp) (hfind _ hmem)
    | some kv =>
      have hhead : ((ParseQuery ctx.Request.RawQuery).pairs.filter
          (fun kv => kv.1 = ascii "Code")).head? = some kv := by
        rw [← find_eq_head_filter]
        exact hfind
      rw [hf] at hhead
      simp only [List.head?_cons, Option.some.injEq] at hhead
      rw [← hhead]
  · intro hf
    unfold Context.Query
    cases hfind : (ParseQuery ctx.Request.RawQuery).pairs.find? (fun kv => kv.1 = ascii "Code") with
    | none => rfl
    | some kv =>
      have h1 := List.find?_some hfind
      have h2 := List.mem_of_find?_eq_some hfind
      have : kv ∈ (ParseQuery ctx.Request.RawQuery).pairs.filter
          (fun kv => kv.1 = ascii "Code") := List.mem_filter.mpr ⟨h2, h1⟩
      rw [hf] at this
      exact absurd this (List.not_mem_nil _)

/-- C4 at concrete inputs: `Code=abc123` gives the query
`...&code=abc123&grant_type=authorization_code&...`; and a code that spells
`&client_id=evil#` (with a lowercase `code` parameter beside it, which is
ignored) is escaped, so the query still decodes to the configured client_id
and that code. -/
theorem outbound_request_witness :
    (tokenExchange sampleEnv (sampleWorld PostResult.failed)
        (newContext (sampleRequest "GET" "/v0/integrations/figma/token" (ascii "Code=abc123") ""))).outbound
        = [{ url := ascii "https://www.figma.com/api/oauth/token?client_id=id1&client_secret=s3cret&code=abc123&grant_type=authorization_code&redirect_uri=https%3A%2F%2Fapp.example%2Fcb",
             contentType := "application/json", body := [] }]
      ∧ ParseQuery (queryString sampleEnv
          (newContext (sampleRequest "GET" "/v0/integrations/figma/token"
            (ascii "code=x&Code=a%26client_id%3Devil%23") ""))).Encode
        = { pairs := [(ascii "client_id", ascii "id1"), (ascii "client_secret", ascii "s3cret"),
                      (ascii "code", ascii "a&client_id=evil#"),
                      (ascii "grant_type", ascii "authorization_code"),
                      (ascii "redirect_uri", ascii "https://app.example/cb")],
            err := false } :=
  ⟨(outbound_request_construction sampleEnv (sampleWorld PostResult.failed)
      (newContext (sampleRequest "GET" "/v0/integrations/figma/token" (ascii "Code=abc123") ""))).1.trans
      rfl,
   (outbound_request_construction sampleEnv (sampleWorld PostResult.failed)
      (newContext (sampleRequest "GET" "/v0/integrations/figma/token"
        (ascii "code=x&Code=a%26client_id%3Devil%23") ""))).2.1.trans rfl⟩

end FigmaAuth
